import Mathlib

/-!
# Imposter party game: room server (`server.js`)

A shallow embedding of the server-side room logic: the imposter-count rule, the
Fisher-Yates shuffle, the win-condition evaluator, role assignment at game start, the
vote tally, the event handlers of a room and the server around them (registry of rooms,
connections, pending timers), followed by the properties proved about them.

JavaScript values are embedded as follows.

* Socket ids, player names and vote targets are strings.
* Lengths and the round are `Nat` or `Int`. The numbers of the settings, which
  `update-settings` stores as the client sent them (clamped, not rounded), are finite
  JavaScript numbers, embedded as rationals.
* A plain object used as a dictionary (`voteCounts`, `room.state.votes`) is a `JsObj`:
  the list of its own properties in creation order, together with the two rules of
  ordinary objects that the code is exposed to: property enumeration puts array-index
  keys first, and reads fall through to `Object.prototype`.
* `Math.random` is a draw sequence: `draw i` is the value of
  `Math.floor(Math.random() * (i + 1))` in the loop iteration with index `i`.
* `io.to(..).emit(..)` and `setTimeout(..)` are returned as data (`Emit`, `Timer`).
* A handler is a function of the room it finds under `socket.roomCode`; `Server.step`
  looks the room up, runs the handler and stores the result. An uncaught exception ends
  the process (`crashed`).
-/

namespace Imposte

/-! ## Data model -/

/-- Connection identity (`socket.id`). -/
abbrev SocketId := String

/-- One entry of `room.players`. -/
structure Player where
  id : SocketId
  name : String
  isImposter : Bool
  eliminated : Bool
deriving DecidableEq

/-- The `room.settings` record. Each field holds a finite number. -/
structure Settings where
  timerDuration : ℚ
  imposterCount : ℚ
  maxRounds : ℚ
  hintTimer : ℚ
deriving DecidableEq

/-- The values taken by `room.state.phase`. -/
inductive Phase where
  | lobby
  | distribute
  | hints
  | discussion
  | voting
  | elimination
  | gameover
deriving DecidableEq

/-- The non-null results of `checkWinCondition`. -/
inductive Winner where
  | people
  | imposters
deriving DecidableEq

/-- A JavaScript number as it occurs in a vote count: a natural number or `NaN`. -/
inductive JsNum where
  | num (n : Nat)
  | nan
deriving DecidableEq

/-- A plain JavaScript object with string keys: its own properties in creation order. -/
structure JsObj (α : Type) where
  own : List (String × α)
deriving DecidableEq

/-- The `room.state` record. `wordSeen` is the lazily created `_wordSeen` set. -/
structure GameState where
  phase : Phase
  normalWord : String
  imposterWord : String
  round : Nat
  votes : JsObj String
  hintsGiven : List String
  tiedPlayers : List String
  votingOrder : List String
  votingIndex : Nat
  wordSeen : Option (List SocketId)
deriving DecidableEq

/-- One room of the registry. -/
structure Room where
  code : String
  host : SocketId
  players : List Player
  settings : Settings
  state : GameState
  voicePeers : List (SocketId × Option String)
deriving DecidableEq

/-! ## Imposter count -/

/-- The function `getImposterCount(playerCount, override)`. `playerCount` is the length of
an array; for a finite number `override` the test `override && override > 0` is
`override ≠ 0 ∧ override > 0`. -/
def getImposterCount (playerCount : Int) (override : ℚ) : ℚ :=
  if override ≠ 0 ∧ override > 0 ∧ override < (playerCount : ℚ) then override
  else if playerCount ≤ 9 then 1
  else if playerCount ≤ 12 then 2
  else 3

/-! ## Active players and the win condition -/

/-- The function `getActivePlayersInRoom(room)`: not eliminated and not the host. -/
def getActivePlayersInRoom (room : Room) : List Player :=
  room.players.filter (fun p => !p.eliminated && p.id != room.host)

/-- The function `checkWinCondition(room)`; `none` is `null` (the game continues). -/
def checkWinCondition (room : Room) : Option Winner :=
  let active := getActivePlayersInRoom room
  let imposters := active.filter (fun p => p.isImposter)
  let normals := active.filter (fun p => !p.isImposter)
  if imposters.length = 0 then some Winner.people
  else if normals.length ≤ 1 ∧ imposters.length > 0 then some Winner.imposters
  else if imposters.length > normals.length then some Winner.imposters
  else none

/-- Number of active imposters of a room. -/
def activeImposters (room : Room) : Nat :=
  ((getActivePlayersInRoom room).filter (fun p => p.isImposter)).length

/-- Number of active non-imposters of a room. -/
def activeNormals (room : Room) : Nat :=
  ((getActivePlayersInRoom room).filter (fun p => !p.isImposter)).length

/-- The three-way rule as the specification words it: no imposters, then at most one
normal, then "continue". -/
def specWinRule (imposters normals : Nat) : Option Winner :=
  if imposters = 0 then some Winner.people
  else if normals ≤ 1 then some Winner.imposters
  else none

/-- The rule the evaluator implements: the three-way rule with the extra case that
imposters outnumbering the normals also win. -/
def codeWinRule (imposters normals : Nat) : Option Winner :=
  if imposters = 0 then some Winner.people
  else if normals ≤ 1 ∨ imposters > normals then some Winner.imposters
  else none

/-- An empty game state in the given phase. -/
def blankState (phase : Phase) : GameState :=
  { phase := phase, normalWord := "", imposterWord := "", round := 0, votes := ⟨[]⟩,
    hintsGiven := [], tiedPlayers := [], votingOrder := [], votingIndex := 0,
    wordSeen := none }

/-- The settings a room is created with. -/
def defaultSettings : Settings :=
  { timerDuration := 120, imposterCount := 0, maxRounds := 0, hintTimer := 0 }

/-- A room with host `h` and three active imposters and two active normals. -/
def roomThreeVsTwo : Room :=
  { code := "ABCDEF", host := "h",
    players := [⟨"h", "Ann", false, false⟩, ⟨"s1", "Bob", true, false⟩,
      ⟨"s2", "Cara", true, false⟩, ⟨"s3", "Dee", true, false⟩,
      ⟨"s4", "Eve", false, false⟩, ⟨"s5", "Finn", false, false⟩],
    settings := defaultSettings, state := blankState Phase.hints, voicePeers := [] }

/-! ## Fisher-Yates shuffle -/

/-- The outcome of the random draws of one shuffle: `draw i` is the index
`Math.floor(Math.random() * (i + 1))` drawn in the iteration with loop index `i`,
an integer between `0` and `i`. -/
abbrev Draws := (i : Nat) → Fin (i + 1)

/-- The destructuring swap `[a[i], a[j]] = [a[j], a[i]]` for indices inside the array
(the loop only produces such indices). -/
def swapAt {α : Type} (a : List α) (i j : Nat) : List α :=
  match a[i]?, a[j]? with
  | some x, some y => (a.set i y).set j x
  | _, _ => a

/-- The loop `for (i = ..; i > 0; i--)` of `shuffleArray`, started at index `i`. -/
def shuffleLoop {α : Type} (draw : Draws) : Nat → List α → List α
  | 0, a => a
  | i + 1, a => shuffleLoop draw i (swapAt a (i + 1) (draw (i + 1)).val)

/-- The function `shuffleArray(arr)`: the loop runs from `arr.length - 1` down to `1` on a copy. -/
def shuffleArray {α : Type} (draw : Draws) (arr : List α) : List α :=
  shuffleLoop draw (arr.length - 1) arr

/-- The draws `(j_i)` for `i = 1, .., n - 1` that a shuffle of `n` elements consumes:
component `i` is `j_(i+1)`, a value between `0` and `i + 1`. -/
abbrev DrawSeq (n : Nat) := (i : Fin (n - 1)) → Fin (i.val + 2)

/-- A draw sequence for `n` elements as a draw outcome; the indices the loop never
asks for are filled with `0`. -/
def DrawSeq.toDraws {n : Nat} (d : DrawSeq n) : Draws := fun i =>
  match i with
  | 0 => 0
  | k + 1 => if h : k < n - 1 then d ⟨k, h⟩ else 0

/-- The draw outcome that always draws `0`. -/
def zeroDraws : Draws := fun _ => 0

/-- The array after the first swap of a shuffle of `b ++ [x]`, split into its front part
and its last element: the element at the drawn index `j` goes last. -/
def pickLast {α : Type} (b : List α) (x : α) (j : Nat) : List α × α :=
  if h : j < b.length then (b.set j x, b[j]) else (b, x)

/-- The draws a shuffle of `n` elements consumes, read off a draw outcome. -/
def DrawSeq.ofDraws (n : Nat) (draw : Draws) : DrawSeq n := fun i => draw (i.val + 1)

/-! ## Messages -/

/-- Recipient of an emitted message: a whole room (`io.to(code)`), one connection
(`io.to(id)`, `socket.emit`), or a room without the sender (`socket.to(code)`). -/
inductive Target where
  | room (code : String)
  | socket (id : SocketId)
  | roomExcept (code : String) (sender : SocketId)
deriving DecidableEq

/-- The `role` strings sent to clients. -/
inductive Role where
  | imposter
  | normal
deriving DecidableEq

/-- Server-to-client messages of the handlers embedded here, with their payloads. -/
inductive Event where
  | roomError (message : String)
  | yourWord (word : String) (role : Role)
  | gameStarted (players : List String) (imposterCount : ℚ) (settings : Settings)
  | grandMasterInfo (imposters : List String) (normalWord imposterWord : String)
      (participants : List (String × Bool))
  | voteResults (results : List (String × JsNum)) (eliminated : Option String)
      (role : Option Role) (tie : Bool) (tiedPlayers : Option (List String))
      (gameOver : Option (Option Winner))
  | roomCreated (roomCode : String)
  | roomJoined (roomCode : String)
  | playerJoined (players : List (String × Bool)) (host : Option String)
  | playerLeft (playerName : Option String) (players : List (String × Bool))
      (host : Option String)
  | settingsUpdated (settings : Settings)
  | wordSeenUpdate (seen total : Nat)
  | phaseChange (phase : Phase) (round : Option Nat) (timerDuration : Option ℚ)
      (players : List (String × Option Bool)) (isRevote : Bool)
  | hintUpdate (hintsGiven : List String) (total : Nat)
  | allHintsGiven
  | voteRequest (candidates : List String) (isRevote : Bool)
  | voteUpdate (votesSubmitted votesNeeded : Nat)
  | gameOver (winner : Winner) (imposters : List String) (normalWord imposterWord : String)
      (rounds eliminated : Nat) (players : List (String × Bool × Bool))
  | backToLobby (players : List (String × Bool)) (host : Option String)
  | kicked
  | voiceExistingPeers (peers : List (SocketId × Option String))
  | voicePeerJoined (peerId : SocketId) (name : Option String)
  | voicePeerLeft (peerId : SocketId) (name : Option String)
deriving DecidableEq

/-- One `io.to(target).emit(event)`. -/
structure Emit where
  target : Target
  event : Event
deriving DecidableEq

/-- The work deferred with `setTimeout`. -/
inductive TimerAction where
  | emitGameOver (result : Winner)
  | nextRound
deriving DecidableEq

/-- One `setTimeout(action, delayMs)`. -/
structure Timer where
  delayMs : Nat
  action : TimerAction
deriving DecidableEq

/-- What handling one client event does: a silent return, a private rejection that
leaves the room as it was, or an updated room with the messages sent. -/
inductive HandlerResult where
  | ignored
  | rejected (e : Emit)
  | ok (room : Room) (emits : List Emit)
deriving DecidableEq

/-- The updated room of a handler result, when there is one. -/
def HandlerResult.room? : HandlerResult → Option Room
  | HandlerResult.ok room _ => some room
  | _ => none

/-! ## Strings -/

/-- The code points `String.prototype.trim` strips (white space and line terminators). -/
def isJsWhiteSpace (c : Char) : Bool :=
  let n := c.toNat
  n = 0x09 || n = 0x0A || n = 0x0B || n = 0x0C || n = 0x0D || n = 0x20 || n = 0xA0 ||
  n = 0x1680 || (0x2000 ≤ n && n ≤ 0x200A) || n = 0x2028 || n = 0x2029 || n = 0x202F ||
  n = 0x205F || n = 0x3000 || n = 0xFEFF

/-- The call `s.trim()`. -/
def jsTrim (s : String) : String :=
  String.mk ((s.data.dropWhile isJsWhiteSpace).reverse.dropWhile isJsWhiteSpace).reverse

/-- Lower-casing of the ASCII letters, the instance of `toLowerCase` used to evaluate
the handlers on concrete input. The handlers take `toLowerCase` as a parameter. -/
def asciiLower (s : String) : String :=
  String.mk (s.data.map Char.toLower)

/-! ## start-game -/

/-- The abstract operation `ToIntegerOrInfinity` on a finite number: truncation toward
zero. -/
def jsToInteger (x : ℚ) : Int := if x < 0 then -⌊-x⌋ else ⌊x⌋

/-- The call `arr.slice(0, end)` for a finite number `end`, which `slice` first converts
with `ToIntegerOrInfinity`. -/
def jsSlice0 {α : Type} (arr : List α) (e : ℚ) : List α :=
  if jsToInteger e < 0 then arr.take ((arr.length : Int) + jsToInteger e).toNat
  else arr.take (jsToInteger e).toNat

/-- The role assignment of start-game: `room.players.forEach(..)` with the ids in
`imposterIds` (a `Set`, here the list of its members). -/
def assignRoles (host : SocketId) (imposterIds : List SocketId) (players : List Player) :
    List Player :=
  players.map (fun p =>
    if p.id = host then { p with isImposter := false, eliminated := false }
    else { p with isImposter := imposterIds.contains p.id, eliminated := false })

/-- The `start-game` handler for an existing room, sent by connection `socketId` with
payload `normalWord`, `imposterWord`. `lower` is `toLowerCase`. -/
def startGame (lower : String → String) (draw : Draws) (room : Room) (socketId : SocketId)
    (normalWord imposterWord : String) : HandlerResult :=
  if socketId ≠ room.host then HandlerResult.ignored
  else
    let participants := room.players.filter (fun p => p.id != room.host)
    if participants.length < 2 then
      HandlerResult.rejected ⟨Target.socket socketId,
        Event.roomError "Need at least 2 players (besides Grand Master)."⟩
    else if normalWord = "" ∨ imposterWord = "" ∨
        lower (jsTrim normalWord) = lower (jsTrim imposterWord) then
      HandlerResult.rejected ⟨Target.socket socketId, Event.roomError "Enter two different words."⟩
    else
      let imposterCount := getImposterCount participants.length room.settings.imposterCount
      let shuffled := shuffleArray draw participants
      let imposterIds := (jsSlice0 shuffled imposterCount).map (fun p => p.id)
      let players := assignRoles room.host imposterIds room.players
      let state := { room.state with
        normalWord := jsTrim normalWord, imposterWord := jsTrim imposterWord,
        phase := Phase.distribute, round := 0, votes := ⟨[]⟩, hintsGiven := [],
        tiedPlayers := [] }
      let room1 : Room := { room with players := players, state := state }
      let participants1 := players.filter (fun p => p.id != room.host)
      let words := participants1.map (fun p =>
        (⟨Target.socket p.id,
          Event.yourWord (if p.isImposter then state.imposterWord else state.normalWord)
            (if p.isImposter then Role.imposter else Role.normal)⟩ : Emit))
      let started : Emit := ⟨Target.room room.code,
        Event.gameStarted (participants1.map (fun p => p.name)) imposterCount room.settings⟩
      let info : Emit := ⟨Target.socket room.host,
        Event.grandMasterInfo
          ((participants1.filter (fun p => p.isImposter)).map (fun p => p.name))
          state.normalWord state.imposterWord
          (participants1.map (fun p => (p.name, p.isImposter)))⟩
      HandlerResult.ok room1 (words ++ [started, info])

/-- A lobby with host Ann and the participants Bob, Cara and Dee. -/
def roomLobby4 : Room :=
  { code := "ABCDEF", host := "h",
    players := [⟨"h", "Ann", false, false⟩, ⟨"s1", "Bob", false, false⟩,
      ⟨"s2", "Cara", false, false⟩, ⟨"s3", "Dee", false, false⟩],
    settings := defaultSettings, state := blankState Phase.lobby, voicePeers := [] }

/-! ## Plain objects used as dictionaries -/

/-- The value of a string of decimal digits. -/
def decimalValue (cs : List Char) : Nat :=
  cs.foldl (fun acc c => acc * 10 + (c.toNat - 48)) 0

/-- The array index a property key denotes, if any: the canonical decimal string of an
integer between `0` and `2^32 - 2`. Such keys are enumerated first, in numeric order. -/
def arrayIndex? (s : String) : Option Nat :=
  let cs := s.data
  if cs ≠ [] ∧ cs.all Char.isDigit = true ∧ (cs.head? ≠ some '0' ∨ cs.length = 1) ∧
      decimalValue cs ≤ 4294967294 then
    some (decimalValue cs)
  else none

/-- The property names every plain object inherits from `Object.prototype`. A read of
one of them on an object that has no own property of that name is not `undefined`. -/
def objectPrototypeKeys : List String :=
  ["constructor", "__defineGetter__", "__defineSetter__", "hasOwnProperty",
   "__lookupGetter__", "__lookupSetter__", "isPrototypeOf", "propertyIsEnumerable",
   "toString", "valueOf", "__proto__", "toLocaleString"]

/-- Writes `k: v` into a list of own properties: an existing property keeps its place,
a new one goes last. -/
def setFirst {α : Type} (k : String) (v : α) : List (String × α) → List (String × α)
  | [] => [(k, v)]
  | e :: es => if e.1 = k then (k, v) :: es else e :: setFirst k v es

/-- The empty object literal. -/
def JsObj.empty {α : Type} : JsObj α := ⟨[]⟩

/-- The assignment `obj[k] = v` of a primitive `v`. The key `__proto__` is the
accessor of `Object.prototype`, which ignores primitive values: nothing is stored. -/
def JsObj.set {α : Type} (o : JsObj α) (k : String) (v : α) : JsObj α :=
  if k = "__proto__" then o else ⟨setFirst k v o.own⟩

/-- The result of `Object.entries(obj)`: array-index keys in ascending numeric order, then
the other keys in creation order. -/
def JsObj.entries {α : Type} (o : JsObj α) : List (String × α) :=
  ((o.own.filterMap (fun e => (arrayIndex? e.1).map (fun i => (i, e)))).insertionSort
      (fun a b => a.1 ≤ b.1)).map (fun ie => ie.2) ++
    o.own.filter (fun e => (arrayIndex? e.1).isNone)

/-- The result of `Object.keys(obj)`. -/
def JsObj.keys {α : Type} (o : JsObj α) : List String := o.entries.map (fun e => e.1)

/-- The result of `Object.values(obj)`. -/
def JsObj.values {α : Type} (o : JsObj α) : List α := o.entries.map (fun e => e.2)

/-! ## Vote tally -/

/-- The statement `if (voteCounts[votedFor] !== undefined) voteCounts[votedFor]++`.
The read finds an own count, or a member of `Object.prototype` (whose numeric value is
`NaN`), or `undefined`. -/
def countVote (voteCounts : JsObj JsNum) (votedFor : String) : JsObj JsNum :=
  match voteCounts.own.lookup votedFor with
  | some (JsNum.num n) => voteCounts.set votedFor (JsNum.num (n + 1))
  | some JsNum.nan => voteCounts.set votedFor JsNum.nan
  | none =>
    if votedFor ∈ objectPrototypeKeys then voteCounts.set votedFor JsNum.nan else voteCounts

/-- The object `voteCounts` after both `forEach` loops of the tally. -/
def voteCountsOf (active : List Player) (votes : JsObj String) : JsObj JsNum :=
  votes.values.foldl countVote
    (active.foldl (fun o p => o.set p.name (JsNum.num 0)) JsObj.empty)

/-- The comparator `(a, b) => b[1] - a[1]` read as "a may stay before b": its result
is not positive. A `NaN` result counts as `0`. -/
def countOrder (a b : String × JsNum) : Prop :=
  match a.2, b.2 with
  | JsNum.num x, JsNum.num y => y ≤ x
  | _, _ => True

instance countOrderDecidable : DecidableRel countOrder := fun a b => by
  unfold countOrder
  cases a.2 <;> cases b.2 <;> infer_instance

/-- The call `entries.sort((a, b) => b[1] - a[1])`, a stable sort. With a comparator
that orders the entries consistently every stable sort returns this list; entries whose
count is `NaN` compare equal to all others. -/
def sortByCount (entries : List (String × JsNum)) : List (String × JsNum) :=
  entries.insertionSort countOrder

/-- The ranking `sorted` computed by the tally of a room. -/
def rankedResults (room : Room) : List (String × JsNum) :=
  sortByCount (voteCountsOf (getActivePlayersInRoom room) room.state.votes).entries

/-- The comparison `x === y` of two counts. -/
def jsStrictEq : JsNum → JsNum → Bool
  | JsNum.num x, JsNum.num y => x == y
  | _, _ => false

/-- A room after some server code ran, with the messages sent and the timers set. -/
structure Effects where
  room : Room
  emits : List Emit
  timers : List Timer
deriving DecidableEq

/-- The assignment `player.eliminated = true` on the player found by
`room.players.find(p => p.name === name)`. -/
def markEliminated : List Player → String → List Player
  | [], _ => []
  | p :: ps, name =>
    if p.name = name then { p with eliminated := true } :: ps
    else p :: markEliminated ps name

/-- The function `eliminatePlayer(room, name)`. -/
def eliminatePlayer (room : Room) (name : String) : Effects :=
  match room.players.find? (fun p => p.name == name) with
  | none => ⟨room, [], []⟩
  | some player =>
    let room1 : Room := { room with players := markEliminated room.players name }
    let result := checkWinCondition room1
    let sorted := rankedResults room1
    let results : Emit := ⟨Target.room room.code,
      Event.voteResults sorted (some name)
        (some (if player.isImposter then Role.imposter else Role.normal)) false none
        (some result)⟩
    match result with
    | some winner => ⟨room1, [results], [⟨100, TimerAction.emitGameOver winner⟩]⟩
    | none => ⟨room1, [results], [⟨5000, TimerAction.nextRound⟩]⟩

/-- The assignment `room.state.phase = phase`. -/
def withPhase (room : Room) (phase : Phase) : Room :=
  { room with state := { room.state with phase := phase } }

/-- The assignment `room.state.tiedPlayers = names`. -/
def withTiedPlayers (room : Room) (names : List String) : Room :=
  { room with state := { room.state with tiedPlayers := names } }

/-- The function `tallyVotes(room)`. The result is `none` when `sorted[0]` is undefined and the read
of `sorted[0][1]` throws. -/
def tallyVotes (room : Room) : Option Effects :=
  let sorted := rankedResults room
  match sorted with
  | [] => none
  | top :: _ =>
    let maxVotes := top.2
    let tiedAtTop := sorted.filter (fun e => jsStrictEq e.2 maxVotes)
    let room1 := withPhase room Phase.elimination
    if jsStrictEq maxVotes (JsNum.num 0) then
      some ⟨room1,
        [⟨Target.room room.code, Event.voteResults sorted none none false none none⟩], []⟩
    else if tiedAtTop.length > 1 then
      let tied := tiedAtTop.map (fun e => e.1)
      some ⟨withTiedPlayers room1 tied,
        [⟨Target.room room.code, Event.voteResults sorted none none true (some tied) none⟩],
        []⟩
    else some (eliminatePlayer room1 top.1)

/-- A room in phase voting with the given players (the first one, with id `h`, is the
host) and votes. -/
def votingRoom (players : List Player) (votes : List (String × String)) : Room :=
  { code := "ABCDEF", host := "h", players := players, settings := defaultSettings,
    state := { blankState Phase.voting with votes := ⟨votes⟩, round := 1 },
    voicePeers := [] }

/-- Host Ann with the active players Amy and Bob; Amy votes for the name
`constructor`, Bob votes for Amy. -/
def roomPhantomVote : Room :=
  votingRoom [⟨"h", "Ann", false, false⟩, ⟨"s1", "Amy", false, false⟩,
      ⟨"s2", "Bob", true, false⟩]
    [("Amy", "constructor"), ("Bob", "Amy")]

/-- Host Ann with the active players Zed, Amy, Bob and Cy, who joined in that order;
Zed, Amy and Cy vote for Bob, Bob votes for Cy. -/
def roomJoinOrder : Room :=
  votingRoom [⟨"h", "Ann", false, false⟩, ⟨"s1", "Zed", false, false⟩,
      ⟨"s2", "Amy", false, false⟩, ⟨"s3", "Bob", true, false⟩, ⟨"s4", "Cy", false, false⟩]
    [("Zed", "Bob"), ("Amy", "Bob"), ("Bob", "Cy"), ("Cy", "Bob")]

/-! ## Auxiliary notions for the tally proofs -/

/-- In a list of count entries, no number follows a `NaN`. -/
def NanLast (l : List (String × JsNum)) : Prop :=
  l.Pairwise (fun a b => a.2 = JsNum.nan → b.2 = JsNum.nan)

/-- The own properties of `voteCounts` keep the numbers before the `NaN`s, and a `NaN`
is never stored under an array-index key. -/
def CountsInv (l : List (String × JsNum)) : Prop :=
  NanLast l ∧ ∀ e ∈ l, e.2 = JsNum.nan → arrayIndex? e.1 = none

/-- Descending order of counts in which `NaN` is below every number. -/
def rankOrder (a b : String × JsNum) : Prop :=
  match a.2, b.2 with
  | JsNum.num x, JsNum.num y => y ≤ x
  | JsNum.num _, JsNum.nan => True
  | JsNum.nan, JsNum.num _ => False
  | JsNum.nan, JsNum.nan => True

instance rankOrderDecidable : DecidableRel rankOrder := fun a b => by
  unfold rankOrder
  cases a.2 <;> cases b.2 <;> infer_instance

instance rankOrderTotal : IsTotal (String × JsNum) rankOrder :=
  ⟨fun a b => by
    unfold rankOrder
    cases a.2 <;> cases b.2 <;> simp
    exact Nat.le_total _ _⟩

instance rankOrderTrans : IsTrans (String × JsNum) rankOrder :=
  ⟨fun a b c => by
    unfold rankOrder
    cases a.2 <;> cases b.2 <;> cases c.2 <;> simp
    intro h1 h2
    exact Nat.le_trans h2 h1⟩

/-- Every numeric entry of a list of count entries is stored under one of `names`. -/
def NumKeysIn (names : List String) (l : List (String × JsNum)) : Prop :=
  ∀ e ∈ l, e.2 ≠ JsNum.nan → e.1 ∈ names

/-- Host Ann with the active players A, B, C, D and E; the votes give A two votes, B two
votes and C one vote. -/
def roomTie : Room :=
  votingRoom [⟨"h", "Ann", false, false⟩, ⟨"s1", "A", false, false⟩,
      ⟨"s2", "B", true, false⟩, ⟨"s3", "C", false, false⟩, ⟨"s4", "D", false, false⟩,
      ⟨"s5", "E", false, false⟩]
    [("A", "B"), ("B", "A"), ("C", "A"), ("D", "B"), ("E", "C")]

/-- Host Ann with the active players Amy, Bob and Cy, none of whom is voted for: the
three votes name the host, a player who left and nobody in the room. -/
def roomNoVotes : Room :=
  votingRoom [⟨"h", "Ann", false, false⟩, ⟨"s1", "Amy", false, false⟩,
      ⟨"s2", "Bob", true, false⟩, ⟨"s3", "Cy", false, false⟩]
    [("Amy", "Ann"), ("Bob", "Dee"), ("Cy", "nobody")]

/-- The room `roomLobby4` after the host started the game with the words "Apple" and
"Banana" and every draw of the shuffle came out `0`: Cara is the imposter. -/
def roomStarted4 : Room :=
  { roomLobby4 with
    players := [⟨"h", "Ann", false, false⟩, ⟨"s1", "Bob", false, false⟩,
      ⟨"s2", "Cara", true, false⟩, ⟨"s3", "Dee", false, false⟩],
    state := { blankState Phase.distribute with normalWord := "Apple", imposterWord := "Banana" } }

/-- Order of two names as JavaScript compares strings, by code units; for names
without surrogate pairs this is the order of the code points. -/
def nameBefore (a b : String) : Prop := a.data < b.data

instance nameBeforeDecidable (a b : String) : Decidable (nameBefore a b) := by
  unfold nameBefore
  infer_instance

/-! ## Room helpers -/

/-- The roster sent with roster broadcasts: each player's name and whether the player is
the host. -/
def roster (room : Room) : List (String × Bool) :=
  room.players.map (fun p => (p.name, p.id == room.host))

/-- The name of the host, `room.players.find(p => p.id === room.host)?.name`. -/
def hostName (room : Room) : Option String :=
  (room.players.find? (fun p => p.id == room.host)).map (fun p => p.name)

/-- The function `emitGameOver(room, result)`. -/
def emitGameOver (room : Room) (result : Winner) : Room × List Emit :=
  (withPhase room Phase.gameover,
    [⟨Target.room room.code,
      Event.gameOver result
        ((room.players.filter (fun p => p.isImposter)).map (fun p => p.name))
        room.state.normalWord room.state.imposterWord room.state.round
        (room.players.filter (fun p => p.eliminated)).length
        (room.players.map (fun p => (p.name, p.isImposter, p.eliminated)))⟩])

/-- The function `nextRound(room)`. -/
def nextRound (room : Room) : Room × List Emit :=
  let room1 : Room := { room with state := { room.state with
    phase := Phase.hints, round := room.state.round + 1, hintsGiven := [], votes := ⟨[]⟩,
    tiedPlayers := [] } }
  if room1.settings.maxRounds > 0 ∧ (room1.state.round : ℚ) > room1.settings.maxRounds then
    emitGameOver room1 Winner.imposters
  else
    (room1, [⟨Target.room room.code,
      Event.phaseChange Phase.hints (some room1.state.round) none
        ((getActivePlayersInRoom room1).map (fun p => (p.name, none))) false⟩])

/-- What a handler that may tally the votes does: a silent return, an update with the
messages sent and the timers set, or an uncaught `TypeError` after the recorded
effects. -/
inductive Outcome where
  | ignored
  | done (eff : Effects)
  | threw (eff : Effects)
deriving DecidableEq

/-- The room after the handler ran, when it returned normally with an update. -/
def Outcome.room? : Outcome → Option Room
  | Outcome.done eff => some eff.room
  | _ => none

/-! ## Game handlers -/

/-- The `word-seen` handler for an existing room. `_wordSeen` is a set of socket ids. -/
def wordSeen (room : Room) (socketId : SocketId) : HandlerResult :=
  if room.state.phase ≠ Phase.distribute then HandlerResult.ignored
  else if socketId = room.host then HandlerResult.ignored
  else
    let seen0 := room.state.wordSeen.getD []
    let seen := if seen0.contains socketId then seen0 else seen0 ++ [socketId]
    let participants := room.players.filter (fun p => p.id != room.host)
    let update : Emit := ⟨Target.room room.code,
      Event.wordSeenUpdate seen.length participants.length⟩
    if seen.length ≥ participants.length then
      let room1 : Room := { room with state := { room.state with
        phase := Phase.hints, round := room.state.round + 1, hintsGiven := [],
        wordSeen := none } }
      HandlerResult.ok room1 [update, ⟨Target.room room.code,
        Event.phaseChange Phase.hints (some room1.state.round) none
          ((getActivePlayersInRoom room1).map (fun p => (p.name, none))) false⟩]
    else
      HandlerResult.ok { room with state := { room.state with wordSeen := some seen } } [update]

/-- The `hint-given` handler for an existing room. -/
def hintGiven (room : Room) (socketId : SocketId) : HandlerResult :=
  if room.state.phase ≠ Phase.hints then HandlerResult.ignored
  else if socketId = room.host then HandlerResult.ignored
  else
    match room.players.find? (fun p => p.id == socketId) with
    | none => HandlerResult.ignored
    | some player =>
      if player.eliminated then HandlerResult.ignored
      else
        let hints := if room.state.hintsGiven.contains player.name then room.state.hintsGiven
          else room.state.hintsGiven ++ [player.name]
        let room1 : Room := { room with state := { room.state with hintsGiven := hints } }
        let total := (getActivePlayersInRoom room1).length
        let update : Emit := ⟨Target.room room.code, Event.hintUpdate hints total⟩
        if hints.length ≥ total then
          HandlerResult.ok room1 [update, ⟨Target.room room.code, Event.allHintsGiven⟩]
        else HandlerResult.ok room1 [update]

/-- The `start-discussion` handler for an existing room. -/
def startDiscussion (room : Room) (socketId : SocketId) : HandlerResult :=
  if socketId ≠ room.host then HandlerResult.ignored
  else
    let room1 := withPhase room Phase.discussion
    HandlerResult.ok room1 [⟨Target.room room.code,
      Event.phaseChange Phase.discussion none (some room.settings.timerDuration)
        ((getActivePlayersInRoom room1).map (fun p => (p.name, some p.eliminated))) false⟩]

/-- The private `vote-request` messages: each voter gets the other names as candidates. -/
def voteRequests (voters : List Player) (isRevote : Bool) : List Emit :=
  voters.map (fun p =>
    ⟨Target.socket p.id,
      Event.voteRequest ((voters.filter (fun c => c.name != p.name)).map (fun c => c.name))
        isRevote⟩)

/-- The `start-voting` handler for an existing room. -/
def startVoting (room : Room) (socketId : SocketId) : HandlerResult :=
  if socketId ≠ room.host then HandlerResult.ignored
  else
    let active := getActivePlayersInRoom room
    let room1 : Room := { room with state := { room.state with
      phase := Phase.voting, votes := ⟨[]⟩, votingOrder := active.map (fun p => p.name) } }
    HandlerResult.ok room1
      (⟨Target.room room.code,
        Event.phaseChange Phase.voting none none (active.map (fun p => (p.name, none))) false⟩ ::
        voteRequests active false)

/-- The `submit-vote` handler for an existing room. -/
def submitVote (room : Room) (socketId : SocketId) (votedFor : String) : Outcome :=
  if room.state.phase ≠ Phase.voting then Outcome.ignored
  else if socketId = room.host then Outcome.ignored
  else
    match room.players.find? (fun p => p.id == socketId) with
    | none => Outcome.ignored
    | some player =>
      if player.eliminated then Outcome.ignored
      else if votedFor = player.name then Outcome.ignored
      else
        let room1 : Room := { room with state := { room.state with
          votes := room.state.votes.set player.name votedFor } }
        let votesNeeded := (getActivePlayersInRoom room1).length
        let votesSubmitted := room1.state.votes.keys.length
        let update : Emit := ⟨Target.room room.code,
          Event.voteUpdate votesSubmitted votesNeeded⟩
        if votesSubmitted ≥ votesNeeded then
          match tallyVotes room1 with
          | none => Outcome.threw ⟨room1, [update], []⟩
          | some eff => Outcome.done ⟨eff.room, update :: eff.emits, eff.timers⟩
        else Outcome.done ⟨room1, [update], []⟩

/-- The `tie-resolution` handler for an existing room. `draw` is the outcome of
`Math.random`: the index drawn among `n` tied names is `draw (n - 1)`. -/
def tieResolution (draw : Draws) (room : Room) (socketId : SocketId) (method : String) :
    Outcome :=
  if socketId ≠ room.host then Outcome.ignored
  else if method = "revote" then
    let room1 : Room := { room with state := { room.state with
      votes := ⟨[]⟩, phase := Phase.voting } }
    let tied := room1.players.filter (fun p =>
      !p.eliminated && p.id != room1.host && room1.state.tiedPlayers.contains p.name)
    Outcome.done ⟨room1,
      ⟨Target.room room.code,
        Event.phaseChange Phase.voting none none (tied.map (fun p => (p.name, none))) true⟩ ::
        voteRequests tied true, []⟩
  else if method = "random" then
    match room.state.tiedPlayers[(draw (room.state.tiedPlayers.length - 1)).val]? with
    | none => Outcome.done ⟨room, [], []⟩
    | some name => Outcome.done (eliminatePlayer room name)
  else if method = "skip" then
    match checkWinCondition room with
    | some result => Outcome.done ⟨(emitGameOver room result).1, (emitGameOver room result).2, []⟩
    | none => Outcome.done ⟨(nextRound room).1, (nextRound room).2, []⟩
  else Outcome.done ⟨room, [], []⟩

/-- The `play-again` handler for an existing room. -/
def playAgain (room : Room) (socketId : SocketId) : HandlerResult :=
  if socketId ≠ room.host then HandlerResult.ignored
  else
    let room1 : Room := { room with
      players := room.players.map (fun p => { p with isImposter := false, eliminated := false }),
      state := { room.state with
        phase := Phase.lobby, round := 0, votes := ⟨[]⟩, hintsGiven := [], tiedPlayers := [] } }
    HandlerResult.ok room1 [⟨Target.room room.code,
      Event.backToLobby (roster room1) (hostName room1)⟩]

/-- The field of a settings update after `Math.min(hi, Math.max(lo, x))`, if supplied. -/
def clampSetting (lo hi : ℚ) (current : ℚ) (supplied : Option ℚ) : ℚ :=
  match supplied with
  | none => current
  | some x => min hi (max lo x)

/-- The `update-settings` handler for an existing room, for finite numbers. Each of the
four fields may be absent from the payload. -/
def updateSettings (room : Room) (socketId : SocketId)
    (timerDuration imposterCount maxRounds hintTimer : Option ℚ) : HandlerResult :=
  if socketId ≠ room.host then HandlerResult.ignored
  else
    let settings : Settings :=
      { timerDuration := clampSetting 30 300 room.settings.timerDuration timerDuration,
        imposterCount := clampSetting 0 5 room.settings.imposterCount imposterCount,
        maxRounds := clampSetting 0 20 room.settings.maxRounds maxRounds,
        hintTimer := clampSetting 0 120 room.settings.hintTimer hintTimer }
    HandlerResult.ok { room with settings := settings }
      [⟨Target.room room.code, Event.settingsUpdated settings⟩]

/-! ## The server: registry, connections, events -/

/-- The fields the handlers keep on a connection: `socket.id`, `socket.roomCode`,
`socket.playerName` and `socket.voiceActive`. -/
structure Socket where
  id : SocketId
  roomCode : Option String
  playerName : Option String
  voiceActive : Bool
deriving DecidableEq

/-- The server: the registry `rooms` (room code to room), the open connections, the
timers that were set and have not fired yet (each with the code of its room), and
whether an uncaught exception ended the process. -/
structure Server where
  rooms : List (String × Room)
  sockets : List Socket
  timers : List (String × TimerAction)
  crashed : Bool
deriving DecidableEq

/-- The server at start-up. -/
def Server.start : Server := { rooms := [], sockets := [], timers := [], crashed := false }

/-- The alphabet of room codes. -/
def roomCodeChars : List Char := "ABCDEFGHJKLMNPQRSTUVWXYZ23456789".data

/-- The strings `generateRoomCode` can build: six characters of the alphabet. -/
def isRoomCode (code : String) : Bool :=
  code.data.length == 6 && code.data.all (fun c => roomCodeChars.contains c)

/-- The lookup `rooms[code]`. -/
def Server.room? (s : Server) (code : String) : Option Room := s.rooms.lookup code

/-- The connection with the given id. -/
def Server.socket? (s : Server) (id : SocketId) : Option Socket :=
  s.sockets.find? (fun x => x.id == id)

/-- The lookup `rooms[socket.roomCode]`. -/
def Server.roomOf (s : Server) (sock : Socket) : Option Room :=
  sock.roomCode.bind (fun code => s.room? code)

/-- The registry after `rooms[code] = room`, or after a handler changed the room object
stored under `code`. -/
def Server.setRoom (s : Server) (code : String) (room : Room) : Server :=
  { s with rooms := setFirst code room s.rooms }

/-- The registry after `delete rooms[code]`. The timers of the room are dropped with it:
they act on a room object nobody can reach any more. -/
def Server.deleteRoom (s : Server) (code : String) : Server :=
  { s with rooms := s.rooms.filter (fun e => e.1 != code),
           timers := s.timers.filter (fun t => t.1 != code) }

/-- The connections after the fields of one of them were assigned. -/
def Server.setSocket (s : Server) (sock : Socket) : Server :=
  { s with sockets := s.sockets.map (fun x => if x.id = sock.id then sock else x) }

/-- The `create-room` handler. `code` is the result of `generateRoomCode()`. -/
def createRoom (s : Server) (sock : Socket) (playerName : String) (code : String) :
    Server × List Emit :=
  if playerName = "" ∨ jsTrim playerName = "" then
    (s, [⟨Target.socket sock.id, Event.roomError "Enter your name."⟩])
  else
    let room : Room :=
      { code := code, host := sock.id,
        players := [⟨sock.id, jsTrim playerName, false, false⟩],
        settings := defaultSettings, state := blankState Phase.lobby, voicePeers := [] }
    (((s.setRoom code room).setSocket
        { sock with roomCode := some code, playerName := some (jsTrim playerName) }),
      [⟨Target.socket sock.id, Event.roomCreated code⟩,
       ⟨Target.room code, Event.playerJoined (roster room) (hostName room)⟩])

/-- The `join-room` handler. `lower` and `upper` are `toLowerCase` and `toUpperCase`. -/
def joinRoom (lower upper : String → String) (s : Server) (sock : Socket)
    (roomCode playerName : String) : Server × List Emit :=
  if playerName = "" ∨ jsTrim playerName = "" then
    (s, [⟨Target.socket sock.id, Event.roomError "Enter your name."⟩])
  else if roomCode = "" ∨ jsTrim roomCode = "" then
    (s, [⟨Target.socket sock.id, Event.roomError "Enter a room code."⟩])
  else
    let code := upper (jsTrim roomCode)
    match s.room? code with
    | none => (s, [⟨Target.socket sock.id, Event.roomError "Room not found."⟩])
    | some room =>
      if room.state.phase ≠ Phase.lobby then
        (s, [⟨Target.socket sock.id, Event.roomError "Game already in progress."⟩])
      else if room.players.any (fun p => lower p.name == lower (jsTrim playerName)) then
        (s, [⟨Target.socket sock.id, Event.roomError "Name already taken in this room."⟩])
      else if room.players.length ≥ 20 then
        (s, [⟨Target.socket sock.id, Event.roomError "Room is full (max 20 players)."⟩])
      else
        let room1 : Room := { room with
          players := room.players ++ [⟨sock.id, jsTrim playerName, false, false⟩] }
        (((s.setRoom code room1).setSocket
            { sock with roomCode := some code, playerName := some (jsTrim playerName) }),
          [⟨Target.socket sock.id, Event.roomJoined code⟩,
           ⟨Target.room code, Event.playerJoined (roster room1) (hostName room1)⟩])

/-- The `kick-player` handler. -/
def kickPlayer (s : Server) (sock : Socket) (playerName : String) : Server × List Emit :=
  match sock.roomCode, s.roomOf sock with
  | some code, some room =>
    if sock.id ≠ room.host ∨ room.state.phase ≠ Phase.lobby then (s, [])
    else
      match room.players.find? (fun p => p.name == playerName) with
      | none => (s, [])
      | some player =>
        if player.id = room.host then (s, [])
        else
          let room1 : Room := { room with
            players := room.players.filter (fun p => p.name != playerName) }
          let s1 := s.setRoom code room1
          let s2 := match s1.socket? player.id with
            | none => s1
            | some kicked => s1.setSocket { kicked with roomCode := none }
          (s2, [⟨Target.socket player.id, Event.kicked⟩,
                ⟨Target.room code, Event.playerJoined (roster room1) (hostName room1)⟩])
  | _, _ => (s, [])

/-- What the `disconnect` handler does to the room of the leaving connection: the room is
deleted, or it is updated (as for `Outcome`). -/
inductive DisconnectResult where
  | deleted (emits : List Emit)
  | done (eff : Effects)
  | threw (eff : Effects)
deriving DecidableEq

/-- The room after the `disconnect` handler removed the players of the leaving connection
`sock` and, if the host left, made the first remaining player the host
(`room.host = room.players[0].id`; the handler only gets there when a player remains). -/
def leaveRoom (room : Room) (sock : Socket) : Room :=
  { room with
    voicePeers :=
      if sock.voiceActive then room.voicePeers.filter (fun vp => vp.1 != sock.id)
      else room.voicePeers,
    players := room.players.filter (fun p => p.id != sock.id),
    host :=
      if room.host = sock.id then
        match room.players.filter (fun p => p.id != sock.id) with
        | [] => room.host
        | first :: _ => first.id
      else room.host }

/-- The notice to the voice peers of the room when the leaving connection was in the
voice chat. -/
def voiceLeftEmits (room : Room) (sock : Socket) : List Emit :=
  if sock.voiceActive then
    [⟨Target.roomExcept room.code sock.id, Event.voicePeerLeft sock.id sock.playerName⟩]
  else []

/-- The messages of the `disconnect` handler up to the `player-left` broadcast. -/
def leaveEmits (room : Room) (sock : Socket) : List Emit :=
  voiceLeftEmits room sock ++ [⟨Target.room room.code,
    Event.playerLeft sock.playerName (roster (leaveRoom room sock))
      (hostName (leaveRoom room sock))⟩]

/-- The `disconnect` handler on the room `rooms[socket.roomCode]` of the leaving
connection `sock`. -/
def disconnectRoom (room : Room) (sock : Socket) : DisconnectResult :=
  if (room.players.filter (fun p => p.id != sock.id)).length = 0 then
    DisconnectResult.deleted (voiceLeftEmits room sock)
  else
    let room1 := leaveRoom room sock
    let emits := leaveEmits room sock
    if room1.state.phase ≠ Phase.lobby then
      match checkWinCondition room1 with
      | some result =>
        DisconnectResult.done
          ⟨(emitGameOver room1 result).1, emits ++ (emitGameOver room1 result).2, []⟩
      | none =>
        if room1.state.phase = Phase.voting then
          let active := getActivePlayersInRoom room1
          let votesNeeded := active.length
          let votesSubmitted := (room1.state.votes.keys.filter
            (fun v => active.any (fun p => p.name == v))).length
          if votesSubmitted ≥ votesNeeded then
            match tallyVotes room1 with
            | none => DisconnectResult.threw ⟨room1, emits, []⟩
            | some eff => DisconnectResult.done ⟨eff.room, emits ++ eff.emits, eff.timers⟩
          else DisconnectResult.done ⟨room1, emits, []⟩
        else DisconnectResult.done ⟨room1, emits, []⟩
    else DisconnectResult.done ⟨room1, emits, []⟩

/-- The room a `disconnect` leaves behind, when it leaves one. -/
def DisconnectResult.room? : DisconnectResult → Option Room
  | DisconnectResult.deleted _ => none
  | DisconnectResult.done eff => some eff.room
  | DisconnectResult.threw eff => some eff.room

/-- The connections after one of them closed. -/
def Server.dropSocket (s : Server) (id : SocketId) : Server :=
  { s with sockets := s.sockets.filter (fun x => x.id != id) }

/-- The timers after a handler set new ones for the room `code`. -/
def Server.addTimers (s : Server) (code : String) (timers : List Timer) : Server :=
  { s with timers := s.timers ++ timers.map (fun t => (code, t.action)) }

/-- The `disconnect` handler; afterwards the connection is gone. -/
def disconnect (s : Server) (sock : Socket) : Server × List Emit :=
  match sock.roomCode, s.roomOf sock with
  | some code, some room =>
    match disconnectRoom room sock with
    | DisconnectResult.deleted emits => (((s.deleteRoom code).dropSocket sock.id), emits)
    | DisconnectResult.done eff =>
      ((((s.setRoom code eff.room).addTimers code eff.timers).dropSocket sock.id), eff.emits)
    | DisconnectResult.threw eff =>
      ({ ((s.setRoom code eff.room).dropSocket sock.id) with crashed := true }, eff.emits)
  | _, _ => (s.dropSocket sock.id, [])

/-- The `voice-join` handler. -/
def voiceJoin (s : Server) (sock : Socket) : Server × List Emit :=
  match sock.roomCode, s.roomOf sock with
  | some code, some room =>
    let existing := room.voicePeers.filter (fun vp => vp.1 != sock.id)
    let room1 : Room := { room with voicePeers := existing ++ [(sock.id, sock.playerName)] }
    (((s.setRoom code room1).setSocket { sock with voiceActive := true }),
      [⟨Target.socket sock.id, Event.voiceExistingPeers existing⟩,
       ⟨Target.roomExcept code sock.id, Event.voicePeerJoined sock.id sock.playerName⟩])
  | _, _ => (s, [])

/-- The `voice-leave` handler. -/
def voiceLeave (s : Server) (sock : Socket) : Server × List Emit :=
  match sock.roomCode, s.roomOf sock with
  | some code, some room =>
    let room1 : Room := { room with
      voicePeers := room.voicePeers.filter (fun vp => vp.1 != sock.id) }
    (((s.setRoom code room1).setSocket { sock with voiceActive := false }),
      [⟨Target.roomExcept code sock.id, Event.voicePeerLeft sock.id sock.playerName⟩])
  | _, _ => (s, [])

/-- The events a client sends, with their payloads and, where the handler draws random
numbers, the outcome of the draws. The chat and voice-signalling relays, which neither
read nor write the state of a room, are left out. -/
inductive ClientEvent where
  | createRoom (playerName : String) (code : String)
  | joinRoom (roomCode playerName : String)
  | updateSettings (timerDuration imposterCount maxRounds hintTimer : Option ℚ)
  | startGame (normalWord imposterWord : String) (draw : Draws)
  | wordSeen
  | hintGiven
  | startDiscussion
  | startVoting
  | submitVote (votedFor : String)
  | tieResolution (method : String) (draw : Draws)
  | playAgain
  | voiceJoin
  | voiceLeave
  | kickPlayer (playerName : String)
  | disconnect

/-- What happens at the server: a connection opens, a client event arrives on a
connection, or the pending timer with the given index fires. -/
inductive ServerEvent where
  | connect (id : SocketId)
  | client (id : SocketId) (event : ClientEvent)
  | timer (index : Nat)

/-- The registry and messages after a game handler returned `result` for the room
stored under `code`. -/
def Server.applyResult (s : Server) (code : String) : HandlerResult → Server × List Emit
  | HandlerResult.ignored => (s, [])
  | HandlerResult.rejected e => (s, [e])
  | HandlerResult.ok room emits => (s.setRoom code room, emits)

/-- The registry, timers and messages after a handler that may tally returned `outcome`
for the room stored under `code`. -/
def Server.applyOutcome (s : Server) (code : String) : Outcome → Server × List Emit
  | Outcome.ignored => (s, [])
  | Outcome.done eff => ((s.setRoom code eff.room).addTimers code eff.timers, eff.emits)
  | Outcome.threw eff => ({ s.setRoom code eff.room with crashed := true }, eff.emits)

/-- Whether a connection id is in use: by an open connection or in some room. -/
def Server.knowsId (s : Server) (id : SocketId) : Bool :=
  s.sockets.any (fun x => x.id == id) ||
    s.rooms.any (fun e => e.2.host == id || e.2.players.any (fun p => p.id == id))

/-- One client event on the open connection `sock`. -/
def Server.clientStep (lower upper : String → String) (s : Server) (sock : Socket) :
    ClientEvent → Server × List Emit
  | ClientEvent.createRoom playerName code =>
    if isRoomCode code ∧ s.room? code = none then createRoom s sock playerName code
    else (s, [])
  | ClientEvent.joinRoom roomCode playerName => joinRoom lower upper s sock roomCode playerName
  | ClientEvent.kickPlayer playerName => kickPlayer s sock playerName
  | ClientEvent.disconnect => disconnect s sock
  | ClientEvent.voiceJoin => voiceJoin s sock
  | ClientEvent.voiceLeave => voiceLeave s sock
  | event =>
    match sock.roomCode, s.roomOf sock with
    | some code, some room =>
      match event with
      | ClientEvent.updateSettings t i m h =>
        s.applyResult code (updateSettings room sock.id t i m h)
      | ClientEvent.startGame normalWord imposterWord draw =>
        s.applyResult code (startGame lower draw room sock.id normalWord imposterWord)
      | ClientEvent.wordSeen => s.applyResult code (wordSeen room sock.id)
      | ClientEvent.hintGiven => s.applyResult code (hintGiven room sock.id)
      | ClientEvent.startDiscussion => s.applyResult code (startDiscussion room sock.id)
      | ClientEvent.startVoting => s.applyResult code (startVoting room sock.id)
      | ClientEvent.submitVote votedFor => s.applyOutcome code (submitVote room sock.id votedFor)
      | ClientEvent.tieResolution method draw =>
        s.applyOutcome code (tieResolution draw room sock.id method)
      | ClientEvent.playAgain => s.applyResult code (playAgain room sock.id)
      | _ => (s, [])
    | _, _ => (s, [])

/-- The pending timer with index `index` fires. -/
def Server.timerStep (s : Server) (index : Nat) : Server × List Emit :=
  match s.timers[index]? with
  | none => (s, [])
  | some (code, action) =>
    let s1 : Server := { s with timers := s.timers.eraseIdx index }
    match s1.room? code with
    | none => (s1, [])
    | some room =>
      match action with
      | TimerAction.emitGameOver result =>
        (s1.setRoom code (emitGameOver room result).1, (emitGameOver room result).2)
      | TimerAction.nextRound => (s1.setRoom code (nextRound room).1, (nextRound room).2)

/-- One step of the server. Nothing happens once the process has ended; a connection
opens only under an id that is not in use; a create-room event happens only with a code
that `generateRoomCode` can return. -/
def Server.step (lower upper : String → String) (s : Server) :
    ServerEvent → Server × List Emit
  | ServerEvent.connect id =>
    if s.crashed ∨ s.knowsId id then (s, [])
    else ({ s with sockets := s.sockets ++ [⟨id, none, none, false⟩] }, [])
  | ServerEvent.client id event =>
    if s.crashed then (s, [])
    else
      match s.socket? id with
      | none => (s, [])
      | some sock => s.clientStep lower upper sock event
  | ServerEvent.timer index => if s.crashed then (s, []) else s.timerStep index

/-- The server after a sequence of events. -/
def Server.run (lower upper : String → String) (s : Server) (events : List ServerEvent) :
    Server :=
  events.foldl (fun st e => (st.step lower upper e).1) s

/-- Upper-casing of the ASCII letters, the instance of `toUpperCase` used to evaluate the
handlers on concrete input. -/
def asciiUpper (s : String) : String :=
  String.mk (s.data.map Char.toUpper)

/-! ## Sample runs -/

/-- The draw outcome in which every draw is the loop index itself, so that the shuffle
leaves the array as it is. -/
def lastDraws : Draws := fun i => Fin.last i

/-- The part of a player that an elimination does not touch: id, name and role. -/
def Player.who (p : Player) : SocketId × String × Bool := (p.id, p.name, p.isImposter)

/-- The server after a run of the ASCII instance from start-up. -/
def runFromStart (events : List ServerEvent) : Server :=
  Server.run asciiLower asciiUpper Server.start events

/-- The room stored under the code `ABCDEF` after a run from start-up. -/
def roomAfter (events : List ServerEvent) : Option Room :=
  (runFromStart events).room? "ABCDEF"

/-- Ann (connection `a`) creates the room `ABCDEF`; Bob, Cara and Dee (connections `b`,
`c`, `d`) join. -/
def eventsLobby4 : List ServerEvent :=
  [ServerEvent.connect "a", ServerEvent.connect "b", ServerEvent.connect "c",
   ServerEvent.connect "d",
   ServerEvent.client "a" (ClientEvent.createRoom "Ann" "ABCDEF"),
   ServerEvent.client "b" (ClientEvent.joinRoom "abcdef" "Bob"),
   ServerEvent.client "c" (ClientEvent.joinRoom "abcdef" "Cara"),
   ServerEvent.client "d" (ClientEvent.joinRoom "abcdef" "Dee")]

/-- After `eventsLobby4`: Eve (connection `e`) joins as well, Ann starts the game and the
shuffle makes Cara the imposter. -/
def eventsGame5 : List ServerEvent :=
  eventsLobby4 ++
  [ServerEvent.connect "e",
   ServerEvent.client "e" (ClientEvent.joinRoom "abcdef" "Eve"),
   ServerEvent.client "a" (ClientEvent.startGame "Apple" "Banana" zeroDraws)]

/-- After `eventsGame5`: Ann starts the voting, Eve votes for Bob and disconnects, then
Bob votes for Cara. Bob, Cara and Dee are the active players; Dee has not voted. -/
def eventsStaleVote : List ServerEvent :=
  eventsGame5 ++
  [ServerEvent.client "a" ClientEvent.startVoting,
   ServerEvent.client "e" (ClientEvent.submitVote "Bob"),
   ServerEvent.client "e" ClientEvent.disconnect,
   ServerEvent.client "b" (ClientEvent.submitVote "Cara")]

/-- After `eventsLobby4`: Ann starts the game (Cara is the imposter) and the voting, Bob
votes for Cara and Cara votes for Bob. Dee, the third active voter, has not voted. -/
def eventsTwoOfThree : List ServerEvent :=
  eventsLobby4 ++
  [ServerEvent.client "a" (ClientEvent.startGame "Apple" "Banana" zeroDraws),
   ServerEvent.client "a" ClientEvent.startVoting,
   ServerEvent.client "b" (ClientEvent.submitVote "Cara"),
   ServerEvent.client "c" (ClientEvent.submitVote "Bob")]

/-- After `eventsGame5` (phase distribute): Eve confirms her word and disconnects, then
Bob confirms his word. Cara and Dee have not confirmed. -/
def eventsStaleSeen : List ServerEvent :=
  eventsGame5 ++
  [ServerEvent.client "e" ClientEvent.wordSeen,
   ServerEvent.client "e" ClientEvent.disconnect,
   ServerEvent.client "b" ClientEvent.wordSeen]

/-- After `eventsLobby4`: Ann starts the game with a shuffle that makes Bob the imposter,
then Ann disconnects. -/
def eventsHostLeaves : List ServerEvent :=
  eventsLobby4 ++
  [ServerEvent.client "a" (ClientEvent.startGame "Apple" "Banana" lastDraws),
   ServerEvent.client "a" ClientEvent.disconnect]

/-- Ann creates the room `ABCDEF` and then sends join-room for her own room under the
name Bob. -/
def eventsJoinTwice : List ServerEvent :=
  [ServerEvent.connect "a",
   ServerEvent.client "a" (ClientEvent.createRoom "Ann" "ABCDEF"),
   ServerEvent.client "a" (ClientEvent.joinRoom "ABCDEF" "Bob")]

/-- The room of a handler outcome, or the room the handler was given when it did not
return an update. -/
def Outcome.roomOr (o : Outcome) (room : Room) : Room := (o.room?).getD room

/-- The room `roomTie` after the tally found A and B tied and the host answered with
`revote`. -/
def roomRevote : Room :=
  ((tieResolution zeroDraws (((tallyVotes roomTie).map (fun eff => eff.room)).getD roomTie)
    "h" "revote").roomOr roomTie)

/-- The room `roomRevote` after both tied players voted: A for B and B for A. -/
def roomRevoteVoted : Room :=
  (submitVote ((submitVote roomRevote "s1" "B").roomOr roomRevote) "s2" "A").roomOr roomRevote

/-- The room `roomRevoteVoted` after the three players who are not tied voted as well:
C for D, D for C and E for C. -/
def roomRevoteAll : Room :=
  (submitVote ((submitVote ((submitVote roomRevoteVoted "s3" "D").roomOr roomRevoteVoted)
    "s4" "C").roomOr roomRevoteVoted) "s5" "C").roomOr roomRevoteVoted

/-- Host Ann with the active players Bob, Cara (the imposter), Dee and Eve in phase
voting; Bob, Cara and Dee have voted, Eve has not. -/
def roomFourVoters : Room :=
  votingRoom [⟨"h", "Ann", false, false⟩, ⟨"s1", "Bob", false, false⟩,
      ⟨"s2", "Cara", true, false⟩, ⟨"s3", "Dee", false, false⟩, ⟨"s4", "Eve", false, false⟩]
    [("Bob", "Cara"), ("Cara", "Bob"), ("Dee", "Cara")]

/-- The connection of Eve in `roomFourVoters`. -/
def socketEve : Socket := ⟨"s4", some "ABCDEF", some "Eve", false⟩

/-- The room that the run `eventsLobby4` leaves in the registry. -/
def roomOfLobby4 : Room :=
  { code := "ABCDEF", host := "a",
    players := [⟨"a", "Ann", false, false⟩, ⟨"b", "Bob", false, false⟩,
      ⟨"c", "Cara", false, false⟩, ⟨"d", "Dee", false, false⟩],
    settings := defaultSettings, state := blankState Phase.lobby, voicePeers := [] }

/-- The connection of the host Ann after the run `eventsLobby4`. -/
def socketAnn : Socket := ⟨"a", some "ABCDEF", some "Ann", false⟩

/-! ## Sample rooms: rounds, settings and words -/

/-- The room `roomStarted4` in phase elimination of round 3, with the setting
`maxRounds = 3`. -/
def roomLastRound : Room :=
  { roomStarted4 with
    settings := { defaultSettings with maxRounds := 3 },
    state := { roomStarted4.state with
      phase := Phase.elimination, round := 3,
      votes := ⟨[("Bob", "Cara")]⟩, hintsGiven := ["Bob"], tiedPlayers := ["Bob", "Cara"] } }

/-- The room `roomLastRound` without a limit on the rounds (`maxRounds = 0`). -/
def roomNoLimit : Room := { roomLastRound with settings := defaultSettings }

/-- A server whose registry holds the one room `room` under its code. -/
def serverOf (room : Room) : Server :=
  { rooms := [(room.code, room)], sockets := [], timers := [], crashed := false }

/-- The room `roomFourVoters` in which Eve has been eliminated. -/
def roomEveOut : Room :=
  { roomFourVoters with
    players := [⟨"h", "Ann", false, false⟩, ⟨"s1", "Bob", false, false⟩,
      ⟨"s2", "Cara", true, false⟩, ⟨"s3", "Dee", false, false⟩, ⟨"s4", "Eve", false, true⟩] }

/-- The connection of the host of `roomFourVoters`. -/
def socketHost : Socket := ⟨"h", some "ABCDEF", some "Ann", false⟩

/-- The connection of the host of `roomLobby4`. -/
def socketLobbyHost : Socket := ⟨"h", some "ABCDEF", some "Ann", false⟩

/-- A connection that is in no room yet. -/
def socketNew : Socket := ⟨"s9", none, none, false⟩

/-- Ann (connection `a`) creates the room `ABCDEF`; a player with the name `__proto__`
(connection `b`), Cara, Dee and Eve (connections `c`, `d`, `e`) join; Ann starts the game
(Cara is the imposter) and the voting. Eve votes and disconnects; Cara and Dee vote for
each other, which the tally finds a tie; Ann answers with `revote`. Cara votes for Dee.
Ann then sends `random` twice, which eliminates Cara and then Dee. -/
def eventsLastVoter : List ServerEvent :=
  [ServerEvent.connect "a", ServerEvent.connect "b", ServerEvent.connect "c",
   ServerEvent.connect "d", ServerEvent.connect "e",
   ServerEvent.client "a" (ClientEvent.createRoom "Ann" "ABCDEF"),
   ServerEvent.client "b" (ClientEvent.joinRoom "ABCDEF" "__proto__"),
   ServerEvent.client "c" (ClientEvent.joinRoom "ABCDEF" "Cara"),
   ServerEvent.client "d" (ClientEvent.joinRoom "ABCDEF" "Dee"),
   ServerEvent.client "e" (ClientEvent.joinRoom "ABCDEF" "Eve"),
   ServerEvent.client "a" (ClientEvent.startGame "Apple" "Banana" zeroDraws),
   ServerEvent.client "a" ClientEvent.startVoting,
   ServerEvent.client "e" (ClientEvent.submitVote "Ann"),
   ServerEvent.client "e" ClientEvent.disconnect,
   ServerEvent.client "c" (ClientEvent.submitVote "Dee"),
   ServerEvent.client "d" (ClientEvent.submitVote "Cara"),
   ServerEvent.client "a" (ClientEvent.tieResolution "revote" zeroDraws),
   ServerEvent.client "c" (ClientEvent.submitVote "Dee"),
   ServerEvent.client "a" (ClientEvent.tieResolution "random" zeroDraws),
   ServerEvent.client "a" (ClientEvent.tieResolution "random" lastDraws)]

/-- After `eventsLastVoter`: the remaining active player, on connection `b`, votes for
Ann. -/
def eventsLastVote : List ServerEvent :=
  eventsLastVoter ++ [ServerEvent.client "b" (ClientEvent.submitVote "Ann")]

/-! ## Invariants of the rooms in the registry -/

/-- The names of a room are fine: no two are equal ignoring case (`lower` is
`toLowerCase`), each is non-empty and trimmed, and there are at most 20 of them. -/
def NamesOk (lower : String → String) (names : List String) : Prop :=
  names.Pairwise (fun a b => lower a ≠ lower b) ∧
  (∀ n ∈ names, n ≠ "" ∧ jsTrim n = n) ∧
  names.length ≤ 20

instance namesOkDecidable (lower : String → String) (names : List String) :
    Decidable (NamesOk lower names) := by
  unfold NamesOk
  infer_instance

/-- The four settings lie in their ranges. -/
def SettingsInRange (st : Settings) : Prop :=
  (30 ≤ st.timerDuration ∧ st.timerDuration ≤ 300) ∧
  (0 ≤ st.imposterCount ∧ st.imposterCount ≤ 5) ∧
  (0 ≤ st.maxRounds ∧ st.maxRounds ≤ 20) ∧
  (0 ≤ st.hintTimer ∧ st.hintTimer ≤ 120)

instance settingsInRangeDecidable (st : Settings) : Decidable (SettingsInRange st) := by
  unfold SettingsInRange
  infer_instance

/-- No entry of the votes mapping has a voter name equal to its target name. -/
def NoSelfVote (votes : JsObj String) : Prop := ∀ e ∈ votes.own, e.1 ≠ e.2

instance noSelfVoteDecidable (votes : JsObj String) : Decidable (NoSelfVote votes) := by
  unfold NoSelfVote
  infer_instance

/-- A room as `create-room` builds it: one player with a trimmed non-empty name, the
default settings and no votes. -/
def FreshRoom (room : Room) : Prop :=
  ∃ id name, jsTrim name ≠ "" ∧ room.players = [⟨id, jsTrim name, false, false⟩] ∧
    room.settings = defaultSettings ∧ room.state.votes = ⟨[]⟩

/-- What one event can do to the names, the settings and the votes of a room that stays
in the registry. Names: some are removed, or `join-room` appends one that passed its
checks. Settings: unchanged, or each field clamped by `update-settings`. Votes:
unchanged, emptied, or one vote for a name other than the voter's is written. -/
def RoomStep (lower : String → String) (room room1 : Room) : Prop :=
  ((room1.players.map (fun p => p.name)).Sublist (room.players.map (fun p => p.name)) ∨
    ∃ id name, jsTrim name ≠ "" ∧
      (∀ p ∈ room.players, lower p.name ≠ lower (jsTrim name)) ∧
      room.players.length < 20 ∧
      room1.players = room.players ++ [⟨id, jsTrim name, false, false⟩]) ∧
  (room1.settings = room.settings ∨
    ∃ t i m h, room1.settings =
      { timerDuration := clampSetting 30 300 room.settings.timerDuration t,
        imposterCount := clampSetting 0 5 room.settings.imposterCount i,
        maxRounds := clampSetting 0 20 room.settings.maxRounds m,
        hintTimer := clampSetting 0 120 room.settings.hintTimer h }) ∧
  (room1.state.votes = room.state.votes ∨ room1.state.votes = ⟨[]⟩ ∨
    ∃ k v, v ≠ k ∧ room1.state.votes = room.state.votes.set k v)

/-- Where an entry of the registry after an event comes from: it was there before, it is
a fresh room under a code that `generateRoomCode` can return, or it is the successor of
the room that was stored under the same code. -/
def Server.Next (lower : String → String) (s : Server) (e : String × Room) : Prop :=
  e ∈ s.rooms ∨ (FreshRoom e.2 ∧ isRoomCode e.1 = true) ∨
    ∃ room, (e.1, room) ∈ s.rooms ∧ RoomStep lower room e.2

/-- The recorded effects of a handler that may tally, whether it returned or threw. -/
def Outcome.effects? : Outcome → Option Effects
  | Outcome.ignored => none
  | Outcome.done eff => some eff
  | Outcome.threw eff => some eff

/-! ## Sample runs: a fractional imposter count, a second join, an eliminated name -/

/-- The number 2.5, as the quotient of 5 and 2 in lowest terms. -/
def twoAndAHalf : ℚ := ⟨5, 2, by decide, by decide⟩

/-- After `eventsLobby4`: Eve (connection `e`) joins as well, Ann sends update-settings
with `imposterCount: 2.5` and starts the game. -/
def eventsHalfImposter : List ServerEvent :=
  eventsLobby4 ++
  [ServerEvent.connect "e",
   ServerEvent.client "e" (ClientEvent.joinRoom "abcdef" "Eve"),
   ServerEvent.client "a" (ClientEvent.updateSettings none (some twoAndAHalf) none none),
   ServerEvent.client "a" (ClientEvent.startGame "Apple" "Banana" zeroDraws)]

/-- Ann (connection `a`) creates the room `ABCDEF`; connection `b` joins as Bob and then
sends join-room again under the name Bobby; Ann starts the game. -/
def eventsTwinStart : List ServerEvent :=
  [ServerEvent.connect "a", ServerEvent.connect "b",
   ServerEvent.client "a" (ClientEvent.createRoom "Ann" "ABCDEF"),
   ServerEvent.client "b" (ClientEvent.joinRoom "ABCDEF" "Bob"),
   ServerEvent.client "b" (ClientEvent.joinRoom "ABCDEF" "Bobby"),
   ServerEvent.client "a" (ClientEvent.startGame "Apple" "Banana" zeroDraws)]

/-- Ann (connection `a`) creates the room `ABCDEF`; a player with the name `constructor`
(connection `b`), Bob and Cy (connections `c`, `d`) join; Ann starts the game (Bob is the
imposter) and the voting; `constructor` votes for Bob and Bob votes for `constructor`. Cy
has not voted yet. -/
def eventsConstructorVotes : List ServerEvent :=
  [ServerEvent.connect "a", ServerEvent.connect "b", ServerEvent.connect "c",
   ServerEvent.connect "d",
   ServerEvent.client "a" (ClientEvent.createRoom "Ann" "ABCDEF"),
   ServerEvent.client "b" (ClientEvent.joinRoom "ABCDEF" "constructor"),
   ServerEvent.client "c" (ClientEvent.joinRoom "ABCDEF" "Bob"),
   ServerEvent.client "d" (ClientEvent.joinRoom "ABCDEF" "Cy"),
   ServerEvent.client "a" (ClientEvent.startGame "Apple" "Banana" zeroDraws),
   ServerEvent.client "a" ClientEvent.startVoting,
   ServerEvent.client "b" (ClientEvent.submitVote "Bob"),
   ServerEvent.client "c" (ClientEvent.submitVote "constructor")]

/-! ## Theorems: imposter count and win condition -/

/-- C1 (as stated, refuted): with three active imposters and two active normals the
evaluator answers `imposters`, while the three-way rule of the claim gives "continue". -/
theorem checkWinCondition_three_vs_two :
    activeImposters roomThreeVsTwo = 3 ∧ activeNormals roomThreeVsTwo = 2 ∧
    checkWinCondition roomThreeVsTwo = some Winner.imposters ∧
    specWinRule 3 2 = none ∧
    checkWinCondition roomThreeVsTwo ≠
      specWinRule (activeImposters roomThreeVsTwo) (activeNormals roomThreeVsTwo) := by
  decide

/-- C1 (amended): for every room, with I active imposters and N active normals,
`checkWinCondition` returns `people` if I = 0, otherwise `imposters` if N ≤ 1 or
I > N, otherwise null. -/
theorem checkWinCondition_eq_codeWinRule (room : Room) :
    checkWinCondition room = codeWinRule (activeImposters room) (activeNormals room) := by
  unfold checkWinCondition codeWinRule activeImposters activeNormals
  simp only []
  split_ifs <;> first | rfl | omega

/-- C2: for n ≥ 2 and every integer override, `getImposterCount n override` is the
override when 1 ≤ override ≤ n - 1 and otherwise the auto value (1 up to nine
participants, 2 up to twelve, 3 above). -/
theorem getImposterCount_spec (n override : Int) (hn : 2 ≤ n) :
    (1 ≤ override ∧ override ≤ n - 1 → getImposterCount n override = override) ∧
    (¬ (1 ≤ override ∧ override ≤ n - 1) →
      (n ≤ 9 → getImposterCount n override = 1) ∧
      (10 ≤ n ∧ n ≤ 12 → getImposterCount n override = 2) ∧
      (12 < n → getImposterCount n override = 3)) := by
  have _ := hn
  have hcond : ((override : ℚ) ≠ 0 ∧ (override : ℚ) > 0 ∧ (override : ℚ) < (n : ℚ)) ↔
      (1 ≤ override ∧ override ≤ n - 1) := by
    constructor
    · rintro ⟨_, h1, h2⟩
      have h1i : 0 < override := by exact_mod_cast h1
      have h2i : override < n := by exact_mod_cast h2
      omega
    · rintro ⟨h1, h2⟩
      have h1q : (0 : ℚ) < (override : ℚ) := by exact_mod_cast (show 0 < override by omega)
      exact ⟨ne_of_gt h1q, h1q, by exact_mod_cast (show override < n by omega)⟩
  unfold getImposterCount
  refine ⟨fun h => ?_, fun h => ⟨fun h9 => ?_, fun h12 => ?_, fun h13 => ?_⟩⟩
  · rw [if_pos (hcond.mpr h)]
  · rw [if_neg (fun hc => h (hcond.mp hc)), if_pos h9]
  · rw [if_neg (fun hc => h (hcond.mp hc)), if_neg (by omega), if_pos h12.2]
  · rw [if_neg (fun hc => h (hcond.mp hc)), if_neg (by omega), if_neg (by omega)]

/-- Witness for C2 at n = 11, override = 7 (valid) . -/
theorem getImposterCount_spec_witness :
    (1 ≤ (7 : Int) ∧ (7 : Int) ≤ 11 - 1 → getImposterCount 11 (7 : Int) = (7 : Int)) ∧
    (¬ (1 ≤ (7 : Int) ∧ (7 : Int) ≤ 11 - 1) →
      ((11 : Int) ≤ 9 → getImposterCount 11 (7 : Int) = 1) ∧
      (10 ≤ (11 : Int) ∧ (11 : Int) ≤ 12 → getImposterCount 11 (7 : Int) = 2) ∧
      ((12 : Int) < 11 → getImposterCount 11 (7 : Int) = 3)) :=
  getImposterCount_spec 11 7 (by decide)

/-- For n ≥ 2 and every finite override the imposter count is positive and less than n. -/
theorem getImposterCount_range (n : Int) (override : ℚ) (hn : 2 ≤ n) :
    0 < getImposterCount n override ∧ getImposterCount n override < (n : ℚ) := by
  have h2 : (2 : ℚ) ≤ (n : ℚ) := by exact_mod_cast hn
  unfold getImposterCount
  split_ifs with h1 h9 h12
  · exact ⟨h1.2.1, h1.2.2⟩
  · exact ⟨by norm_num, by linarith⟩
  · have : (9 : ℚ) < (n : ℚ) := by exact_mod_cast (not_le.mp h9)
    exact ⟨by norm_num, by linarith⟩
  · have : (12 : ℚ) < (n : ℚ) := by exact_mod_cast (not_le.mp h12)
    exact ⟨by norm_num, by linarith⟩

/-- For an integer override the imposter count is an integer. -/
theorem getImposterCount_int (n k : Int) : ∃ j : Int, getImposterCount n (k : ℚ) = (j : ℚ) := by
  unfold getImposterCount
  split_ifs
  · exact ⟨k, rfl⟩
  · exact ⟨1, by norm_num⟩
  · exact ⟨2, by norm_num⟩
  · exact ⟨3, by norm_num⟩

/-- For n ≥ 2 and every integer override, 1 ≤ `getImposterCount n override` < n. -/
theorem getImposterCount_bounds (n override : Int) (hn : 2 ≤ n) :
    1 ≤ getImposterCount n override ∧ getImposterCount n override < (n : ℚ) := by
  obtain ⟨h1, h2⟩ := getImposterCount_range n override hn
  obtain ⟨j, hj⟩ := getImposterCount_int n override
  rw [hj] at h1 h2 ⊢
  have : 0 < j := by exact_mod_cast h1
  exact ⟨by exact_mod_cast (show 1 ≤ j by omega), h2⟩

/-- C3: a started game without a normal participant. Connection `b` joins the room of
Ann twice, as Bob and as Bobby, and Ann starts the game. There are two participants and
`getImposterCount 2 0` is 1, within its bounds; the one id drawn is `b`, so both
participants are imposters and no participant is normal. -/
theorem startGame_twins_all_imposters :
    (roomAfter eventsTwinStart).map (fun room => room.players) =
      some [⟨"a", "Ann", false, false⟩, ⟨"b", "Bob", true, false⟩,
        ⟨"b", "Bobby", true, false⟩] ∧
    (roomAfter eventsTwinStart).map (fun room => decide (room.state.phase = Phase.distribute)) =
      some true ∧
    getImposterCount 2 0 = 1 ∧
    (roomAfter eventsTwinStart).map (fun room =>
      (room.players.filter (fun p => p.id != room.host && p.isImposter)).length) = some 2 ∧
    (roomAfter eventsTwinStart).map (fun room =>
      (room.players.filter (fun p => p.id != room.host && !p.isImposter)).length) = some 0 := by
  decide

theorem jsToInteger_intCast (j : Int) : jsToInteger (j : ℚ) = j := by
  unfold jsToInteger
  split_ifs
  · rw [← Int.cast_neg, Int.floor_intCast, neg_neg]
  · exact Int.floor_intCast j

theorem jsToInteger_of_pos (x : ℚ) (n : Int) (h0 : 0 < x) (hn : x < (n : ℚ)) :
    0 ≤ jsToInteger x ∧ jsToInteger x < n := by
  unfold jsToInteger
  rw [if_neg (not_lt.mpr (le_of_lt h0))]
  exact ⟨Int.floor_nonneg.mpr (le_of_lt h0), Int.floor_lt.mpr hn⟩

/-! ## Lemmas: the shuffle -/

variable {α : Type}

theorem swapAt_length (a : List α) (i j : Nat) : (swapAt a i j).length = a.length := by
  unfold swapAt
  split <;> simp

theorem swapAt_snoc (b : List α) (x : α) (s : List α) (j : Nat) (hj : j ≤ b.length) :
    swapAt (b ++ x :: s) b.length j = (pickLast b x j).1 ++ (pickLast b x j).2 :: s := by
  unfold swapAt pickLast
  have hi : (b ++ x :: s)[b.length]? = some x := by
    rw [List.getElem?_append_right (le_refl _)]; simp
  rw [hi]
  by_cases h : j < b.length
  · have hjv : (b ++ x :: s)[j]? = some b[j] := by
      rw [List.getElem?_append_left h]; simp [h]
    rw [hjv]
    simp only [h, dite_true]
    rw [List.set_append_right _ _ (le_refl _)]
    simp only [Nat.sub_self, List.set_cons_zero]
    rw [List.set_append_left _ _ h]
  · have hje : j = b.length := by omega
    subst hje
    rw [hi]
    simp only [lt_irrefl, dite_false]
    rw [List.set_append_right _ _ (le_refl _)]
    simp only [Nat.sub_self, List.set_cons_zero]
    rw [List.set_append_right _ _ (le_refl _)]
    simp

theorem pickLast_length (b : List α) (x : α) (j : Nat) :
    (pickLast b x j).1.length = b.length := by
  unfold pickLast
  split <;> simp

theorem pickLast_perm (b : List α) (x : α) (j : Nat) :
    ((pickLast b x j).1 ++ [(pickLast b x j).2]).Perm (b ++ [x]) := by
  unfold pickLast
  by_cases h : j < b.length
  · simp only [h, dite_true]
    rw [List.set_eq_take_append_cons_drop]
    simp only [h, if_true]
    conv_rhs => rw [← List.take_append_drop j b, List.drop_eq_getElem_cons h]
    simp only [List.append_assoc, List.cons_append]
    refine List.Perm.append_left _ ?_
    refine (List.Perm.cons _ (List.perm_append_singleton _ _)).trans ?_
    refine (List.Perm.swap _ _ _).trans ?_
    exact List.Perm.cons _ (List.perm_append_singleton _ _).symm
  · simp [h]

theorem shuffleLoop_length (draw : Draws) (i : Nat) (a : List α) :
    (shuffleLoop draw i a).length = a.length := by
  induction i generalizing a with
  | zero => rfl
  | succ i ih => rw [shuffleLoop, ih, swapAt_length]

theorem swapAt_append (p s : List α) (i j : Nat) (hi : i < p.length) (hj : j < p.length) :
    swapAt (p ++ s) i j = swapAt p i j ++ s := by
  unfold swapAt
  rw [List.getElem?_append_left hi, List.getElem?_append_left hj]
  simp only [List.getElem?_eq_getElem hi, List.getElem?_eq_getElem hj]
  rw [List.set_append_left _ _ hi, List.set_append_left _ _ (by simpa using hj)]

theorem shuffleLoop_append (draw : Draws) (i : Nat) (p s : List α) (hi : i < p.length) :
    shuffleLoop draw i (p ++ s) = shuffleLoop draw i p ++ s := by
  induction i generalizing p with
  | zero => rfl
  | succ i ih =>
    rw [shuffleLoop, shuffleLoop]
    have hj : (draw (i + 1)).val < p.length := lt_of_le_of_lt (Nat.lt_succ_iff.mp (draw (i+1)).isLt) hi
    rw [swapAt_append p s (i + 1) _ hi hj]
    exact ih _ (by rw [swapAt_length]; omega)

theorem shuffleLoop_snoc (draw : Draws) (m : Nat) (b : List α) (x : α)
    (hb : b.length = m + 1) :
    shuffleLoop draw (m + 1) (b ++ [x]) =
      shuffleLoop draw m (pickLast b x (draw (m + 1)).val).1 ++
        [(pickLast b x (draw (m + 1)).val).2] := by
  rw [shuffleLoop]
  have hj : (draw (m + 1)).val ≤ b.length := by
    have := (draw (m + 1)).isLt
    omega
  have := swapAt_snoc b x [] (draw (m + 1)).val hj
  rw [hb] at this
  rw [this]
  exact shuffleLoop_append draw m _ _ (by rw [pickLast_length]; omega)

theorem shuffleLoop_perm (draw : Draws) (m : Nat) (a : List α) (ha : a.length = m + 1) :
    (shuffleLoop draw m a).Perm a := by
  induction m generalizing a with
  | zero => exact List.Perm.refl _
  | succ m ih =>
    obtain ⟨b, x, rfl⟩ : ∃ b x, a = b ++ [x] := by
      rcases List.eq_nil_or_concat a with h | ⟨b, x, h⟩
      · subst h; simp at ha
      · exact ⟨b, x, by simpa using h⟩
    have hb : b.length = m + 1 := by simpa using ha
    rw [shuffleLoop_snoc draw m b x hb]
    refine List.Perm.trans ?_ (pickLast_perm b x (draw (m + 1)).val)
    exact List.Perm.append_right _ (ih _ (by rw [pickLast_length]; exact hb))

theorem shuffleArray_perm (draw : Draws) (arr : List α) : (shuffleArray draw arr).Perm arr := by
  unfold shuffleArray
  cases arr with
  | nil => exact List.Perm.refl _
  | cons a l => exact shuffleLoop_perm draw _ _ (by simp)

theorem shuffleLoop_congr (d d' : Draws) (m : Nat) (a : List α)
    (h : ∀ i, 1 ≤ i → i ≤ m → d i = d' i) : shuffleLoop d m a = shuffleLoop d' m a := by
  induction m generalizing a with
  | zero => rfl
  | succ m ih =>
    rw [shuffleLoop, shuffleLoop, h (m + 1) (by omega) (le_refl _)]
    exact ih _ (fun i h1 h2 => h i h1 (by omega))

theorem pickLast_snd (b : List α) (x : α) (j : Nat) (hj : j ≤ b.length) :
    (b ++ [x])[j]? = some (pickLast b x j).2 := by
  unfold pickLast
  by_cases h : j < b.length
  · simp only [h, dite_true]
    rw [List.getElem?_append_left h, List.getElem?_eq_getElem h]
  · have hje : j = b.length := by omega
    subst hje
    simp only [lt_irrefl, dite_false]
    rw [List.getElem?_append_right (le_refl _)]; simp

theorem exists_snoc_of_length (a : List α) (m : Nat) (ha : a.length = m + 1) :
    ∃ b x, a = b ++ [x] ∧ b.length = m := by
  rcases List.eq_nil_or_concat a with h | ⟨b, x, h⟩
  · subst h; simp at ha
  · refine ⟨b, x, by simpa using h, ?_⟩
    subst h; simpa using ha

theorem shuffleLoop_inj (d d' : Draws) (m : Nat) (a : List α) (ha : a.length = m + 1)
    (hnd : a.Nodup) (h : shuffleLoop d m a = shuffleLoop d' m a) :
    ∀ i, 1 ≤ i → i ≤ m → d i = d' i := by
  induction m generalizing a with
  | zero => intro i h1 h2; omega
  | succ m ih =>
    obtain ⟨b, x, rfl, hb⟩ := exists_snoc_of_length a (m + 1) ha
    rw [shuffleLoop_snoc d m b x hb, shuffleLoop_snoc d' m b x hb] at h
    obtain ⟨h1, h2⟩ := List.append_inj' h rfl
    have hy : (pickLast b x (d (m + 1)).val).2 = (pickLast b x (d' (m + 1)).val).2 := by
      simpa using h2
    have hjd : (d (m + 1)).val ≤ b.length := by have := (d (m + 1)).isLt; omega
    have hjd' : (d' (m + 1)).val ≤ b.length := by have := (d' (m + 1)).isLt; omega
    have hidx : (d (m + 1)).val = (d' (m + 1)).val := by
      refine List.getElem?_inj (by simp; omega) hnd ?_
      rw [pickLast_snd b x _ hjd, pickLast_snd b x _ hjd', hy]
    have hlast : d (m + 1) = d' (m + 1) := Fin.ext hidx
    rw [← hidx] at h1
    have hnd' : (pickLast b x (d (m + 1)).val).1.Nodup := by
      have := (pickLast_perm b x (d (m + 1)).val).nodup_iff.mpr hnd
      exact (List.nodup_append.mp this).1
    have hrec := ih _ (by rw [pickLast_length]; exact hb) hnd' h1
    intro i hi1 hi2
    rcases Nat.lt_or_ge i (m + 1) with hlt | hge
    · exact hrec i hi1 (by omega)
    · have : i = m + 1 := by omega
      subst this; exact hlast

theorem shuffleLoop_surj (m : Nat) (a p : List α) (ha : a.length = m + 1) (hp : p.Perm a) :
    ∃ d : Draws, shuffleLoop d m a = p := by
  induction m generalizing a p with
  | zero =>
    refine ⟨fun _ => 0, ?_⟩
    rw [shuffleLoop]
    match a, ha with
    | [x], _ => exact (List.perm_singleton.mp hp).symm
  | succ m ih =>
    obtain ⟨b, x, rfl, hb⟩ := exists_snoc_of_length a (m + 1) ha
    obtain ⟨q, y, rfl, _⟩ := exists_snoc_of_length p (m + 1) (by rw [hp.length_eq]; exact ha)
    have hy : y ∈ b ++ [x] := hp.subset (by simp)
    obtain ⟨j, hj⟩ := List.mem_iff_getElem?.mp hy
    have hjlt : j < (b ++ [x]).length := by
      by_contra hc
      rw [List.getElem?_eq_none (by omega)] at hj
      exact absurd hj (by simp)
    have hjle : j ≤ b.length := by simp at hjlt; omega
    have hsnd : (pickLast b x j).2 = y := by
      have h := pickLast_snd b x j hjle
      rw [hj] at h
      exact (Option.some.inj h).symm
    have hperm : q.Perm (pickLast b x j).1 := by
      have h1 := (pickLast_perm b x j).trans hp.symm
      rw [hsnd] at h1
      exact ((List.perm_append_right_iff [y]).mp h1).symm
    obtain ⟨d0, hd0⟩ := ih (pickLast b x j).1 q (by rw [pickLast_length]; exact hb) hperm
    refine ⟨Function.update d0 (m + 1) ⟨j, by omega⟩, ?_⟩
    rw [shuffleLoop_snoc _ m b x hb]
    simp only [Function.update_same]
    rw [hsnd]
    congr 1
    refine (shuffleLoop_congr _ d0 m _ ?_).trans hd0
    intro i _ hi
    exact Function.update_noteq (by omega) _ _

theorem toDraws_succ {n : Nat} (d : DrawSeq n) (k : Nat) (h : k < n - 1) :
    d.toDraws (k + 1) = d ⟨k, h⟩ := by
  simp [DrawSeq.toDraws, h]

theorem shuffleArray_ofDraws (draw : Draws) (arr : List α) :
    shuffleArray (DrawSeq.ofDraws arr.length draw).toDraws arr = shuffleArray draw arr := by
  unfold shuffleArray
  apply shuffleLoop_congr
  intro i h1 h2
  obtain ⟨k, rfl⟩ : ∃ k, i = k + 1 := ⟨i - 1, by omega⟩
  rw [toDraws_succ _ k (by omega)]
  rfl

theorem shuffleArray_injective (l : List α) (hl : l.Nodup) (d1 d2 : DrawSeq l.length)
    (h : shuffleArray d1.toDraws l = shuffleArray d2.toDraws l) : d1 = d2 := by
  funext i
  have hi := i.isLt
  unfold shuffleArray at h
  have := shuffleLoop_inj _ _ (l.length - 1) l (by omega) hl h (i.val + 1) (by omega) (by omega)
  rw [toDraws_succ d1 i.val i.isLt, toDraws_succ d2 i.val i.isLt] at this
  exact this

theorem shuffleArray_surjective (l p : List α) (hp : p.Perm l) :
    ∃ d : DrawSeq l.length, shuffleArray d.toDraws l = p := by
  cases l with
  | nil =>
    refine ⟨fun i => absurd i.isLt (by simp), ?_⟩
    simp [shuffleArray, shuffleLoop, List.perm_nil.mp hp]
  | cons a t =>
    obtain ⟨d, hd⟩ := shuffleLoop_surj t.length (a :: t) p (by simp) hp
    refine ⟨DrawSeq.ofDraws _ d, ?_⟩
    rw [shuffleArray_ofDraws]
    simpa [shuffleArray] using hd

theorem card_drawSeq (n : Nat) : Fintype.card (DrawSeq n) = n.factorial := by
  rw [Fintype.card_pi]
  simp only [Fintype.card_fin]
  rw [Fin.prod_univ_eq_prod_range (fun i => i + 2) (n - 1)]
  cases n with
  | zero => simp
  | succ m =>
    simp only [Nat.add_sub_cancel]
    induction m with
    | zero => simp
    | succ k ih =>
      rw [Finset.prod_range_succ, ih, Nat.factorial_succ (k + 1)]
      ring

theorem map_swap_perm [DecidableEq α] (l : List α) (hl : l.Nodup) (x y : α) (hx : x ∈ l)
    (hy : y ∈ l) : (l.map (Equiv.swap x y)).Perm l := by
  rw [List.perm_ext_iff_of_nodup (hl.map (Equiv.swap x y).injective) hl]
  intro z
  simp only [List.mem_map]
  constructor
  · rintro ⟨w, hw, rfl⟩
    by_cases h1 : w = x
    · subst h1; rw [Equiv.swap_apply_left]; exact hy
    · by_cases h2 : w = y
      · subst h2; rw [Equiv.swap_apply_right]; exact hx
      · rw [Equiv.swap_apply_of_ne_of_ne h1 h2]; exact hw
  · intro hz
    refine ⟨Equiv.swap x y z, ?_, Equiv.swap_apply_self x y z⟩
    by_cases h1 : z = x
    · subst h1; rw [Equiv.swap_apply_left]; exact hy
    · by_cases h2 : z = y
      · subst h2; rw [Equiv.swap_apply_right]; exact hx
      · rw [Equiv.swap_apply_of_ne_of_ne h1 h2]; exact hz

theorem card_firstK_le [DecidableEq α] (l : List α) (hl : l.Nodup) (k : Nat) (x y : α)
    (hx : x ∈ l) (hy : y ∈ l) :
    (Finset.univ.filter
      (fun d : DrawSeq l.length => x ∈ (shuffleArray d.toDraws l).take k)).card ≤
    (Finset.univ.filter
      (fun d : DrawSeq l.length => y ∈ (shuffleArray d.toDraws l).take k)).card := by
  have hex : ∀ d : DrawSeq l.length, ∃ d' : DrawSeq l.length,
      shuffleArray d'.toDraws l = (shuffleArray d.toDraws l).map (Equiv.swap x y) := by
    intro d
    apply shuffleArray_surjective
    exact ((shuffleArray_perm d.toDraws l).map _).trans (map_swap_perm l hl x y hx hy)
  choose σ hσ using hex
  apply Finset.card_le_card_of_injOn σ
  · intro d hd
    simp only [Finset.mem_filter, Finset.mem_univ, true_and] at hd ⊢
    rw [hσ d, ← List.map_take]
    exact List.mem_map.mpr ⟨x, hd, Equiv.swap_apply_left x y⟩
  · intro d1 _ d2 _ h12
    apply shuffleArray_injective l hl
    have h := hσ d1
    rw [h12, hσ d2] at h
    exact (List.map_injective_iff.mpr (Equiv.swap x y).injective h).symm

theorem count_mem_take {β : Type} [DecidableEq β] (ids ids' : List β) (k : Nat)
    (hp : ids'.Perm ids) (hnd : ids.Nodup) (hk : k ≤ ids.length) :
    ids.countP (fun z => (ids'.take k).contains z) = k := by
  rw [← hp.countP_eq]
  have hnd' : ids'.Nodup := hp.nodup_iff.mpr hnd
  conv_lhs => arg 2; rw [← List.take_append_drop k ids']
  rw [List.countP_append]
  have h1 : (ids'.take k).countP (fun z => (ids'.take k).contains z) = k := by
    rw [List.countP_eq_length.mpr]
    · rw [List.length_take, hp.length_eq]; omega
    · intro a ha; simpa using ha
  have h2 : (ids'.drop k).countP (fun z => (ids'.take k).contains z) = 0 := by
    rw [List.countP_eq_zero]
    intro a ha
    rw [← List.take_append_drop k ids'] at hnd'
    have hdis := (List.nodup_append.mp hnd').2.2
    simp only [List.contains_eq_any_beq, List.any_eq_true, beq_iff_eq, not_exists, not_and]
    intro b hb hab
    subst hab
    exact hdis hb ha
  rw [h1, h2, Nat.add_zero]

/-! ## Lemmas: role assignment -/

theorem assignRoles_count (host : SocketId) (S : List SocketId) (players : List Player) :
    ((assignRoles host S players).filter (fun p => p.id != host && p.isImposter)).length =
      ((players.filter (fun p => p.id != host)).map (fun p => p.id)).countP
        (fun z => S.contains z) := by
  unfold assignRoles
  rw [← List.countP_eq_length_filter, List.countP_map, List.countP_map, List.countP_filter]
  apply List.countP_congr
  intro p _
  by_cases hp : p.id = host
  · simp [hp]
  · simp [hp]

theorem assignRoles_host (host : SocketId) (S : List SocketId) (players : List Player) :
    ∀ p ∈ assignRoles host S players, p.id = host → p.isImposter = false := by
  intro p hp hid
  unfold assignRoles at hp
  obtain ⟨q, _, rfl⟩ := List.mem_map.mp hp
  by_cases hq : q.id = host
  · simp [hq]
  · simp [hq] at hid

theorem assignRoles_eliminated (host : SocketId) (S : List SocketId) (players : List Player) :
    ∀ p ∈ assignRoles host S players, p.eliminated = false := by
  intro p hp
  unfold assignRoles at hp
  obtain ⟨q, _, rfl⟩ := List.mem_map.mp hp
  by_cases hq : q.id = host <;> simp [hq]


/-! ## Theorems: role assignment and shuffle -/

/-- The sample number `twoAndAHalf` is 5 / 2. -/
theorem twoAndAHalf_eq : twoAndAHalf = 5 / 2 := by
  have h := (Rat.num_div_den twoAndAHalf).symm
  have hn : twoAndAHalf.num = 5 := rfl
  have hd : twoAndAHalf.den = 2 := rfl
  rw [hn, hd] at h
  rw [h]
  norm_num

/-- C4 (as stated, refuted): the host of a lobby with the four participants Bob, Cara,
Dee and Eve sets the imposter count to 2.5, which `update-settings` stores as it is, and
starts the game. `getImposterCount 4 2.5` is 2.5, and two participants are imposters. -/
theorem startGame_fractional_count :
    (roomAfter eventsHalfImposter).map (fun room => room.settings.imposterCount) =
      some twoAndAHalf ∧
    (roomAfter eventsHalfImposter).map (fun room =>
        (room.players.filter (fun p => p.id != room.host)).length) = some 4 ∧
    (roomAfter eventsHalfImposter).map (fun room =>
        (room.players.filter (fun p => p.id != room.host && p.isImposter)).length) = some 2 ∧
    getImposterCount 4 twoAndAHalf = twoAndAHalf ∧
    twoAndAHalf ≠ ((2 : Nat) : ℚ) ∧
    (((roomAfter eventsHalfImposter).map (fun room => room.players)).getD []).map
        (fun p => p.id) = ["a", "b", "c", "d", "e"] := by
  decide

/-- C4 (amended): after every successful start-game in a room whose non-host players
(there are n ≥ 2 of them, or the handler rejects) have pairwise distinct connection ids,
and for every outcome `draw` of the shuffle, the number of non-host players with
`isImposter = true` is the integer part of `getImposterCount n settings.imposterCount`,
which is `getImposterCount n settings.imposterCount` itself when the setting is an
integer; the host has `isImposter = false`, and every player has `eliminated = false`. -/
theorem startGame_roles (lower : String → String) (draw : Draws) (room : Room)
    (socketId : SocketId) (normalWord imposterWord : String) (room' : Room)
    (hok : (startGame lower draw room socketId normalWord imposterWord).room? = some room')
    (hids : ((room.players.filter (fun p => p.id != room.host)).map (fun p => p.id)).Nodup) :
    2 ≤ (room.players.filter (fun p => p.id != room.host)).length ∧
    (((room'.players.filter (fun p => p.id != room'.host && p.isImposter)).length : Int) =
      jsToInteger
        (getImposterCount ((room.players.filter (fun p => p.id != room.host)).length : Int)
          room.settings.imposterCount)) ∧
    (∀ k : Int, room.settings.imposterCount = (k : ℚ) →
      (((room'.players.filter (fun p => p.id != room'.host && p.isImposter)).length : Nat) : ℚ) =
        getImposterCount ((room.players.filter (fun p => p.id != room.host)).length : Int)
          room.settings.imposterCount) ∧
    (∀ p ∈ room'.players, p.id = room'.host → p.isImposter = false) ∧
    (∀ p ∈ room'.players, p.eliminated = false) := by
  unfold startGame at hok
  simp only [] at hok
  split_ifs at hok with h1 h2 h3
  · simp [HandlerResult.room?] at hok
  · simp [HandlerResult.room?] at hok
  · simp [HandlerResult.room?] at hok
  · have hn : 2 ≤ (room.players.filter (fun p => p.id != room.host)).length := by omega
    simp only [HandlerResult.room?, Option.some.injEq] at hok
    subst hok
    have hg := getImposterCount_range
      ((room.players.filter (fun p => p.id != room.host)).length : Int)
      room.settings.imposterCount (by exact_mod_cast hn)
    have hb := jsToInteger_of_pos _ _ hg.1 hg.2
    have hcount : (((assignRoles room.host
        ((jsSlice0 (shuffleArray draw (room.players.filter (fun p => p.id != room.host)))
          (getImposterCount ((room.players.filter (fun p => p.id != room.host)).length : Int)
            room.settings.imposterCount)).map (fun p => p.id)) room.players).filter
        (fun p => p.id != room.host && p.isImposter)).length : Int) =
        jsToInteger
          (getImposterCount ((room.players.filter (fun p => p.id != room.host)).length : Int)
            room.settings.imposterCount) := by
      rw [assignRoles_count]
      unfold jsSlice0
      rw [if_neg (by omega), List.map_take]
      rw [count_mem_take _ _ _ ((shuffleArray_perm draw _).map _) hids
        (by simp only [List.length_map]; omega)]
      omega
    refine ⟨hn, hcount, ?_, assignRoles_host _ _ _, assignRoles_eliminated _ _ _⟩
    intro k hk
    obtain ⟨j, hj⟩ := getImposterCount_int
      ((room.players.filter (fun p => p.id != room.host)).length : Int) k
    simp only [] at hcount ⊢
    rw [hk] at hcount ⊢
    rw [hj, jsToInteger_intCast] at hcount
    rw [hj]
    exact_mod_cast hcount

/-- Witness for C4: host Ann starts the game for Bob, Cara and Dee with every draw `0`;
the imposter count setting is the integer 0, `getImposterCount 3 0` is 1, and one of the
three participants becomes the imposter. -/
theorem startGame_roles_witness :
    2 ≤ (roomLobby4.players.filter (fun p => p.id != roomLobby4.host)).length ∧
    (((roomStarted4.players.filter
        (fun p => p.id != roomStarted4.host && p.isImposter)).length : Int) =
      jsToInteger
        (getImposterCount
          ((roomLobby4.players.filter (fun p => p.id != roomLobby4.host)).length : Int)
          roomLobby4.settings.imposterCount)) ∧
    (((roomStarted4.players.filter
        (fun p => p.id != roomStarted4.host && p.isImposter)).length : Nat) : ℚ) =
      getImposterCount
        ((roomLobby4.players.filter (fun p => p.id != roomLobby4.host)).length : Int)
        roomLobby4.settings.imposterCount ∧
    (∀ p ∈ roomStarted4.players, p.id = roomStarted4.host → p.isImposter = false) ∧
    (∀ p ∈ roomStarted4.players, p.eliminated = false) :=
  have h := startGame_roles asciiLower zeroDraws roomLobby4 "h" "Apple" "Banana" roomStarted4
    (by decide) (by decide)
  ⟨h.1, h.2.1, h.2.2.1 0 (by decide), h.2.2.2.1, h.2.2.2.2⟩

/-- C5: `shuffleArray` is an unbiased Fisher-Yates shuffle. For a list `l` of n pairwise
distinct elements: the result under any draw outcome is the result under the draw
sequence `(j_i)`, `i = 1 .. n - 1`, `0 ≤ j_i ≤ i`, read off it; every result is a
permutation of `l`; every permutation of `l` is the result of exactly one draw sequence;
there are n! draw sequences; and for every k, any two elements of `l` land in the first
k positions for the same number of draw sequences. -/
theorem shuffleArray_unbiased {α : Type} [DecidableEq α] (l : List α) (hl : l.Nodup) :
    (∀ draw : Draws,
      shuffleArray draw l = shuffleArray (DrawSeq.ofDraws l.length draw).toDraws l) ∧
    (∀ d : DrawSeq l.length, (shuffleArray d.toDraws l).Perm l) ∧
    (∀ p : List α, p.Perm l → ∃! d : DrawSeq l.length, shuffleArray d.toDraws l = p) ∧
    Fintype.card (DrawSeq l.length) = l.length.factorial ∧
    (∀ (k : Nat) (x y : α), x ∈ l → y ∈ l →
      (Finset.univ.filter
        (fun d : DrawSeq l.length => x ∈ (shuffleArray d.toDraws l).take k)).card =
      (Finset.univ.filter
        (fun d : DrawSeq l.length => y ∈ (shuffleArray d.toDraws l).take k)).card) := by
  refine ⟨fun draw => (shuffleArray_ofDraws draw l).symm,
    fun d => shuffleArray_perm d.toDraws l, ?_, card_drawSeq l.length, ?_⟩
  · intro p hp
    obtain ⟨d, hd⟩ := shuffleArray_surjective l p hp
    exact ⟨d, hd, fun d' hd' => shuffleArray_injective l hl d' d (hd'.trans hd.symm)⟩
  · intro k x y hx hy
    exact Nat.le_antisymm (card_firstK_le l hl k x y hx hy) (card_firstK_le l hl k y x hy hx)

/-- Witness for C5 at the three-element list `[10, 20, 30]`. -/
theorem shuffleArray_unbiased_witness :
    (∀ draw : Draws, shuffleArray draw [10, 20, 30] =
      shuffleArray (DrawSeq.ofDraws [10, 20, 30].length draw).toDraws [10, 20, 30]) ∧
    (∀ d : DrawSeq [10, 20, 30].length, (shuffleArray d.toDraws [10, 20, 30]).Perm [10, 20, 30]) ∧
    (∀ p : List Nat, p.Perm [10, 20, 30] →
      ∃! d : DrawSeq [10, 20, 30].length, shuffleArray d.toDraws [10, 20, 30] = p) ∧
    Fintype.card (DrawSeq [10, 20, 30].length) = [10, 20, 30].length.factorial ∧
    (∀ (k : Nat) (x y : Nat), x ∈ [10, 20, 30] → y ∈ [10, 20, 30] →
      (Finset.univ.filter
        (fun d : DrawSeq [10, 20, 30].length =>
          x ∈ (shuffleArray d.toDraws [10, 20, 30]).take k)).card =
      (Finset.univ.filter
        (fun d : DrawSeq [10, 20, 30].length =>
          y ∈ (shuffleArray d.toDraws [10, 20, 30]).take k)).card) :=
  shuffleArray_unbiased [10, 20, 30] (by decide)

/-! ## Lemmas: own properties -/

theorem lookup_mem {β : Type} (k : String) (v : β) (l : List (String × β))
    (h : l.lookup k = some v) : (k, v) ∈ l := by
  induction l with
  | nil => simp [List.lookup] at h
  | cons e es ih =>
    obtain ⟨a, b⟩ := e
    rw [List.lookup_cons] at h
    by_cases hk : k = a
    · subst hk
      simp only [beq_self_eq_true] at h
      rw [Option.some.inj h]
      exact List.mem_cons_self _ _
    · have : (k == a) = false := by simpa using hk
      rw [this] at h
      exact List.mem_cons_of_mem _ (ih h)

theorem mem_setFirst {β : Type} (k : String) (v : β) (l : List (String × β))
    (e : String × β) (h : e ∈ setFirst k v l) : e = (k, v) ∨ e ∈ l := by
  induction l with
  | nil => left; simpa [setFirst] using h
  | cons a es ih =>
    unfold setFirst at h
    split_ifs at h with ha
    · rcases List.mem_cons.mp h with h1 | h1
      · exact Or.inl h1
      · exact Or.inr (List.mem_cons_of_mem _ h1)
    · rcases List.mem_cons.mp h with h1 | h1
      · exact Or.inr (h1 ▸ List.mem_cons_self _ _)
      · rcases ih h1 with h2 | h2
        · exact Or.inl h2
        · exact Or.inr (List.mem_cons_of_mem _ h2)

theorem setFirst_of_lookup_none {β : Type} (k : String) (v : β) (l : List (String × β))
    (h : l.lookup k = none) : setFirst k v l = l ++ [(k, v)] := by
  induction l with
  | nil => rfl
  | cons e es ih =>
    obtain ⟨a, b⟩ := e
    rw [List.lookup_cons] at h
    by_cases hk : k = a
    · subst hk; simp at h
    · have hb : (k == a) = false := by simpa using hk
      rw [hb] at h
      have hne : ¬ a = k := fun h' => hk h'.symm
      simp only [setFirst, hne, if_false, List.cons_append, ih h]

theorem setFirst_of_lookup_self {β : Type} (k : String) (v : β) (l : List (String × β))
    (h : l.lookup k = some v) : setFirst k v l = l := by
  induction l with
  | nil => simp [List.lookup] at h
  | cons e es ih =>
    obtain ⟨a, b⟩ := e
    rw [List.lookup_cons] at h
    by_cases hk : k = a
    · subst hk
      simp only [beq_self_eq_true] at h
      simp [setFirst, Option.some.inj h]
    · have hb : (k == a) = false := by simpa using hk
      rw [hb] at h
      have hne : ¬ a = k := fun h' => hk h'.symm
      simp only [setFirst, hne, if_false, ih h]

theorem countsInv_setFirst_num (k : String) (n m : Nat) (l : List (String × JsNum))
    (h : l.lookup k = some (JsNum.num n)) (hinv : CountsInv l) :
    CountsInv (setFirst k (JsNum.num m) l) := by
  induction l with
  | nil => simp [List.lookup] at h
  | cons e es ih =>
    obtain ⟨a, b⟩ := e
    obtain ⟨hp, hidx⟩ := hinv
    unfold NanLast at hp
    rw [List.pairwise_cons] at hp
    have hinv' : CountsInv es := ⟨hp.2, fun e he => hidx e (List.mem_cons_of_mem _ he)⟩
    rw [List.lookup_cons] at h
    by_cases hk : k = a
    · subst hk
      simp only [setFirst, if_true]
      refine ⟨?_, ?_⟩
      · unfold NanLast
        rw [List.pairwise_cons]
        exact ⟨fun b _ hb => by simp at hb, hp.2⟩
      · intro e he hnan
        rcases List.mem_cons.mp he with h1 | h1
        · subst h1; simp at hnan
        · exact hidx e (List.mem_cons_of_mem _ h1) hnan
    · have hb : (k == a) = false := by simpa using hk
      rw [hb] at h
      have hne : ¬ a = k := fun h' => hk h'.symm
      simp only [setFirst, hne, if_false]
      have hrec := ih h hinv'
      have hbnum : b ≠ JsNum.nan := by
        intro hb'
        have := hp.1 _ (lookup_mem k _ es h) hb'
        simp at this
      refine ⟨?_, ?_⟩
      · unfold NanLast
        rw [List.pairwise_cons]
        exact ⟨fun c _ hc => absurd hc hbnum, hrec.1⟩
      · intro e he hnan
        rcases List.mem_cons.mp he with h1 | h1
        · subst h1; exact absurd hnan hbnum
        · exact hrec.2 e h1 hnan

theorem countsInv_append_nan (k : String) (l : List (String × JsNum))
    (hk : arrayIndex? k = none) (hinv : CountsInv l) :
    CountsInv (l ++ [(k, JsNum.nan)]) := by
  obtain ⟨hp, hidx⟩ := hinv
  refine ⟨?_, ?_⟩
  · unfold NanLast at hp ⊢
    rw [List.pairwise_append]
    refine ⟨hp, List.pairwise_singleton _ _, ?_⟩
    intro a _ b hb _
    rw [List.mem_singleton.mp hb]
  · intro e he hnan
    rcases List.mem_append.mp he with h1 | h1
    · exact hidx e h1 hnan
    · rw [List.mem_singleton.mp h1]; exact hk

theorem prototypeKeys_not_index : ∀ k ∈ objectPrototypeKeys, arrayIndex? k = none := by
  decide

theorem countsInv_countVote (o : JsObj JsNum) (v : String) (hinv : CountsInv o.own) :
    CountsInv (countVote o v).own := by
  unfold countVote
  cases hl : o.own.lookup v with
  | none =>
    simp only []
    split_ifs with hv
    · unfold JsObj.set
      split_ifs
      · exact hinv
      · simp only []
        rw [setFirst_of_lookup_none v _ _ hl]
        exact countsInv_append_nan v _ (prototypeKeys_not_index v hv) hinv
    · exact hinv
  | some c =>
    cases c with
    | num n =>
      simp only []
      unfold JsObj.set
      split_ifs
      · exact hinv
      · exact countsInv_setFirst_num v n (n + 1) _ hl hinv
    | nan =>
      simp only []
      unfold JsObj.set
      split_ifs
      · exact hinv
      · simp only []
        rw [setFirst_of_lookup_self v _ _ hl]
        exact hinv

theorem zeros_foldl_set (active : List Player) (o : JsObj JsNum)
    (h : ∀ e ∈ o.own, e.2 = JsNum.num 0) :
    ∀ e ∈ (active.foldl (fun o p => o.set p.name (JsNum.num 0)) o).own, e.2 = JsNum.num 0 := by
  induction active generalizing o with
  | nil => exact h
  | cons p ps ih =>
    rw [List.foldl_cons]
    apply ih
    unfold JsObj.set
    split_ifs
    · exact h
    · intro e he
      rcases mem_setFirst _ _ _ e he with h1 | h1
      · rw [h1]
      · exact h e h1

theorem countsInv_foldl_countVote (vs : List String) (o : JsObj JsNum)
    (hinv : CountsInv o.own) : CountsInv (vs.foldl countVote o).own := by
  induction vs generalizing o with
  | nil => exact hinv
  | cons v vs ih => exact ih _ (countsInv_countVote o v hinv)

theorem countsInv_voteCountsOf (active : List Player) (votes : JsObj String) :
    CountsInv (voteCountsOf active votes).own := by
  unfold voteCountsOf
  apply countsInv_foldl_countVote
  have hz := zeros_foldl_set active JsObj.empty (by intro e he; simp [JsObj.empty] at he)
  refine ⟨?_, ?_⟩
  · unfold NanLast
    rw [List.pairwise_iff_forall_sublist]
    intro a b hab ha
    have := hz a (hab.subset (by simp))
    rw [this] at ha; simp at ha
  · intro e he hnan
    rw [hz e he] at hnan; simp at hnan

/-! ## Lemmas: enumeration order and sorting -/

theorem entries_perm {β : Type} (o : JsObj β) : o.entries.Perm o.own := by
  unfold JsObj.entries
  have h1 : (((o.own.filterMap (fun e => (arrayIndex? e.1).map (fun i => (i, e)))).insertionSort
      (fun a b => a.1 ≤ b.1)).map (fun ie => ie.2)).Perm
      (o.own.filter (fun e => (arrayIndex? e.1).isSome)) := by
    refine ((List.perm_insertionSort _ _).map _).trans ?_
    rw [List.map_filterMap]
    have : (fun e : String × β => Option.map (fun ie : Nat × (String × β) => ie.2)
        ((arrayIndex? e.1).map (fun i => (i, e)))) =
        Option.guard (fun e => (arrayIndex? e.1).isSome = true) := by
      funext e
      cases h : arrayIndex? e.1 <;> simp [Option.guard, h]
    rw [this, List.filterMap_eq_filter]
  refine (List.Perm.append_right _ h1).trans ?_
  have h2 : (fun e : String × β => (arrayIndex? e.1).isNone) =
      (fun e => !(arrayIndex? e.1).isSome) := by
    funext e
    cases arrayIndex? e.1 <;> simp
  rw [h2]
  exact List.filter_append_perm _ _

theorem mem_entries {β : Type} (o : JsObj β) (e : String × β) : e ∈ o.entries ↔ e ∈ o.own :=
  (entries_perm o).mem_iff

theorem entries_nanLast (o : JsObj JsNum) (hinv : CountsInv o.own) : NanLast o.entries := by
  obtain ⟨hp, hidx⟩ := hinv
  unfold NanLast JsObj.entries
  rw [List.pairwise_append]
  have hfirst : ∀ a ∈ ((o.own.filterMap (fun e => (arrayIndex? e.1).map (fun i => (i, e)))).insertionSort
      (fun a b => a.1 ≤ b.1)).map (fun ie => ie.2), a.2 ≠ JsNum.nan := by
    intro a ha hnan
    obtain ⟨ie, hie, rfl⟩ := List.mem_map.mp ha
    rw [List.mem_insertionSort] at hie
    obtain ⟨e, he, hie'⟩ := List.mem_filterMap.mp hie
    cases hi : arrayIndex? e.1 with
    | none => rw [hi] at hie'; simp at hie'
    | some i =>
      rw [hi] at hie'
      simp only [Option.map_some', Option.some.injEq] at hie'
      subst hie'
      have := hidx e he hnan
      rw [hi] at this; simp at this
  refine ⟨?_, ?_, ?_⟩
  · exact List.pairwise_of_forall_mem_list (fun a ha b _ hnan => absurd hnan (hfirst a ha))
  · exact List.Pairwise.filter _ hp
  · intro a ha b _ hnan
    exact absurd hnan (hfirst a ha)

theorem orderedInsert_congr {β : Type} (r s : β → β → Prop) [DecidableRel r] [DecidableRel s]
    (a : β) (l : List β) (h : ∀ b ∈ l, r a b ↔ s a b) :
    l.orderedInsert r a = l.orderedInsert s a := by
  induction l with
  | nil => rfl
  | cons b bs ih =>
    simp only [List.orderedInsert]
    have hb := h b (List.mem_cons_self _ _)
    by_cases hr : r a b
    · rw [if_pos hr, if_pos (hb.mp hr)]
    · rw [if_neg hr, if_neg (fun hs => hr (hb.mpr hs)),
        ih (fun c hc => h c (List.mem_cons_of_mem _ hc))]

theorem sortByCount_eq_rank (l : List (String × JsNum)) (h : NanLast l) :
    sortByCount l = l.insertionSort rankOrder := by
  unfold sortByCount
  induction l with
  | nil => rfl
  | cons a l ih =>
    unfold NanLast at h
    rw [List.pairwise_cons] at h
    simp only [List.insertionSort]
    rw [ih h.2]
    apply orderedInsert_congr
    intro b hb
    rw [List.mem_insertionSort] at hb
    have hab := h.1 b hb
    unfold countOrder rankOrder
    cases ha : a.2 with
    | num x => cases hb2 : b.2 <;> simp
    | nan => rw [hab ha]

theorem rankedResults_sorted (room : Room) : (rankedResults room).Sorted rankOrder := by
  unfold rankedResults
  rw [sortByCount_eq_rank _ (entries_nanLast _ (countsInv_voteCountsOf _ _))]
  exact List.sorted_insertionSort rankOrder _

theorem rankedResults_top (room : Room) (name : String) (m : Nat)
    (hmem : (name, JsNum.num m) ∈ rankedResults room)
    (hmax : ∀ name' c, (name', JsNum.num c) ∈ rankedResults room → c ≤ m) :
    ∃ top rest, rankedResults room = top :: rest ∧ top.2 = JsNum.num m := by
  have hs := rankedResults_sorted room
  cases hr : rankedResults room with
  | nil => rw [hr] at hmem; simp at hmem
  | cons top rest =>
    refine ⟨top, rest, rfl, ?_⟩
    rw [hr] at hmem hs
    rcases List.mem_cons.mp hmem with h1 | h1
    · rw [← h1]
    · have hrel := List.rel_of_sorted_cons hs _ h1
      unfold rankOrder at hrel
      obtain ⟨tn, tc⟩ := top
      cases tc with
      | nan => simp at hrel
      | num x =>
        simp only at hrel
        have hx := hmax tn x (by rw [hr]; exact List.mem_cons_self _ _)
        have : x = m := Nat.le_antisymm hx hrel
        rw [this]

theorem numKeysIn_foldl_set (names : List String) (ps : List Player) (o : JsObj JsNum)
    (hps : ∀ p ∈ ps, p.name ∈ names) (h : NumKeysIn names o.own) :
    NumKeysIn names (ps.foldl (fun o p => o.set p.name (JsNum.num 0)) o).own := by
  induction ps generalizing o with
  | nil => exact h
  | cons p ps ih =>
    rw [List.foldl_cons]
    apply ih _ (fun q hq => hps q (List.mem_cons_of_mem _ hq))
    unfold JsObj.set
    split_ifs
    · exact h
    · intro e he hnum
      rcases mem_setFirst _ _ _ e he with h1 | h1
      · rw [h1]; exact hps p (List.mem_cons_self _ _)
      · exact h e h1 hnum

theorem numKeysIn_countVote (names : List String) (o : JsObj JsNum) (v : String)
    (h : NumKeysIn names o.own) : NumKeysIn names (countVote o v).own := by
  unfold countVote
  cases hl : o.own.lookup v with
  | none =>
    simp only []
    split_ifs with hv
    · unfold JsObj.set
      split_ifs
      · exact h
      · intro e he hnum
        rcases mem_setFirst _ _ _ e he with h1 | h1
        · rw [h1] at hnum; simp at hnum
        · exact h e h1 hnum
    · exact h
  | some c =>
    cases c with
    | num n =>
      simp only []
      unfold JsObj.set
      split_ifs
      · exact h
      · intro e he hnum
        rcases mem_setFirst _ _ _ e he with h1 | h1
        · rw [h1]
          exact h (v, JsNum.num n) (lookup_mem v _ _ hl) (by simp)
        · exact h e h1 hnum
    | nan =>
      simp only []
      unfold JsObj.set
      split_ifs
      · exact h
      · simp only []
        rw [setFirst_of_lookup_self v _ _ hl]
        exact h

theorem numKeysIn_foldl_countVote (names : List String) (vs : List String) (o : JsObj JsNum)
    (h : NumKeysIn names o.own) : NumKeysIn names (vs.foldl countVote o).own := by
  induction vs generalizing o with
  | nil => exact h
  | cons v vs ih => exact ih _ (numKeysIn_countVote names o v h)

theorem mem_rankedResults (room : Room) (e : String × JsNum) :
    e ∈ rankedResults room ↔
      e ∈ (voteCountsOf (getActivePlayersInRoom room) room.state.votes).own := by
  unfold rankedResults sortByCount
  rw [List.mem_insertionSort, mem_entries]

theorem rankedResults_active (room : Room) (name : String) (c : Nat)
    (h : (name, JsNum.num c) ∈ rankedResults room) :
    ∃ p ∈ getActivePlayersInRoom room, p.name = name := by
  rw [mem_rankedResults] at h
  have hk : NumKeysIn ((getActivePlayersInRoom room).map (fun p => p.name))
      (voteCountsOf (getActivePlayersInRoom room) room.state.votes).own := by
    unfold voteCountsOf
    apply numKeysIn_foldl_countVote
    apply numKeysIn_foldl_set
    · intro p hp; exact List.mem_map.mpr ⟨p, hp, rfl⟩
    · intro e he; simp [JsObj.empty] at he
  have := hk _ h (by simp)
  obtain ⟨p, hp, hpn⟩ := List.mem_map.mp this
  exact ⟨p, hp, hpn⟩

theorem rankedResults_top_active (room : Room) (name : String) (m : Nat)
    (hmem : (name, JsNum.num m) ∈ rankedResults room)
    (hmax : ∀ r ∈ getActivePlayersInRoom room, ∀ c,
      (r.name, JsNum.num c) ∈ rankedResults room → c ≤ m) :
    ∃ top rest, rankedResults room = top :: rest ∧ top.2 = JsNum.num m := by
  apply rankedResults_top room name m hmem
  intro name' c hc
  obtain ⟨r, hr, hrn⟩ := rankedResults_active room name' c hc
  exact hmax r hr c (by rw [hrn]; exact hc)

theorem two_le_length_of_mem {β : Type} (l : List β) (a b : β) (ha : a ∈ l) (hb : b ∈ l)
    (hab : a ≠ b) : 2 ≤ l.length := by
  match l, ha, hb with
  | [x], ha, hb =>
    rw [List.mem_singleton] at ha hb
    exact absurd (ha.trans hb.symm) hab
  | _ :: _ :: _, _, _ => simp


/-! ## Lemmas: keys of the count object -/

theorem setFirst_keys {β : Type} (k : String) (v : β) (l : List (String × β)) :
    (setFirst k v l).map (fun e => e.1) =
      if k ∈ l.map (fun e => e.1) then l.map (fun e => e.1) else l.map (fun e => e.1) ++ [k] := by
  induction l with
  | nil => simp [setFirst]
  | cons e es ih =>
    by_cases he : e.1 = k
    · simp [setFirst, he]
    · have hne : ¬ k = e.1 := fun h => he h.symm
      simp only [setFirst, he, if_false, List.map_cons, ih, List.mem_cons, hne, false_or]
      split_ifs <;> simp

theorem set_keys {β : Type} (o : JsObj β) (k : String) (v : β) :
    (o.set k v).own.map (fun e => e.1) =
      o.own.map (fun e => e.1) ++
        (if k = "__proto__" ∨ k ∈ o.own.map (fun e => e.1) then [] else [k]) := by
  unfold JsObj.set
  by_cases hk : k = "__proto__"
  · simp [hk]
  · simp only [hk, if_false, false_or, setFirst_keys]
    split_ifs <;> simp

theorem set_keys_nodup {β : Type} (o : JsObj β) (k : String) (v : β)
    (h : (o.own.map (fun e => e.1)).Nodup) : ((o.set k v).own.map (fun e => e.1)).Nodup := by
  rw [set_keys]
  split_ifs with hk
  · simpa using h
  · rw [List.nodup_append]
    refine ⟨h, List.nodup_singleton _, ?_⟩
    intro a ha hb
    rw [List.mem_singleton] at hb
    subst hb
    exact hk (Or.inr ha)

theorem countVote_cases (o : JsObj JsNum) (v : String) :
    countVote o v = o ∨ ∃ c, countVote o v = o.set v c := by
  unfold countVote
  cases o.own.lookup v with
  | none =>
    simp only []
    split_ifs
    · exact Or.inr ⟨_, rfl⟩
    · exact Or.inl rfl
  | some c =>
    cases c with
    | num n => exact Or.inr ⟨_, rfl⟩
    | nan => exact Or.inr ⟨_, rfl⟩

theorem keys_nodup_voteCountsOf (active : List Player) (votes : JsObj String) :
    ((voteCountsOf active votes).own.map (fun e => e.1)).Nodup := by
  unfold voteCountsOf
  have h1 : ∀ (ps : List Player) (o : JsObj JsNum), (o.own.map (fun e => e.1)).Nodup →
      ((ps.foldl (fun o p => o.set p.name (JsNum.num 0)) o).own.map (fun e => e.1)).Nodup := by
    intro ps
    induction ps with
    | nil => intro o h; exact h
    | cons p ps ih => intro o h; exact ih _ (set_keys_nodup o _ _ h)
  have h2 : ∀ (vs : List String) (o : JsObj JsNum), (o.own.map (fun e => e.1)).Nodup →
      ((vs.foldl countVote o).own.map (fun e => e.1)).Nodup := by
    intro vs
    induction vs with
    | nil => intro o h; exact h
    | cons v vs ih =>
      intro o h
      apply ih
      rcases countVote_cases o v with hc | ⟨c, hc⟩
      · rw [hc]; exact h
      · rw [hc]; exact set_keys_nodup o _ _ h
  exact h2 _ _ (h1 _ _ (by simp [JsObj.empty]))

theorem rankedResults_keys_nodup (room : Room) :
    ((rankedResults room).map (fun e => e.1)).Nodup := by
  have hperm : (rankedResults room).Perm
      (voteCountsOf (getActivePlayersInRoom room) room.state.votes).own := by
    unfold rankedResults sortByCount
    exact (List.perm_insertionSort _ _).trans (entries_perm _)
  exact (hperm.map _).nodup_iff.mpr (keys_nodup_voteCountsOf _ _)

theorem rankedResults_count_unique (room : Room) (name : String) (c c' : JsNum)
    (h : (name, c) ∈ rankedResults room) (h' : (name, c') ∈ rankedResults room) : c = c' := by
  have := List.inj_on_of_nodup_map (rankedResults_keys_nodup room) h h' rfl
  exact congrArg Prod.snd this

theorem markEliminated_eq (players : List Player) (p : Player) (hp : p ∈ players)
    (hnames : (players.map (fun q => q.name)).Nodup) :
    markEliminated players p.name =
      players.map (fun q => if q = p then { q with eliminated := true } else q) := by
  induction players with
  | nil => simp at hp
  | cons a as ih =>
    rw [List.map_cons, List.nodup_cons] at hnames
    simp only [markEliminated, List.map_cons]
    by_cases ha : a = p
    · subst ha
      simp only [if_true]
      congr 1
      symm
      refine (List.map_congr_left (fun q hq => ?_)).trans (List.map_id _)
      have : q ≠ a := by
        intro h; subst h
        exact hnames.1 (List.mem_map.mpr ⟨q, hq, rfl⟩)
      simp [this]
    · have hp' : p ∈ as := by
        rcases List.mem_cons.mp hp with h | h
        · exact absurd h.symm ha
        · exact h
      have hname : a.name ≠ p.name := by
        intro h
        exact hnames.1 (List.mem_map.mpr ⟨p, hp', h.symm⟩)
      simp only [hname, if_false, ha, ih hp' hnames.2]

theorem eliminatePlayer_room (room : Room) (p : Player) (hp : p ∈ room.players) :
    (eliminatePlayer room p.name).room =
      { room with players := markEliminated room.players p.name } := by
  unfold eliminatePlayer
  cases hf : room.players.find? (fun q => q.name == p.name) with
  | none =>
    rw [List.find?_eq_none] at hf
    exact absurd (hf p hp) (by simp)
  | some player =>
    simp only []
    cases checkWinCondition { room with players := markEliminated room.players p.name } <;> rfl

theorem length_le_one_of_all_eq {β : Type} (l : List β) (x : β) (hnd : l.Nodup)
    (h : ∀ e ∈ l, e = x) : l.length ≤ 1 := by
  match l, hnd, h with
  | [], _, _ => simp
  | [_], _, _ => simp
  | a :: b :: _, hnd, h =>
    have ha := h a (by simp)
    have hb := h b (by simp)
    rw [List.nodup_cons] at hnd
    exact absurd (by simp [ha, hb]) hnd.1


theorem foldl_set_keys (ps : List Player) (o : JsObj JsNum)
    (hnew : ∀ p ∈ ps, p.name ∉ o.own.map (fun e => e.1))
    (hnd : (ps.map (fun p => p.name)).Nodup) :
    (ps.foldl (fun o p => o.set p.name (JsNum.num 0)) o).own.map (fun e => e.1) =
      o.own.map (fun e => e.1) ++
        (ps.map (fun p => p.name)).filter (fun k => decide (k ≠ "__proto__")) := by
  induction ps generalizing o with
  | nil => simp
  | cons p ps ih =>
    rw [List.map_cons, List.nodup_cons] at hnd
    rw [List.foldl_cons]
    have hp := hnew p (List.mem_cons_self _ _)
    have hkeys := set_keys o p.name (JsNum.num 0)
    rw [ih _ ?_ hnd.2, hkeys]
    · by_cases hk : p.name = "__proto__"
      · simp [hk]
      · simp [hk, hp]
    · intro q hq
      rw [hkeys]
      have hq1 := hnew q (List.mem_cons_of_mem _ hq)
      have hq2 : q.name ≠ p.name := by
        intro h
        exact hnd.1 (List.mem_map.mpr ⟨q, hq, h⟩)
      rw [List.mem_append]
      rintro (h | h)
      · exact hq1 h
      · split_ifs at h
        · simp at h
        · exact hq2 (List.mem_singleton.mp h)

theorem foldl_countVote_keys (vs : List String) (o : JsObj JsNum) :
    ∃ X, (vs.foldl countVote o).own.map (fun e => e.1) = o.own.map (fun e => e.1) ++ X := by
  induction vs generalizing o with
  | nil => exact ⟨[], by simp⟩
  | cons v vs ih =>
    obtain ⟨X, hX⟩ := ih (countVote o v)
    rw [List.foldl_cons, hX]
    rcases countVote_cases o v with hc | ⟨c, hc⟩
    · rw [hc]; exact ⟨X, rfl⟩
    · rw [hc, set_keys, List.append_assoc]; exact ⟨_, rfl⟩

theorem voteCountsOf_keys (active : List Player) (votes : JsObj String)
    (hnd : (active.map (fun p => p.name)).Nodup) :
    ∃ X, (voteCountsOf active votes).own.map (fun e => e.1) =
      (active.map (fun p => p.name)).filter (fun k => decide (k ≠ "__proto__")) ++ X := by
  unfold voteCountsOf
  obtain ⟨X, hX⟩ := foldl_countVote_keys votes.values
    (active.foldl (fun o p => o.set p.name (JsNum.num 0)) JsObj.empty)
  rw [hX, foldl_set_keys active JsObj.empty (by simp [JsObj.empty]) hnd]
  exact ⟨X, by simp [JsObj.empty]⟩

theorem proto_not_key (active : List Player) (votes : JsObj String) :
    "__proto__" ∉ (voteCountsOf active votes).own.map (fun e => e.1) := by
  unfold voteCountsOf
  have hset : ∀ (o : JsObj JsNum) (k : String) (c : JsNum),
      "__proto__" ∉ o.own.map (fun e => e.1) →
      "__proto__" ∉ (o.set k c).own.map (fun e => e.1) := by
    intro o k c h
    rw [set_keys, List.mem_append]
    rintro (h1 | h1)
    · exact h h1
    · split_ifs at h1 with hk
      · simp at h1
      · exact hk (Or.inl (List.mem_singleton.mp h1).symm)
  have h1 : ∀ (ps : List Player) (o : JsObj JsNum), "__proto__" ∉ o.own.map (fun e => e.1) →
      "__proto__" ∉ (ps.foldl (fun o p => o.set p.name (JsNum.num 0)) o).own.map
        (fun e => e.1) := by
    intro ps
    induction ps with
    | nil => intro o h; exact h
    | cons p ps ih => intro o h; exact ih _ (hset o _ _ h)
  have h2 : ∀ (vs : List String) (o : JsObj JsNum), "__proto__" ∉ o.own.map (fun e => e.1) →
      "__proto__" ∉ (vs.foldl countVote o).own.map (fun e => e.1) := by
    intro vs
    induction vs with
    | nil => intro o h; exact h
    | cons v vs ih =>
      intro o h
      apply ih
      rcases countVote_cases o v with hc | ⟨c, hc⟩
      · rw [hc]; exact h
      · rw [hc]; exact hset o _ _ h
  exact h2 _ _ (h1 _ _ (by simp [JsObj.empty]))


/-! ## Theorems: the vote tally -/

/-- C6 (the code at the failing input): Amy votes for the name `constructor`, which no
player bears, and Bob votes for Amy. The room has two active players, but the ranking
has three entries: the vote for `constructor` was not dropped, it created an entry of
that name whose count is `NaN`. -/
theorem rankedResults_phantom_entry :
    (getActivePlayersInRoom roomPhantomVote).map (fun p => p.name) = ["Amy", "Bob"] ∧
    (∀ p ∈ roomPhantomVote.players, p.name ≠ "constructor") ∧
    roomPhantomVote.state.votes.values = ["constructor", "Amy"] ∧
    rankedResults roomPhantomVote =
      [("Amy", JsNum.num 1), ("Bob", JsNum.num 0), ("constructor", JsNum.nan)] := by
  decide

/-- C7: tie detection. Whenever two or more active players share the maximum count and
that maximum `m` is positive, `tallyVotes` sets `tiedPlayers` to exactly the names whose
count equals `m`, the phase becomes elimination, and the player list is returned as it
was, so no `eliminated` flag changes; no timer is set and the broadcast announces the
tie. The count of a player is the count the tally computed for the name, that is the
entry of the ranking. -/
theorem tallyVotes_tie (room : Room) (p q : Player) (m : Nat)
    (hp : p ∈ getActivePlayersInRoom room) (hq : q ∈ getActivePlayersInRoom room)
    (hpq : p.name ≠ q.name)
    (hpm : (p.name, JsNum.num m) ∈ rankedResults room)
    (hqm : (q.name, JsNum.num m) ∈ rankedResults room)
    (hmax : ∀ r ∈ getActivePlayersInRoom room, ∀ c,
      (r.name, JsNum.num c) ∈ rankedResults room → c ≤ m)
    (hpos : 0 < m) :
    ∃ eff, tallyVotes room = some eff ∧
      (∀ name, name ∈ eff.room.state.tiedPlayers ↔
        (name, JsNum.num m) ∈ rankedResults room) ∧
      eff.room.state.phase = Phase.elimination ∧
      eff.room.players = room.players ∧
      eff.timers = [] ∧
      eff.emits = [⟨Target.room room.code, Event.voteResults (rankedResults room) none none
        true (some eff.room.state.tiedPlayers) none⟩] := by
  have _ := hp
  have _ := hq
  obtain ⟨top, rest, hr, htop⟩ := rankedResults_top_active room p.name m hpm hmax
  have hlen : 1 < ((rankedResults room).filter
      (fun e => jsStrictEq e.2 (JsNum.num m))).length := by
    apply two_le_length_of_mem _ (p.name, JsNum.num m) (q.name, JsNum.num m)
    · exact List.mem_filter.mpr ⟨hpm, by simp [jsStrictEq]⟩
    · exact List.mem_filter.mpr ⟨hqm, by simp [jsStrictEq]⟩
    · intro h; exact hpq (congrArg Prod.fst h)
  have hne : jsStrictEq (JsNum.num m) (JsNum.num 0) = false := by
    simp [jsStrictEq]; omega
  unfold tallyVotes
  simp only []
  rw [hr] at hlen ⊢
  simp only [htop, hne, Bool.false_eq_true, if_false, gt_iff_lt, hlen, if_true]
  refine ⟨_, rfl, ?_, rfl, rfl, rfl, rfl⟩
  intro name
  simp only [withTiedPlayers, List.mem_map, List.mem_filter]
  constructor
  · rintro ⟨e, ⟨he, hc⟩, rfl⟩
    obtain ⟨en, ec⟩ := e
    cases ec with
    | nan => simp [jsStrictEq] at hc
    | num x =>
      have : x = m := by simpa [jsStrictEq] using hc
      rw [this] at he
      exact he
  · intro h
    exact ⟨(name, JsNum.num m), ⟨h, by simp [jsStrictEq]⟩, rfl⟩


/-- Witness for C7: A and B have two votes each, C has one. -/
theorem tallyVotes_tie_witness :
    ∃ eff, tallyVotes roomTie = some eff ∧
      (∀ name, name ∈ eff.room.state.tiedPlayers ↔
        (name, JsNum.num 2) ∈ rankedResults roomTie) ∧
      eff.room.state.phase = Phase.elimination ∧
      eff.room.players = roomTie.players ∧
      eff.timers = [] ∧
      eff.emits = [⟨Target.room roomTie.code, Event.voteResults (rankedResults roomTie) none
        none true (some eff.room.state.tiedPlayers) none⟩] :=
  tallyVotes_tie roomTie ⟨"s1", "A", false, false⟩ ⟨"s2", "B", true, false⟩ 2
    (by decide) (by decide) (by decide) (by decide) (by decide)
    (by
      intro r _ c hc
      have hR : rankedResults roomTie = [("A", JsNum.num 2), ("B", JsNum.num 2),
          ("C", JsNum.num 1), ("D", JsNum.num 0), ("E", JsNum.num 0)] := by decide
      simp only [hR, List.mem_cons, Prod.mk.injEq, JsNum.num.injEq, List.mem_nil_iff,
        or_false] at hc
      rcases hc with ⟨_, h⟩ | ⟨_, h⟩ | ⟨_, h⟩ | ⟨_, h⟩ | ⟨_, h⟩ <;> omega)
    (by decide)

/-- C8: clean elimination. In a room whose player names are pairwise distinct, whenever
exactly one active player `p` holds the maximum count and that maximum `m` is positive
(every other active player has a smaller count), `tallyVotes` returns the player list
with `p.eliminated` set to `true` and every other field of every player, the length and
the order of the list unchanged. The count of a player is the count the tally computed
for the name, that is the entry of the ranking. -/
theorem tallyVotes_clean_elimination (room : Room) (p : Player) (m : Nat)
    (hnames : (room.players.map (fun q => q.name)).Nodup)
    (hp : p ∈ getActivePlayersInRoom room)
    (hpm : (p.name, JsNum.num m) ∈ rankedResults room)
    (hpos : 0 < m)
    (huniq : ∀ r ∈ getActivePlayersInRoom room, r.name ≠ p.name → ∀ c,
      (r.name, JsNum.num c) ∈ rankedResults room → c < m) :
    ∃ eff, tallyVotes room = some eff ∧
      eff.room.players =
        room.players.map (fun q => if q = p then { q with eliminated := true } else q) ∧
      eff.room.players.length = room.players.length ∧
      eff.room.state.phase = Phase.elimination := by
  have hpl : p ∈ room.players := (List.mem_filter.mp hp).1
  have hname_of : ∀ name c, (name, JsNum.num c) ∈ rankedResults room → m ≤ c →
      name = p.name := by
    intro name c hc hmc
    by_contra hne
    obtain ⟨r, hr, hrn⟩ := rankedResults_active room name c hc
    have := huniq r hr (by rw [hrn]; exact hne) c (by rw [hrn]; exact hc)
    omega
  have hmax : ∀ r ∈ getActivePlayersInRoom room, ∀ c,
      (r.name, JsNum.num c) ∈ rankedResults room → c ≤ m := by
    intro r hr c hc
    by_cases hrp : r.name = p.name
    · rw [hrp] at hc
      have := rankedResults_count_unique room _ _ _ hc hpm
      simp only [JsNum.num.injEq] at this
      omega
    · exact Nat.le_of_lt (huniq r hr hrp c hc)
  obtain ⟨top, rest, hr, htop⟩ := rankedResults_top_active room p.name m hpm hmax
  have htopname : top.1 = p.name := by
    apply hname_of top.1 m _ (le_refl _)
    rw [← htop, hr]
    exact List.mem_cons_self _ _
  have hlen : ¬ 1 < ((rankedResults room).filter
      (fun e => jsStrictEq e.2 (JsNum.num m))).length := by
    have hnd : ((rankedResults room).filter
        (fun e => jsStrictEq e.2 (JsNum.num m))).Nodup :=
      ((rankedResults_keys_nodup room).of_map _).filter _
    have := length_le_one_of_all_eq _ (p.name, JsNum.num m) hnd (by
      intro e he
      obtain ⟨he1, he2⟩ := List.mem_filter.mp he
      obtain ⟨en, ec⟩ := e
      cases ec with
      | nan => simp [jsStrictEq] at he2
      | num x =>
        have hx : x = m := by simpa [jsStrictEq] using he2
        subst hx
        rw [hname_of en x he1 (le_refl _)])
    omega
  have hne : jsStrictEq (JsNum.num m) (JsNum.num 0) = false := by
    simp [jsStrictEq]; omega
  unfold tallyVotes
  simp only []
  rw [hr] at hlen ⊢
  simp only [htop, hne, Bool.false_eq_true, if_false, gt_iff_lt, hlen, htopname]
  have hroom := eliminatePlayer_room (withPhase room Phase.elimination) p hpl
  refine ⟨_, rfl, ?_, ?_, ?_⟩
  · rw [hroom]
    exact markEliminated_eq room.players p hpl hnames
  · rw [hroom]
    exact (congrArg List.length (markEliminated_eq room.players p hpl hnames)).trans
      (List.length_map _ _)
  · rw [hroom]
    rfl

/-- Witness for C8: Bob has three votes, Cy one, Zed and Amy none. -/
theorem tallyVotes_clean_elimination_witness :
    ∃ eff, tallyVotes roomJoinOrder = some eff ∧
      eff.room.players =
        roomJoinOrder.players.map (fun q =>
          if q = (⟨"s3", "Bob", true, false⟩ : Player) then { q with eliminated := true }
          else q) ∧
      eff.room.players.length = roomJoinOrder.players.length ∧
      eff.room.state.phase = Phase.elimination :=
  tallyVotes_clean_elimination roomJoinOrder ⟨"s3", "Bob", true, false⟩ 3
    (by decide) (by decide) (by decide) (by decide)
    (by
      intro r _ hr c hc
      have hR : rankedResults roomJoinOrder = [("Bob", JsNum.num 3), ("Cy", JsNum.num 1),
          ("Zed", JsNum.num 0), ("Amy", JsNum.num 0)] := by decide
      simp only [hR, List.mem_cons, Prod.mk.injEq, JsNum.num.injEq, List.mem_nil_iff,
        or_false] at hc
      rcases hc with ⟨h1, _⟩ | ⟨_, h⟩ | ⟨_, h⟩ | ⟨_, h⟩
      · exact absurd h1 hr
      · omega
      · omega
      · omega)

/-- C9: no-vote edge case. Whenever every count the tally computed for an active player
is `0` (the maximum count is `0`), `tallyVotes` only sets the phase to elimination: the
player list, and with it every `eliminated` flag, is unchanged, `tiedPlayers` is not
written, no timer is set, and the one message is the `vote-results` broadcast with
`eliminated = null`, `role = null` and `tie = false`. -/
theorem tallyVotes_no_votes (room : Room) (p : Player)
    (hp : p ∈ getActivePlayersInRoom room)
    (hp0 : (p.name, JsNum.num 0) ∈ rankedResults room)
    (hzero : ∀ r ∈ getActivePlayersInRoom room, ∀ c,
      (r.name, JsNum.num c) ∈ rankedResults room → c = 0) :
    ∃ eff, tallyVotes room = some eff ∧
      eff.room = withPhase room Phase.elimination ∧
      eff.room.players = room.players ∧
      eff.room.state.tiedPlayers = room.state.tiedPlayers ∧
      eff.timers = [] ∧
      eff.emits = [⟨Target.room room.code,
        Event.voteResults (rankedResults room) none none false none none⟩] := by
  have _ := hp
  obtain ⟨top, rest, hr, htop⟩ := rankedResults_top_active room p.name 0 hp0
    (fun r hr c hc => Nat.le_of_eq (hzero r hr c hc))
  unfold tallyVotes
  simp only []
  rw [hr]
  simp only [htop, jsStrictEq, beq_self_eq_true, if_true]
  exact ⟨_, rfl, rfl, rfl, rfl, rfl, rfl⟩

/-- Witness for C9: the three votes name the host, a player who left and nobody. -/
theorem tallyVotes_no_votes_witness :
    ∃ eff, tallyVotes roomNoVotes = some eff ∧
      eff.room = withPhase roomNoVotes Phase.elimination ∧
      eff.room.players = roomNoVotes.players ∧
      eff.room.state.tiedPlayers = roomNoVotes.state.tiedPlayers ∧
      eff.timers = [] ∧
      eff.emits = [⟨Target.room roomNoVotes.code,
        Event.voteResults (rankedResults roomNoVotes) none none false none none⟩] :=
  tallyVotes_no_votes roomNoVotes ⟨"s1", "Amy", false, false⟩ (by decide) (by decide)
    (by
      intro r _ c hc
      have hR : rankedResults roomNoVotes =
          [("Amy", JsNum.num 0), ("Bob", JsNum.num 0), ("Cy", JsNum.num 0)] := by decide
      simp only [hR, List.mem_cons, Prod.mk.injEq, JsNum.num.injEq, List.mem_nil_iff,
        or_false] at hc
      rcases hc with ⟨_, h⟩ | ⟨_, h⟩ | ⟨_, h⟩ <;> exact h)

/-- C10 (as stated, refuted): Zed joined before Amy and both have count `0`. Amy is the
smaller name, but the ranking lists Zed before Amy. -/
theorem rankedResults_not_by_name :
    (getActivePlayersInRoom roomJoinOrder).map (fun p => p.name) = ["Zed", "Amy", "Bob", "Cy"] ∧
    nameBefore "Amy" "Zed" ∧
    rankedResults roomJoinOrder =
      [("Bob", JsNum.num 3), ("Cy", JsNum.num 1), ("Zed", JsNum.num 0), ("Amy", JsNum.num 0)] ∧
    ¬ [("Amy", JsNum.num 0), ("Zed", JsNum.num 0)].Sublist (rankedResults roomJoinOrder) := by
  decide

/-- C10 (amended): in the ranked results of `tallyVotes`, entries with equal counts keep
the order in which the players joined. For two active players `p`, `q` with the same
count `c`, `p` before `q` in the room's player list, in a room whose active players
have pairwise distinct names, none of the two names being an array index: the entry of
`p` appears before the entry of `q`. Names are not compared. -/
theorem rankedResults_join_order (room : Room) (p q : Player) (c : Nat)
    (hnd : ((getActivePlayersInRoom room).map (fun r => r.name)).Nodup)
    (hpq : [p, q].Sublist (getActivePlayersInRoom room))
    (hpi : arrayIndex? p.name = none) (hqi : arrayIndex? q.name = none)
    (hpc : (p.name, JsNum.num c) ∈ rankedResults room)
    (hqc : (q.name, JsNum.num c) ∈ rankedResults room) :
    [(p.name, JsNum.num c), (q.name, JsNum.num c)].Sublist (rankedResults room) := by
  have hpo := (mem_rankedResults room _).mp hpc
  have hqo := (mem_rankedResults room _).mp hqc
  have hproto := proto_not_key (getActivePlayersInRoom room) room.state.votes
  have hpn : p.name ≠ "__proto__" := by
    intro h
    exact hproto (List.mem_map.mpr ⟨_, hpo, h⟩)
  have hqn : q.name ≠ "__proto__" := by
    intro h
    exact hproto (List.mem_map.mpr ⟨_, hqo, h⟩)
  obtain ⟨X, hX⟩ := voteCountsOf_keys (getActivePlayersInRoom room) room.state.votes hnd
  have hkeys : [p.name, q.name].Sublist
      ((voteCountsOf (getActivePlayersInRoom room) room.state.votes).own.map
        (fun e => e.1)) := by
    rw [hX]
    refine List.Sublist.trans ?_ (List.sublist_append_left _ _)
    have h1 := (hpq.map (fun r : Player => r.name)).filter (fun k => decide (k ≠ "__proto__"))
    simpa [hpn, hqn] using h1
  obtain ⟨l', hl', hmap⟩ := List.sublist_map_iff.mp hkeys
  have hknd := keys_nodup_voteCountsOf (getActivePlayersInRoom room) room.state.votes
  have hown : [(p.name, JsNum.num c), (q.name, JsNum.num c)].Sublist
      (voteCountsOf (getActivePlayersInRoom room) room.state.votes).own := by
    match l', hl', hmap with
    | [], _, hmap => simp at hmap
    | [_], _, hmap => simp at hmap
    | _ :: _ :: _ :: _, _, hmap => simp at hmap
    | [ep, eq], hl', hmap =>
      simp only [List.map_cons, List.map_nil, List.cons.injEq, and_true] at hmap
      have hep : ep = (p.name, JsNum.num c) :=
        List.inj_on_of_nodup_map hknd (hl'.subset (by simp)) hpo hmap.1.symm
      have heq : eq = (q.name, JsNum.num c) :=
        List.inj_on_of_nodup_map hknd (hl'.subset (by simp)) hqo hmap.2.symm
      rw [← hep, ← heq]
      exact hl'
  unfold rankedResults sortByCount
  apply List.pair_sublist_insertionSort
  · simp [countOrder]
  · unfold JsObj.entries
    refine List.Sublist.trans ?_ (List.sublist_append_right _ _)
    have h2 := hown.filter (fun e => (arrayIndex? e.1).isNone)
    simpa [hpi, hqi] using h2

/-- Witness for C10 (amended): Zed joined before Amy, both have count `0`. -/
theorem rankedResults_join_order_witness :
    [("Zed", JsNum.num 0), ("Amy", JsNum.num 0)].Sublist (rankedResults roomJoinOrder) :=
  rankedResults_join_order roomJoinOrder ⟨"s1", "Zed", false, false⟩
    ⟨"s2", "Amy", false, false⟩ 0 (by decide) (by decide) (by decide) (by decide) (by decide)
    (by decide)

/-! ## Theorems: voting and word acknowledgement with departed players -/

/-- C11 (the code at the failing input): in the run `eventsStaleVote` the room is in
phase voting with the active players Bob, Cara and Dee, and the votes object holds the
vote of Eve, who left, and the vote of Bob. When Cara votes, `submit-vote` counts three
keys against three active players and tallies: the phase becomes elimination and Bob is
eliminated, although Dee, an active player, has no recorded vote. -/
theorem submitVote_counts_stale_votes :
    (roomAfter eventsStaleVote).map (fun r =>
      (r.state.phase, (getActivePlayersInRoom r).map (fun p => p.name), r.state.votes.keys)) =
      some (Phase.voting, ["Bob", "Cara", "Dee"], ["Eve", "Bob"]) ∧
    (roomAfter (eventsStaleVote ++ [ServerEvent.client "c" (ClientEvent.submitVote "Bob")])).map
      (fun r => (r.state.phase, r.state.votes.keys,
        (r.players.filter (fun p => p.eliminated)).map (fun p => p.name))) =
      some (Phase.elimination, ["Eve", "Bob", "Cara"], ["Bob"]) := by
  decide

/-- C12 (as stated, refuted): three active voters Bob, Cara and Dee, the votes of Bob and
Cara are in. When Dee disconnects the two remaining players already decide the game, so
the handler ends the game: the phase becomes gameover, not elimination, and nobody is
eliminated. -/
theorem disconnect_third_voter_ends_game :
    (roomAfter eventsTwoOfThree).map (fun r =>
      (r.state.phase, (getActivePlayersInRoom r).map (fun p => p.name), r.state.votes.keys)) =
      some (Phase.voting, ["Bob", "Cara", "Dee"], ["Bob", "Cara"]) ∧
    (roomAfter (eventsTwoOfThree ++ [ServerEvent.client "d" ClientEvent.disconnect])).map
      (fun r => (r.state.phase, (r.players.filter (fun p => p.eliminated)).map (fun p => p.name))) =
      some (Phase.gameover, []) := by
  decide

/-- C13 (the code at the failing input): in the run `eventsStaleSeen` the room is in
phase distribute with the participants Bob, Cara and Dee, and `_wordSeen` holds the ids of
Eve, who left, and of Bob. When Cara confirms, the set has three members for three
participants and the room moves to phase hints, round 1, although Dee has not
confirmed. -/
theorem wordSeen_counts_departed_players :
    (roomAfter eventsStaleSeen).map (fun r =>
      (r.state.phase, r.state.round,
        (r.players.filter (fun p => p.id != r.host)).map (fun p => p.id), r.state.wordSeen)) =
      some (Phase.distribute, 0, ["b", "c", "d"], some ["e", "b"]) ∧
    (roomAfter (eventsStaleSeen ++ [ServerEvent.client "c" ClientEvent.wordSeen])).map
      (fun r => (r.state.phase, r.state.round)) = some (Phase.hints, 1) := by
  decide

/-- C17 (the code at the failing input): after the tie between A and B in `roomTie` and
the host's `revote`, the room is in phase voting with `tiedPlayers = [A, B]`. When both
tied players have voted the room is still in phase voting, because `submit-vote` waits
for as many votes as there are active players (five). When C, D and E vote as well the
tally runs, gives C two votes, and eliminates C, who was not tied. -/
theorem revote_waits_for_all_active :
    (roomRevote.state.phase, roomRevote.state.tiedPlayers, roomRevote.state.votes.keys) =
      (Phase.voting, ["A", "B"], []) ∧
    (roomRevoteVoted.state.phase, roomRevoteVoted.state.votes.keys,
      (getActivePlayersInRoom roomRevoteVoted).length) = (Phase.voting, ["A", "B"], 5) ∧
    (roomRevoteAll.state.phase,
      (roomRevoteAll.players.filter (fun p => p.eliminated)).map (fun p => p.name)) =
      (Phase.elimination, ["C"]) := by
  decide

/-- C18 (the code at the failing input): Bob is the imposter and first in the list after
the host. When the host Ann disconnects, Bob becomes the host and keeps
`isImposter = true`. -/
theorem promoted_host_keeps_role :
    (roomAfter eventsHostLeaves).map (fun r =>
      (r.host, r.players.map (fun p => (p.id, p.name, p.isImposter)))) =
      some ("b", [("b", "Bob", true), ("c", "Cara", false), ("d", "Dee", false)]) := by
  decide

/-- C19 (the code at the failing input): Ann creates a room and then joins it again under
the name Bob. The player list has two entries whose connection id is the host id. -/
theorem second_join_duplicates_host :
    (roomAfter eventsJoinTwice).map (fun r =>
      (r.host, r.players.map (fun p => (p.id, p.name)),
        (r.players.filter (fun p => p.id == r.host)).length)) =
      some ("a", [("a", "Ann"), ("a", "Bob")], 2) := by
  decide

/-! ## Lemmas: what the tally leaves alone -/

theorem markEliminated_who (players : List Player) (name : String) :
    (markEliminated players name).map Player.who = players.map Player.who := by
  induction players with
  | nil => rfl
  | cons p ps ih =>
    unfold markEliminated
    split_ifs
    · rfl
    · rw [List.map_cons, List.map_cons, ih]

theorem eliminatePlayer_frame (room : Room) (name : String) :
    (eliminatePlayer room name).room.host = room.host ∧
    (eliminatePlayer room name).room.state = room.state ∧
    (eliminatePlayer room name).room.players.map Player.who = room.players.map Player.who := by
  unfold eliminatePlayer
  cases room.players.find? (fun p => p.name == name) with
  | none => exact ⟨rfl, rfl, rfl⟩
  | some player =>
    simp only []
    cases checkWinCondition { room with players := markEliminated room.players name } <;>
      exact ⟨rfl, rfl, markEliminated_who _ _⟩

theorem tallyVotes_frame (room : Room) (eff : Effects) (h : tallyVotes room = some eff) :
    eff.room.host = room.host ∧
    eff.room.players.map Player.who = room.players.map Player.who ∧
    eff.room.state.phase = Phase.elimination := by
  unfold tallyVotes at h
  simp only [] at h
  cases hr : rankedResults room with
  | nil => rw [hr] at h; simp at h
  | cons top rest =>
    rw [hr] at h
    simp only [] at h
    split_ifs at h
    · simp only [Option.some.injEq] at h
      subst h
      exact ⟨rfl, rfl, rfl⟩
    · simp only [Option.some.injEq] at h
      subst h
      exact ⟨rfl, rfl, rfl⟩
    · simp only [Option.some.injEq] at h
      subst h
      obtain ⟨h1, h2, h3⟩ := eliminatePlayer_frame (withPhase room Phase.elimination) top.1
      exact ⟨h1, h3, by rw [h2]; rfl⟩

theorem tallyVotes_ne_none (room : Room) (h : rankedResults room ≠ []) :
    ∃ eff, tallyVotes room = some eff := by
  unfold tallyVotes
  simp only []
  cases hr : rankedResults room with
  | nil => exact absurd hr h
  | cons top rest =>
    simp only []
    split_ifs
    · exact ⟨_, rfl⟩
    · exact ⟨_, rfl⟩
    · exact ⟨_, rfl⟩

theorem exists_not_proto (names : List String) (hnd : names.Nodup) (hlen : 2 ≤ names.length) :
    ∃ n ∈ names, n ≠ "__proto__" := by
  match names, hnd, hlen with
  | a :: b :: _, hnd, _ =>
    by_cases ha : a = "__proto__"
    · refine ⟨b, by simp, ?_⟩
      intro hb
      rw [List.nodup_cons] at hnd
      exact hnd.1 (by rw [ha, ← hb]; simp)
    · exact ⟨a, by simp, ha⟩

theorem rankedResults_ne_nil (room : Room)
    (hnd : ((getActivePlayersInRoom room).map (fun p => p.name)).Nodup)
    (hlen : 2 ≤ (getActivePlayersInRoom room).length) : rankedResults room ≠ [] := by
  obtain ⟨n, hn, hnp⟩ := exists_not_proto _ hnd (by simpa using hlen)
  obtain ⟨X, hX⟩ := voteCountsOf_keys (getActivePlayersInRoom room) room.state.votes hnd
  have hmem : n ∈ (voteCountsOf (getActivePlayersInRoom room) room.state.votes).own.map
      (fun e => e.1) := by
    rw [hX]
    exact List.mem_append_left _ (List.mem_filter.mpr ⟨hn, by simpa using hnp⟩)
  obtain ⟨e, he, _⟩ := List.mem_map.mp hmem
  intro hnil
  have := (mem_rankedResults room e).mpr he
  rw [hnil] at this
  simp at this

theorem active_length_split (room : Room) :
    (getActivePlayersInRoom room).length = activeImposters room + activeNormals room := by
  unfold activeImposters activeNormals
  rw [← List.countP_eq_length_filter, ← List.countP_eq_length_filter]
  rw [List.length_eq_countP_add_countP (fun p : Player => p.isImposter)]
  congr 1
  apply List.countP_congr
  intro p _
  simp

theorem checkWinCondition_none_iff (room : Room) :
    checkWinCondition room = none ↔
      (1 ≤ activeImposters room ∧ 2 ≤ activeNormals room ∧
        activeImposters room ≤ activeNormals room) := by
  unfold checkWinCondition activeImposters activeNormals
  simp only []
  split_ifs <;> simp <;> omega

theorem length_le_filter_of_subset (names keys : List String) (f : String → Bool)
    (hnd : names.Nodup) (hsub : ∀ n ∈ names, n ∈ keys ∧ f n = true) :
    names.length ≤ (keys.filter f).length := by
  have h : names.Subperm (keys.filter f) :=
    List.subperm_of_subset hnd (fun n hn => List.mem_filter.mpr (hsub n hn))
  exact h.length_le

/-! ## Theorems: disconnect during the vote -/

/-- C12 (amended): disconnect mid-voting. Let a connection leave a room in phase voting
in which a player remains. If the remaining players satisfy a win condition, the handler
ends the game (phase gameover) and no tally runs; this is always so when at most two
active players remain, as when the third of three active voters disconnects. If they do
not, and every remaining active player has a recorded vote (active names being pairwise
distinct), the tally is triggered at once: `tallyVotes` runs on the room without the
leaver and the phase becomes elimination. -/
theorem disconnectRoom_voting (room : Room) (sock : Socket)
    (hphase : room.state.phase = Phase.voting)
    (hrem : room.players.filter (fun p => p.id != sock.id) ≠ []) :
    (∀ w, checkWinCondition (leaveRoom room sock) = some w →
      disconnectRoom room sock =
        DisconnectResult.done ⟨withPhase (leaveRoom room sock) Phase.gameover,
          leaveEmits room sock ++ (emitGameOver (leaveRoom room sock) w).2, []⟩) ∧
    ((getActivePlayersInRoom (leaveRoom room sock)).length ≤ 2 →
      checkWinCondition (leaveRoom room sock) ≠ none) ∧
    (checkWinCondition (leaveRoom room sock) = none →
      ((getActivePlayersInRoom (leaveRoom room sock)).map (fun p => p.name)).Nodup →
      (∀ p ∈ getActivePlayersInRoom (leaveRoom room sock), p.name ∈ room.state.votes.keys) →
      ∃ teff, tallyVotes (leaveRoom room sock) = some teff ∧
        teff.room.state.phase = Phase.elimination ∧
        disconnectRoom room sock =
          DisconnectResult.done ⟨teff.room, leaveEmits room sock ++ teff.emits, teff.timers⟩) := by
  have hlen : ¬ (room.players.filter (fun p => p.id != sock.id)).length = 0 := by
    rw [List.length_eq_zero]; exact hrem
  have hph : (leaveRoom room sock).state.phase = Phase.voting := hphase
  refine ⟨?_, ?_, ?_⟩
  · intro w hw
    unfold disconnectRoom
    simp only [hlen, if_false, hph, hw]
    rw [if_pos (by decide)]
    rfl
  · intro h2 hnone
    have h3 := (checkWinCondition_none_iff _).mp hnone
    have := active_length_split (leaveRoom room sock)
    omega
  · intro hnone hnd hvoted
    have h3 := (checkWinCondition_none_iff _).mp hnone
    have hsplit := active_length_split (leaveRoom room sock)
    obtain ⟨teff, hteff⟩ := tallyVotes_ne_none (leaveRoom room sock)
      (rankedResults_ne_nil _ hnd (by omega))
    have hcount : (getActivePlayersInRoom (leaveRoom room sock)).length ≤
        ((leaveRoom room sock).state.votes.keys.filter
          (fun v => (getActivePlayersInRoom (leaveRoom room sock)).any
            (fun p => p.name == v))).length := by
      have := length_le_filter_of_subset
        ((getActivePlayersInRoom (leaveRoom room sock)).map (fun p => p.name))
        (leaveRoom room sock).state.votes.keys
        (fun v => (getActivePlayersInRoom (leaveRoom room sock)).any (fun p => p.name == v))
        hnd (by
          intro n hn
          obtain ⟨p, hp, rfl⟩ := List.mem_map.mp hn
          refine ⟨hvoted p hp, ?_⟩
          rw [List.any_eq_true]
          exact ⟨p, hp, by simp⟩)
      simpa using this
    refine ⟨teff, hteff, (tallyVotes_frame _ _ hteff).2.2, ?_⟩
    unfold disconnectRoom
    simp only [hlen, if_false, hph, hnone, hteff, ge_iff_le, hcount, if_true]
    rw [if_pos (by decide)]

/-- Witness for C12 (amended): Bob, Cara and Dee have voted; when Eve disconnects the game
is not decided and the tally runs. -/
theorem disconnectRoom_voting_witness :
    ∃ teff, tallyVotes (leaveRoom roomFourVoters socketEve) = some teff ∧
      teff.room.state.phase = Phase.elimination ∧
      disconnectRoom roomFourVoters socketEve =
        DisconnectResult.done ⟨teff.room, leaveEmits roomFourVoters socketEve ++ teff.emits,
          teff.timers⟩ :=
  (disconnectRoom_voting roomFourVoters socketEve (by decide) (by decide)).2.2
    (by decide) (by decide) (by decide)

/-! ## Lemmas: the registry -/

theorem lookup_setFirst_self {β : Type} (k : String) (v : β) (l : List (String × β)) :
    (setFirst k v l).lookup k = some v := by
  induction l with
  | nil => simp [setFirst, List.lookup]
  | cons e es ih =>
    unfold setFirst
    split_ifs with h
    · simp [List.lookup]
    · have hb : (k == e.1) = false := by
        simp only [beq_eq_false_iff_ne, ne_eq]
        exact fun h' => h h'.symm
      rw [List.lookup_cons, hb]
      exact ih

theorem lookup_filter_ne {β : Type} (k : String) (l : List (String × β)) :
    (l.filter (fun e => e.1 != k)).lookup k = none := by
  induction l with
  | nil => rfl
  | cons e es ih =>
    rw [List.filter_cons]
    split_ifs with h
    · have hb : (k == e.1) = false := by
        simp only [bne_iff_ne, ne_eq] at h
        simp only [beq_eq_false_iff_ne, ne_eq]
        exact fun h' => h h'.symm
      rw [List.lookup_cons, hb]
      exact ih
    · exact ih

theorem disconnect_room? (s : Server) (sock : Socket) (code : String) (room : Room)
    (hcode : sock.roomCode = some code) (hroom : s.room? code = some room) :
    (disconnect s sock).1.room? code = (disconnectRoom room sock).room? := by
  have hof : s.roomOf sock = some room := by
    unfold Server.roomOf
    rw [hcode]
    exact hroom
  unfold disconnect
  rw [hcode, hof]
  simp only []
  cases disconnectRoom room sock with
  | deleted emits =>
    simp only [DisconnectResult.room?, Server.room?, Server.deleteRoom, Server.dropSocket]
    exact lookup_filter_ne code _
  | done eff =>
    simp only [DisconnectResult.room?, Server.room?, Server.setRoom, Server.addTimers,
      Server.dropSocket]
    exact lookup_setFirst_self code _ _
  | threw eff =>
    simp only [DisconnectResult.room?, Server.room?, Server.setRoom, Server.dropSocket]
    exact lookup_setFirst_self code _ _

theorem emitGameOver_frame (room : Room) (w : Winner) :
    (emitGameOver room w).1.host = room.host ∧
    (emitGameOver room w).1.players = room.players := ⟨rfl, rfl⟩

theorem disconnectRoom_keeps (room : Room) (sock : Socket)
    (hlen : ¬ (room.players.filter (fun p => p.id != sock.id)).length = 0) :
    ∃ room', (disconnectRoom room sock).room? = some room' ∧
      room'.host = (leaveRoom room sock).host ∧
      room'.players.map Player.who = (leaveRoom room sock).players.map Player.who := by
  unfold disconnectRoom
  simp only [hlen, if_false]
  by_cases h1 : (leaveRoom room sock).state.phase ≠ Phase.lobby
  · rw [if_pos h1]
    cases hw : checkWinCondition (leaveRoom room sock) with
    | some w => exact ⟨_, rfl, rfl, rfl⟩
    | none =>
      simp only []
      by_cases h2 : (leaveRoom room sock).state.phase = Phase.voting
      · rw [if_pos h2]
        by_cases h3 : ((leaveRoom room sock).state.votes.keys.filter
            (fun v => (getActivePlayersInRoom (leaveRoom room sock)).any
              (fun p => p.name == v))).length ≥ (getActivePlayersInRoom (leaveRoom room sock)).length
        · rw [if_pos h3]
          cases ht : tallyVotes (leaveRoom room sock) with
          | none => exact ⟨_, rfl, rfl, rfl⟩
          | some eff =>
            obtain ⟨h4, h5, _⟩ := tallyVotes_frame _ _ ht
            exact ⟨_, rfl, h4, h5⟩
        · rw [if_neg h3]
          exact ⟨_, rfl, rfl, rfl⟩
      · rw [if_neg h2]
        exact ⟨_, rfl, rfl, rfl⟩
  · rw [if_neg h1]
    exact ⟨_, rfl, rfl, rfl⟩

theorem disconnectRoom_frame (room : Room) (sock : Socket) (first : Player)
    (rest : List Player)
    (hrem : room.players.filter (fun p => p.id != sock.id) = first :: rest) :
    ∃ room', (disconnectRoom room sock).room? = some room' ∧
      room'.host = (if room.host = sock.id then first.id else room.host) ∧
      room'.players.map Player.who = (first :: rest).map Player.who := by
  have hhost : (leaveRoom room sock).host =
      (if room.host = sock.id then first.id else room.host) := by
    unfold leaveRoom
    simp only [hrem]
  have hplayers : (leaveRoom room sock).players = first :: rest := hrem
  obtain ⟨room', h1, h2, h3⟩ := disconnectRoom_keeps room sock (by rw [hrem]; simp)
  exact ⟨room', h1, h2.trans hhost, by rw [h3, hplayers]⟩

/-! ## Theorems: host reassignment and room removal -/

/-- C20: let a connection whose room is registered under `code` disconnect. When no player
of another connection remains, the room is removed from the registry. When players
remain, the room stays registered with the remaining players in their former order
(ids, names and roles as before), and its host is the first remaining player if the
leaving connection was the host, and the former host otherwise. -/
theorem disconnect_host_and_registry (s : Server) (sock : Socket) (code : String)
    (room : Room) (hcode : sock.roomCode = some code) (hroom : s.room? code = some room) :
    (room.players.filter (fun p => p.id != sock.id) = [] →
      (disconnect s sock).1.room? code = none) ∧
    (∀ first rest, room.players.filter (fun p => p.id != sock.id) = first :: rest →
      ∃ room', (disconnect s sock).1.room? code = some room' ∧
        room'.host = (if room.host = sock.id then first.id else room.host) ∧
        room'.players.map Player.who = (first :: rest).map Player.who) := by
  rw [disconnect_room? s sock code room hcode hroom]
  refine ⟨?_, ?_⟩
  · intro hrem
    unfold disconnectRoom
    simp [hrem, DisconnectResult.room?]
  · intro first rest hrem
    exact disconnectRoom_frame room sock first rest hrem

/-- Witness for C20: the host Ann leaves the lobby of Ann, Bob, Cara and Dee. -/
theorem disconnect_host_and_registry_witness :
    (roomOfLobby4.players.filter (fun p => p.id != socketAnn.id) = [] →
      (disconnect (runFromStart eventsLobby4) socketAnn).1.room? "ABCDEF" = none) ∧
    (∀ first rest, roomOfLobby4.players.filter (fun p => p.id != socketAnn.id) = first :: rest →
      ∃ room', (disconnect (runFromStart eventsLobby4) socketAnn).1.room? "ABCDEF" = some room' ∧
        room'.host = (if roomOfLobby4.host = socketAnn.id then first.id else roomOfLobby4.host) ∧
        room'.players.map Player.who = (first :: rest).map Player.who) :=
  disconnect_host_and_registry (runFromStart eventsLobby4) socketAnn "ABCDEF" roomOfLobby4
    (by decide) (by decide)

/-! ## Theorems: host events and the phase -/

/-- C14 (as stated, refuted): `roomThreeVsTwo` is in phase hints with five active players
and an empty `hintsGiven`. The host's start-discussion moves it to phase discussion. -/
theorem startDiscussion_without_hints :
    roomThreeVsTwo.state.phase = Phase.hints ∧
    roomThreeVsTwo.state.hintsGiven = [] ∧
    (getActivePlayersInRoom roomThreeVsTwo).length = 5 ∧
    (startDiscussion roomThreeVsTwo roomThreeVsTwo.host).room?.map (fun r => r.state.phase) =
      some Phase.discussion := by
  decide

/-- C14 (amended): a host start-discussion event moves the room to phase discussion in
every case, whatever `hintsGiven` holds; nothing else of the room changes. The handler
does not look at the hints. -/
theorem startDiscussion_ungated (room : Room) :
    (startDiscussion room room.host).room? = some (withPhase room Phase.discussion) ∧
    (withPhase room Phase.discussion).state.phase = Phase.discussion ∧
    (withPhase room Phase.discussion).state.hintsGiven = room.state.hintsGiven := by
  refine ⟨?_, rfl, rfl⟩
  unfold startDiscussion
  simp [HandlerResult.room?]

/-- C15 (as stated, refuted): sent by the host outside their source phase, the four
events change the room. In the lobby, start-discussion and start-voting set the phase to
discussion and to voting; in phase hints, play-again returns the room to the lobby and
start-game enters distribute. -/
theorem host_events_outside_source_phase :
    roomLobby4.state.phase = Phase.lobby ∧
    (startDiscussion roomLobby4 "h").room?.map (fun r => r.state.phase) =
      some Phase.discussion ∧
    (startVoting roomLobby4 "h").room?.map (fun r => r.state.phase) = some Phase.voting ∧
    roomThreeVsTwo.state.phase = Phase.hints ∧
    (playAgain roomThreeVsTwo "h").room?.map (fun r => r.state.phase) = some Phase.lobby ∧
    (startGame asciiLower zeroDraws roomThreeVsTwo "h" "Apple" "Banana").room?.map
      (fun r => r.state.phase) = some Phase.distribute := by
  decide

/-- C15 (amended): the host-driven phase events are not guarded by the phase. Sent by the
host in a room in any phase: start-discussion sets the phase to discussion; start-voting
sets it to voting and empties the votes, leaving the players alone; play-again returns
the room to the lobby with round 0 and all roles and eliminations cleared; start-game,
given at least two participants and two different non-empty words, enters distribute with
round 0. -/
theorem host_events_unguarded (lower : String → String) (draw : Draws) (room : Room)
    (normalWord imposterWord : String) :
    (startDiscussion room room.host).room? = some (withPhase room Phase.discussion) ∧
    (∃ r, (startVoting room room.host).room? = some r ∧ r.state.phase = Phase.voting ∧
      r.state.votes = ⟨[]⟩ ∧ r.players = room.players) ∧
    (∃ r, (playAgain room room.host).room? = some r ∧ r.state.phase = Phase.lobby ∧
      r.state.round = 0 ∧ ∀ p ∈ r.players, p.isImposter = false ∧ p.eliminated = false) ∧
    (2 ≤ (room.players.filter (fun p => p.id != room.host)).length →
      normalWord ≠ "" → imposterWord ≠ "" →
      lower (jsTrim normalWord) ≠ lower (jsTrim imposterWord) →
      ∃ r, (startGame lower draw room room.host normalWord imposterWord).room? = some r ∧
        r.state.phase = Phase.distribute ∧ r.state.round = 0) := by
  refine ⟨?_, ?_, ?_, ?_⟩
  · unfold startDiscussion
    simp [HandlerResult.room?]
  · unfold startVoting
    simp only [ne_eq, not_true_eq_false, if_false, HandlerResult.room?]
    exact ⟨_, rfl, rfl, rfl, rfl⟩
  · unfold playAgain
    simp only [ne_eq, not_true_eq_false, if_false, HandlerResult.room?]
    refine ⟨_, rfl, rfl, rfl, ?_⟩
    intro p hp
    obtain ⟨q, _, rfl⟩ := List.mem_map.mp hp
    exact ⟨rfl, rfl⟩
  · intro h2 hn hi hne
    unfold startGame
    simp only [ne_eq, not_true_eq_false, if_false]
    rw [if_neg (by omega), if_neg (by simp [hn, hi, hne])]
    exact ⟨_, rfl, rfl, rfl⟩

/-- Witness for C15 (amended): the host of `roomThreeVsTwo`, a room in phase hints, sends
the four events. -/
theorem host_events_unguarded_witness :
    (startDiscussion roomThreeVsTwo roomThreeVsTwo.host).room? =
      some (withPhase roomThreeVsTwo Phase.discussion) ∧
    (∃ r, (startVoting roomThreeVsTwo roomThreeVsTwo.host).room? = some r ∧
      r.state.phase = Phase.voting ∧ r.state.votes = ⟨[]⟩ ∧
      r.players = roomThreeVsTwo.players) ∧
    (∃ r, (playAgain roomThreeVsTwo roomThreeVsTwo.host).room? = some r ∧
      r.state.phase = Phase.lobby ∧ r.state.round = 0 ∧
      ∀ p ∈ r.players, p.isImposter = false ∧ p.eliminated = false) ∧
    (∃ r, (startGame asciiLower zeroDraws roomThreeVsTwo roomThreeVsTwo.host "Apple"
        "Banana").room? = some r ∧
      r.state.phase = Phase.distribute ∧ r.state.round = 0) :=
  ⟨(host_events_unguarded asciiLower zeroDraws roomThreeVsTwo "Apple" "Banana").1,
   (host_events_unguarded asciiLower zeroDraws roomThreeVsTwo "Apple" "Banana").2.1,
   (host_events_unguarded asciiLower zeroDraws roomThreeVsTwo "Apple" "Banana").2.2.1,
   (host_events_unguarded asciiLower zeroDraws roomThreeVsTwo "Apple" "Banana").2.2.2
     (by decide) (by decide) (by decide) (by decide)⟩

/-- C16 (as stated, refuted): `roomLobby4` is in phase lobby with an empty `tiedPlayers`.
The host's tie-resolution `revote` sets the phase to voting, and `skip` ends the game. -/
theorem tieResolution_outside_tie :
    roomLobby4.state.phase = Phase.lobby ∧ roomLobby4.state.tiedPlayers = [] ∧
    (tieResolution zeroDraws roomLobby4 "h" "revote").room?.map (fun r => r.state.phase) =
      some Phase.voting ∧
    (tieResolution zeroDraws roomLobby4 "h" "skip").room?.map (fun r => r.state.phase) =
      some Phase.gameover := by
  decide

/-- C16 (amended): tie-resolution is not guarded by the phase or by `tiedPlayers`. Sent by
the host in any state of the room: `revote` empties the votes and sets the phase to
voting, leaving round and players unchanged; `skip` ends the game (phase gameover) when
the win condition holds and otherwise starts the next round (round plus one); `random`
changes nothing when `tiedPlayers` is empty. Sent by another connection, no method
changes anything. -/
theorem tieResolution_unguarded (draw : Draws) (room : Room) :
    (∃ r, (tieResolution draw room room.host "revote").room? = some r ∧
      r.state.phase = Phase.voting ∧ r.state.votes = ⟨[]⟩ ∧
      r.state.round = room.state.round ∧ r.players = room.players) ∧
    (∀ w, checkWinCondition room = some w →
      (tieResolution draw room room.host "skip").room? = some (withPhase room Phase.gameover)) ∧
    (checkWinCondition room = none →
      (tieResolution draw room room.host "skip").room? = some (nextRound room).1 ∧
      (nextRound room).1.state.round = room.state.round + 1 ∧
      (nextRound room).1.players = room.players) ∧
    (room.state.tiedPlayers = [] →
      tieResolution draw room room.host "random" = Outcome.done ⟨room, [], []⟩) ∧
    (∀ socketId method, socketId ≠ room.host →
      tieResolution draw room socketId method = Outcome.ignored) := by
  refine ⟨?_, ?_, ?_, ?_, ?_⟩
  · unfold tieResolution
    simp only [ne_eq, not_true_eq_false, if_false, if_true, Outcome.room?]
    exact ⟨_, rfl, rfl, rfl, rfl, rfl⟩
  · intro w hw
    unfold tieResolution
    rw [if_neg (by simp), if_neg (by decide), if_neg (by decide), if_pos rfl, hw]
    rfl
  · intro hnone
    unfold tieResolution
    rw [if_neg (by simp), if_neg (by decide), if_neg (by decide), if_pos rfl, hnone]
    refine ⟨rfl, ?_, ?_⟩
    · unfold nextRound
      simp only []
      split_ifs <;> rfl
    · unfold nextRound
      simp only []
      split_ifs <;> rfl
  · intro htied
    unfold tieResolution
    rw [if_neg (by simp), if_neg (by decide), if_pos rfl, htied]
    rfl
  · intro socketId method hne
    unfold tieResolution
    rw [if_pos hne]

/-- Witness for C16 (amended): the host of `roomLobby4`, whose players decide the game for
`people`, and the host of `roomFourVoters`, whose players do not decide it. -/
theorem tieResolution_unguarded_witness :
    (tieResolution zeroDraws roomLobby4 roomLobby4.host "skip").room? =
      some (withPhase roomLobby4 Phase.gameover) ∧
    ((tieResolution zeroDraws roomFourVoters roomFourVoters.host "skip").room? =
      some (nextRound roomFourVoters).1 ∧
      (nextRound roomFourVoters).1.state.round = roomFourVoters.state.round + 1 ∧
      (nextRound roomFourVoters).1.players = roomFourVoters.players) ∧
    tieResolution zeroDraws roomLobby4 roomLobby4.host "random" =
      Outcome.done ⟨roomLobby4, [], []⟩ ∧
    tieResolution zeroDraws roomLobby4 "s1" "revote" = Outcome.ignored :=
  ⟨(tieResolution_unguarded zeroDraws roomLobby4).2.1 Winner.people (by decide),
   (tieResolution_unguarded zeroDraws roomFourVoters).2.2.1 (by decide),
   (tieResolution_unguarded zeroDraws roomLobby4).2.2.2.1 (by decide),
   (tieResolution_unguarded zeroDraws roomLobby4).2.2.2.2 "s1" "revote" (by decide)⟩

/-! ## Theorems: the round limit -/

/-- C27: max rounds. Whenever `nextRound` runs with `maxRounds > 0` and the incremented
round exceeds `maxRounds`, the room ends in phase gameover, the only message is the
game-over broadcast with winner imposters, and no phase-change is broadcast; when
`maxRounds = 0` or the incremented round is at most `maxRounds`, the phase becomes hints,
the round grows by exactly 1, votes, hintsGiven and tiedPlayers are emptied, and the
hints phase-change is broadcast. -/
theorem nextRound_maxRounds (room : Room) :
    (room.settings.maxRounds > 0 ∧ ((room.state.round + 1 : Nat) : ℚ) > room.settings.maxRounds →
      (nextRound room).1.state.phase = Phase.gameover ∧
      (∃ imposters normalWord imposterWord rounds eliminated players,
        (nextRound room).2 = [⟨Target.room room.code,
          Event.gameOver Winner.imposters imposters normalWord imposterWord rounds eliminated
            players⟩]) ∧
      (∀ e ∈ (nextRound room).2, ∀ phase round timer players isRevote,
        e.event ≠ Event.phaseChange phase round timer players isRevote)) ∧
    (room.settings.maxRounds = 0 ∨ ((room.state.round + 1 : Nat) : ℚ) ≤ room.settings.maxRounds →
      (nextRound room).1.state.phase = Phase.hints ∧
      (nextRound room).1.state.round = room.state.round + 1 ∧
      (nextRound room).1.state.votes = ⟨[]⟩ ∧
      (nextRound room).1.state.hintsGiven = [] ∧
      (nextRound room).1.state.tiedPlayers = [] ∧
      (∃ players, (nextRound room).2 = [⟨Target.room room.code,
        Event.phaseChange Phase.hints (some (room.state.round + 1)) none players false⟩])) := by
  constructor
  · intro h
    have hgo : nextRound room = emitGameOver { room with state := { room.state with
        phase := Phase.hints, round := room.state.round + 1, hintsGiven := [], votes := ⟨[]⟩,
        tiedPlayers := [] } } Winner.imposters := by
      unfold nextRound
      simp only []
      rw [if_pos h]
    rw [hgo]
    refine ⟨rfl, ⟨_, _, _, _, _, _, rfl⟩, ?_⟩
    intro e he
    simp only [emitGameOver, List.mem_singleton] at he
    subst he
    intro _ _ _ _ _ hc
    cases hc
  · intro h
    have hno : ¬ (room.settings.maxRounds > 0 ∧
        ((room.state.round + 1 : Nat) : ℚ) > room.settings.maxRounds) := by
      rintro ⟨h1, h2⟩
      rcases h with h | h
      · rw [h] at h1
        exact lt_irrefl _ h1
      · exact absurd h2 (not_lt.mpr h)
    unfold nextRound
    simp only []
    rw [if_neg hno]
    exact ⟨rfl, rfl, rfl, rfl, rfl, _, rfl⟩

/-- Witness for C27: after round 3 of at most 3 rounds the game is over; without a limit
round 4 begins. -/
theorem nextRound_maxRounds_witness :
    (nextRound roomLastRound).1.state.phase = Phase.gameover ∧
    (nextRound roomNoLimit).1.state.phase = Phase.hints ∧
    (nextRound roomNoLimit).1.state.round = 4 :=
  ⟨((nextRound_maxRounds roomLastRound).1 (by decide)).1,
   ((nextRound_maxRounds roomNoLimit).2 (Or.inl (by decide))).1,
   ((nextRound_maxRounds roomNoLimit).2 (Or.inl (by decide))).2.1⟩

/-! ## Theorems: authorization -/

theorem roomOf_eq (s : Server) (sock : Socket) (code : String) (room : Room)
    (hcode : sock.roomCode = some code) (hroom : s.room? code = some room) :
    s.roomOf sock = some room := by
  unfold Server.roomOf
  rw [hcode]
  exact hroom

/-- C25: authorization failures are silent and change nothing. For a connection whose
room is `room`: when the connection is not the host, each of update-settings,
start-game, start-discussion, start-voting, tie-resolution, play-again and kick-player
leaves the whole server state as it was and emits nothing; when it is the host, so do
word-seen, hint-given and submit-vote; and when every player entry of the connection is
eliminated, so do hint-given and submit-vote. -/
theorem unauthorized_events_silent (lower upper : String → String) (s : Server)
    (sock : Socket) (code : String) (room : Room)
    (hcode : sock.roomCode = some code) (hroom : s.room? code = some room) :
    (sock.id ≠ room.host →
      (∀ t i m h, s.clientStep lower upper sock (ClientEvent.updateSettings t i m h) = (s, [])) ∧
      (∀ nw iw draw,
        s.clientStep lower upper sock (ClientEvent.startGame nw iw draw) = (s, [])) ∧
      s.clientStep lower upper sock ClientEvent.startDiscussion = (s, []) ∧
      s.clientStep lower upper sock ClientEvent.startVoting = (s, []) ∧
      (∀ method draw,
        s.clientStep lower upper sock (ClientEvent.tieResolution method draw) = (s, [])) ∧
      s.clientStep lower upper sock ClientEvent.playAgain = (s, []) ∧
      (∀ name, s.clientStep lower upper sock (ClientEvent.kickPlayer name) = (s, []))) ∧
    (sock.id = room.host →
      s.clientStep lower upper sock ClientEvent.wordSeen = (s, []) ∧
      s.clientStep lower upper sock ClientEvent.hintGiven = (s, []) ∧
      (∀ v, s.clientStep lower upper sock (ClientEvent.submitVote v) = (s, []))) ∧
    ((∀ p ∈ room.players, p.id = sock.id → p.eliminated = true) →
      s.clientStep lower upper sock ClientEvent.hintGiven = (s, []) ∧
      (∀ v, s.clientStep lower upper sock (ClientEvent.submitVote v) = (s, []))) := by
  have hof := roomOf_eq s sock code room hcode hroom
  refine ⟨fun hne => ⟨?_, ?_, ?_, ?_, ?_, ?_, ?_⟩, fun hhost => ⟨?_, ?_, ?_⟩,
    fun helim => ?_⟩
  · intro t i m h
    simp [Server.clientStep, hcode, hof, updateSettings, hne, Server.applyResult]
  · intro nw iw draw
    simp [Server.clientStep, hcode, hof, startGame, hne, Server.applyResult]
  · simp [Server.clientStep, hcode, hof, startDiscussion, hne, Server.applyResult]
  · simp [Server.clientStep, hcode, hof, startVoting, hne, Server.applyResult]
  · intro method draw
    simp [Server.clientStep, hcode, hof, tieResolution, hne, Server.applyOutcome]
  · simp [Server.clientStep, hcode, hof, playAgain, hne, Server.applyResult]
  · intro name
    simp [Server.clientStep, kickPlayer, hcode, hof, hne]
  · simp only [Server.clientStep, hcode, hof, wordSeen, hhost]
    split_ifs <;> rfl
  · simp only [Server.clientStep, hcode, hof, hintGiven, hhost]
    split_ifs <;> rfl
  · intro v
    simp only [Server.clientStep, hcode, hof, submitVote, hhost]
    split_ifs <;> rfl
  · have hfind : ∀ player, room.players.find? (fun p => p.id == sock.id) = some player →
        player.eliminated = true := by
      intro player hf
      have hm := List.mem_of_find?_eq_some hf
      have hid := List.find?_some hf
      exact helim player hm (by simpa using hid)
    constructor
    · simp only [Server.clientStep, hcode, hof, hintGiven]
      split_ifs
      · rfl
      · rfl
      · cases hf : room.players.find? (fun p => p.id == sock.id) with
        | none => rfl
        | some player => simp [hfind player hf, Server.applyResult]
    · intro v
      simp only [Server.clientStep, hcode, hof, submitVote]
      split_ifs
      · rfl
      · rfl
      · cases hf : room.players.find? (fun p => p.id == sock.id) with
        | none => rfl
        | some player => simp [hfind player hf, Server.applyOutcome]

/-- Witness for C25: in the room of four voters Eve, who is not the host, cannot start
the voting, the host cannot vote, and once Eve is eliminated her vote is ignored. -/
theorem unauthorized_events_silent_witness :
    (serverOf roomFourVoters).clientStep asciiLower asciiUpper socketEve
      ClientEvent.startVoting = (serverOf roomFourVoters, []) ∧
    (serverOf roomFourVoters).clientStep asciiLower asciiUpper socketHost
      (ClientEvent.submitVote "Bob") = (serverOf roomFourVoters, []) ∧
    (serverOf roomEveOut).clientStep asciiLower asciiUpper socketEve
      (ClientEvent.submitVote "Bob") = (serverOf roomEveOut, []) :=
  ⟨((unauthorized_events_silent asciiLower asciiUpper (serverOf roomFourVoters) socketEve
      "ABCDEF" roomFourVoters (by decide) (by decide)).1 (by decide)).2.2.2.1,
   ((unauthorized_events_silent asciiLower asciiUpper (serverOf roomFourVoters) socketHost
      "ABCDEF" roomFourVoters (by decide) (by decide)).2.1 (by decide)).2.2 "Bob",
   ((unauthorized_events_silent asciiLower asciiUpper (serverOf roomEveOut) socketEve
      "ABCDEF" roomEveOut (by decide) (by decide)).2.2 (by decide)).2 "Bob"⟩

/-! ## Theorems: start-game and kick-player -/

/-- C23: start-game accepts a word that is empty after trimming. In the lobby of Ann
with the participants Bob, Cara and Dee, the host's start-game with the normal word
`" "` (one space) and the imposter word `"Banana"` is not rejected: the game starts
(phase distribute) and the stored normal word is the empty string. -/
theorem startGame_blank_word :
    ((startGame asciiLower zeroDraws roomLobby4 "h" " " "Banana").room?).map
        (fun room => (room.state.phase, room.state.normalWord, room.state.imposterWord)) =
      some (Phase.distribute, "", "Banana") := by
  decide

theorem filter_name_eq (players : List Player) (p : Player) (hp : p ∈ players)
    (hnames : (players.map (fun q => q.name)).Nodup) :
    players.filter (fun q => q.name != p.name) = players.filter (fun q => decide (q ≠ p)) := by
  apply List.filter_congr
  intro q hq
  by_cases h : q = p
  · subst h
    simp
  · have hne : q.name ≠ p.name := fun hn => h (List.inj_on_of_nodup_map hnames hq hp hn)
    simp [h, hne]

/-- C26: kick-player. In a room whose player names are pairwise distinct: when the sender
is the host, the phase is lobby and `playerName` is exactly the name of a player `p`
whose connection is not the host, the room afterwards holds every player other than `p`,
in the same order, and nothing else of the room changes; in every other case the server
state is unchanged and nothing is emitted. -/
theorem kickPlayer_spec (s : Server) (sock : Socket) (code : String) (room : Room)
    (playerName : String)
    (hcode : sock.roomCode = some code) (hroom : s.room? code = some room)
    (hnames : (room.players.map (fun q => q.name)).Nodup) :
    (∀ p ∈ room.players, sock.id = room.host → room.state.phase = Phase.lobby →
      p.name = playerName → p.id ≠ room.host →
      (kickPlayer s sock playerName).1.room? code =
        some { room with players := room.players.filter (fun q => decide (q ≠ p)) }) ∧
    (¬ (sock.id = room.host ∧ room.state.phase = Phase.lobby ∧
        ∃ p ∈ room.players, p.name = playerName ∧ p.id ≠ room.host) →
      kickPlayer s sock playerName = (s, [])) := by
  have hof := roomOf_eq s sock code room hcode hroom
  constructor
  · intro p hp hhost hphase hname hid
    have hfind : room.players.find? (fun q => q.name == playerName) = some p := by
      cases hf : room.players.find? (fun q => q.name == playerName) with
      | none =>
        have := List.find?_eq_none.mp hf p hp
        simp [hname] at this
      | some q =>
        have hq := List.mem_of_find?_eq_some hf
        have hqn : q.name = playerName := by simpa using List.find?_some hf
        rw [List.inj_on_of_nodup_map hnames hq hp (hqn.trans hname.symm)]
    unfold kickPlayer
    rw [hcode, hof]
    simp only [hfind]
    rw [if_neg (by simp [hhost, hphase]), if_neg hid]
    have hfilter := filter_name_eq room.players p hp hnames
    rw [hname] at hfilter
    simp only [hfilter]
    split
    · simp only [Server.room?, Server.setRoom]
      exact lookup_setFirst_self code _ _
    · simp only [Server.room?, Server.setRoom, Server.setSocket]
      exact lookup_setFirst_self code _ _
  · intro hno
    unfold kickPlayer
    rw [hcode, hof]
    simp only []
    by_cases hg : sock.id ≠ room.host ∨ room.state.phase ≠ Phase.lobby
    · rw [if_pos hg]
    · rw [if_neg hg]
      have hg1 : sock.id = room.host ∧ room.state.phase = Phase.lobby := by
        constructor
        · by_contra h; exact hg (Or.inl h)
        · by_contra h; exact hg (Or.inr h)
      cases hf : room.players.find? (fun q => q.name == playerName) with
      | none => rfl
      | some q =>
        simp only []
        by_cases hq : q.id = room.host
        · rw [if_pos hq]
        · exfalso
          exact hno ⟨hg1.1, hg1.2, q, List.mem_of_find?_eq_some hf,
            by simpa using List.find?_some hf, hq⟩

/-- Witness for C26: the host of the lobby kicks Cara; Ann, Bob and Dee remain in that
order. -/
theorem kickPlayer_spec_witness :
    (kickPlayer (serverOf roomLobby4) socketLobbyHost "Cara").1.room? "ABCDEF" =
      some { roomLobby4 with players := [⟨"h", "Ann", false, false⟩,
        ⟨"s1", "Bob", false, false⟩, ⟨"s3", "Dee", false, false⟩] } :=
  (kickPlayer_spec (serverOf roomLobby4) socketLobbyHost "ABCDEF" roomLobby4 "Cara"
    (by decide) (by decide) (by decide)).1 ⟨"s2", "Cara", false, false⟩ (by decide)
    (by decide) (by decide) (by decide) (by decide)

/-! ## Theorems: the results broadcast of an elimination -/

theorem tallyVotes_clean_eq (room : Room) (p : Player) (m : Nat)
    (hpm : (p.name, JsNum.num m) ∈ rankedResults room)
    (hpos : 0 < m)
    (huniq : ∀ r ∈ getActivePlayersInRoom room, r.name ≠ p.name → ∀ c,
      (r.name, JsNum.num c) ∈ rankedResults room → c < m) :
    tallyVotes room = some (eliminatePlayer (withPhase room Phase.elimination) p.name) := by
  have hname_of : ∀ name c, (name, JsNum.num c) ∈ rankedResults room → m ≤ c →
      name = p.name := by
    intro name c hc hmc
    by_contra hne
    obtain ⟨r, hr, hrn⟩ := rankedResults_active room name c hc
    have := huniq r hr (by rw [hrn]; exact hne) c (by rw [hrn]; exact hc)
    omega
  have hmax : ∀ r ∈ getActivePlayersInRoom room, ∀ c,
      (r.name, JsNum.num c) ∈ rankedResults room → c ≤ m := by
    intro r hr c hc
    by_cases hrp : r.name = p.name
    · rw [hrp] at hc
      have := rankedResults_count_unique room _ _ _ hc hpm
      simp only [JsNum.num.injEq] at this
      omega
    · exact Nat.le_of_lt (huniq r hr hrp c hc)
  obtain ⟨top, rest, hr, htop⟩ := rankedResults_top_active room p.name m hpm hmax
  have htopname : top.1 = p.name := by
    apply hname_of top.1 m _ (le_refl _)
    rw [← htop, hr]
    exact List.mem_cons_self _ _
  have hlen : ¬ 1 < ((rankedResults room).filter
      (fun e => jsStrictEq e.2 (JsNum.num m))).length := by
    have hnd : ((rankedResults room).filter
        (fun e => jsStrictEq e.2 (JsNum.num m))).Nodup :=
      ((rankedResults_keys_nodup room).of_map _).filter _
    have := length_le_one_of_all_eq _ (p.name, JsNum.num m) hnd (by
      intro e he
      obtain ⟨he1, he2⟩ := List.mem_filter.mp he
      obtain ⟨en, ec⟩ := e
      cases ec with
      | nan => simp [jsStrictEq] at he2
      | num x =>
        have hx : x = m := by simpa [jsStrictEq] using he2
        subst hx
        rw [hname_of en x he1 (le_refl _)])
    omega
  have hne : jsStrictEq (JsNum.num m) (JsNum.num 0) = false := by
    simp [jsStrictEq]; omega
  unfold tallyVotes
  simp only []
  rw [hr] at hlen ⊢
  simp only [htop, hne, Bool.false_eq_true, if_false, gt_iff_lt, hlen, htopname]

theorem find?_name_eq (players : List Player) (p : Player) (hp : p ∈ players)
    (hnames : (players.map (fun q => q.name)).Nodup) :
    players.find? (fun q => q.name == p.name) = some p := by
  cases hf : players.find? (fun q => q.name == p.name) with
  | none =>
    have := List.find?_eq_none.mp hf p hp
    simp at this
  | some q =>
    have hq := List.mem_of_find?_eq_some hf
    have hqn : q.name = p.name := by simpa using List.find?_some hf
    rw [List.inj_on_of_nodup_map hnames hq hp hqn]

theorem eliminatePlayer_emits (room : Room) (p : Player) (hp : p ∈ room.players)
    (hnames : (room.players.map (fun q => q.name)).Nodup) :
    (eliminatePlayer room p.name).emits =
      [⟨Target.room room.code,
        Event.voteResults (rankedResults (eliminatePlayer room p.name).room) (some p.name)
          (some (if p.isImposter then Role.imposter else Role.normal)) false none
          (some (checkWinCondition (eliminatePlayer room p.name).room))⟩] := by
  rw [eliminatePlayer_room room p hp]
  unfold eliminatePlayer
  rw [find?_name_eq room.players p hp hnames]
  simp only []
  cases checkWinCondition { room with players := markEliminated room.players p.name } <;> rfl

theorem no_active_named_eliminated (room : Room) (p : Player) (hp : p ∈ room.players)
    (hnames : (room.players.map (fun q => q.name)).Nodup) :
    ∀ q ∈ getActivePlayersInRoom (eliminatePlayer room p.name).room, q.name ≠ p.name := by
  rw [eliminatePlayer_room room p hp]
  intro q hq hqn
  unfold getActivePlayersInRoom at hq
  obtain ⟨hmem, hact⟩ := List.mem_filter.mp hq
  simp only [] at hmem
  rw [markEliminated_eq room.players p hp hnames] at hmem
  obtain ⟨r, hr, hrq⟩ := List.mem_map.mp hmem
  by_cases hrp : r = p
  · rw [if_pos hrp] at hrq
    subst hrq
    simp at hact
  · rw [if_neg hrp] at hrq
    subst hrq
    exact hrp (List.inj_on_of_nodup_map hnames hr hp hqn)

/-- The numeric entries of the results of an elimination. In a room whose player names
are pairwise distinct, the vote-results broadcast of `eliminatePlayer` for the player `p`
carries the ranking recomputed for the room after the elimination: every entry with a
number belongs to a player who is still active, and no entry with a number is listed for
`p`. So when the tally eliminates `p` (the only active player with the maximum count
`m > 0`), the broadcast list differs from the ranking `tallyVotes` computed. Entries
without a number are not covered. -/
theorem eliminatePlayer_results_omit_eliminated (room : Room) (p : Player)
    (hnames : (room.players.map (fun q => q.name)).Nodup) (hp : p ∈ room.players) :
    (eliminatePlayer room p.name).emits =
      [⟨Target.room room.code,
        Event.voteResults (rankedResults (eliminatePlayer room p.name).room) (some p.name)
          (some (if p.isImposter then Role.imposter else Role.normal)) false none
          (some (checkWinCondition (eliminatePlayer room p.name).room))⟩] ∧
    (∀ name c, (name, JsNum.num c) ∈ rankedResults (eliminatePlayer room p.name).room →
      ∃ q ∈ getActivePlayersInRoom (eliminatePlayer room p.name).room, q.name = name) ∧
    (∀ c, (p.name, JsNum.num c) ∉ rankedResults (eliminatePlayer room p.name).room) ∧
    (∀ m, 0 < m → (p.name, JsNum.num m) ∈ rankedResults room →
      (∀ r ∈ getActivePlayersInRoom room, r.name ≠ p.name → ∀ c,
        (r.name, JsNum.num c) ∈ rankedResults room → c < m) →
      ∃ eff, tallyVotes room = some eff ∧
        eff.emits = [⟨Target.room room.code,
          Event.voteResults (rankedResults eff.room) (some p.name)
            (some (if p.isImposter then Role.imposter else Role.normal)) false none
            (some (checkWinCondition eff.room))⟩] ∧
        (∀ c, (p.name, JsNum.num c) ∉ rankedResults eff.room) ∧
        rankedResults eff.room ≠ rankedResults room) := by
  have hnone : ∀ room1 : Room, (room1.players.map (fun q => q.name)).Nodup →
      p ∈ room1.players →
      ∀ c, (p.name, JsNum.num c) ∉ rankedResults (eliminatePlayer room1 p.name).room := by
    intro room1 hn1 hp1 c hc
    obtain ⟨q, hq, hqn⟩ := rankedResults_active _ _ _ hc
    exact no_active_named_eliminated room1 p hp1 hn1 q hq hqn
  refine ⟨eliminatePlayer_emits room p hp hnames,
    fun name c hc => rankedResults_active _ name c hc, hnone room hnames hp, ?_⟩
  intro m hpos hpm huniq
  have hpl1 : p ∈ (withPhase room Phase.elimination).players := hp
  have hnames1 : ((withPhase room Phase.elimination).players.map (fun q => q.name)).Nodup :=
    hnames
  refine ⟨_, tallyVotes_clean_eq room p m hpm hpos huniq,
    eliminatePlayer_emits _ p hpl1 hnames1, hnone _ hnames1 hpl1, ?_⟩
  intro heq
  apply hnone _ hnames1 hpl1 m
  rw [heq]
  exact hpm

/-- Example: in the room where Bob has three votes and Cy one, the tally eliminates Bob
and the broadcast that follows lists no number for Bob: it is not the ranking of the
tally. -/
theorem eliminatePlayer_results_omit_eliminated_witness :
    ∃ eff, tallyVotes roomJoinOrder = some eff ∧
      eff.emits = [⟨Target.room "ABCDEF",
        Event.voteResults (rankedResults eff.room) (some "Bob") (some Role.imposter) false none
          (some (checkWinCondition eff.room))⟩] ∧
      (∀ c, (("Bob", JsNum.num c) : String × JsNum) ∉ rankedResults eff.room) ∧
      rankedResults eff.room ≠ rankedResults roomJoinOrder :=
  (eliminatePlayer_results_omit_eliminated roomJoinOrder ⟨"s3", "Bob", true, false⟩
    (by decide) (by decide)).2.2.2 3 (by decide) (by decide)
    (by
      intro r _ hr c hc
      have hR : rankedResults roomJoinOrder = [("Bob", JsNum.num 3), ("Cy", JsNum.num 1),
          ("Zed", JsNum.num 0), ("Amy", JsNum.num 0)] := by decide
      simp only [hR, List.mem_cons, Prod.mk.injEq, JsNum.num.injEq, List.mem_nil_iff,
        or_false] at hc
      rcases hc with ⟨h1, _⟩ | ⟨_, h⟩ | ⟨_, h⟩ | ⟨_, h⟩
      · exact absurd h1 hr
      · omega
      · omega
      · omega)

/-- C30: the results of an elimination can list the eliminated player. After the run
`eventsConstructorVotes` the active players are `constructor`, Bob and Cy, and the third
vote, Cy's for `constructor`, makes the tally eliminate `constructor` with two votes. The
vote-results broadcast of `eliminatePlayer` that follows names `constructor` as
eliminated and lists three entries: Bob, Cy and `constructor`, the last one without a
number. -/
theorem eliminatePlayer_lists_eliminated_name :
    ((runFromStart eventsConstructorVotes).step asciiLower asciiUpper
        (ServerEvent.client "d" (ClientEvent.submitVote "constructor"))).2 =
      [⟨Target.room "ABCDEF", Event.voteUpdate 3 3⟩,
       ⟨Target.room "ABCDEF",
        Event.voteResults [("Bob", JsNum.num 1), ("Cy", JsNum.num 0), ("constructor", JsNum.nan)]
          (some "constructor") (some Role.normal) false none
          (some (some Winner.imposters))⟩] ∧
    (roomAfter eventsConstructorVotes).map (fun room => room.players) =
      some [⟨"a", "Ann", false, false⟩, ⟨"b", "constructor", false, false⟩,
        ⟨"c", "Bob", true, false⟩, ⟨"d", "Cy", false, false⟩] ∧
    (roomAfter (eventsConstructorVotes ++
        [ServerEvent.client "d" (ClientEvent.submitVote "constructor")])).map
        (fun room => room.players) =
      some [⟨"a", "Ann", false, false⟩, ⟨"b", "constructor", false, true⟩,
        ⟨"c", "Bob", true, false⟩, ⟨"d", "Cy", false, false⟩] := by
  decide

/-! ## Lemmas: what one handler does to names, settings and votes -/

theorem roomStep_of_sublist (lower : String → String) (room room1 : Room)
    (hn : (room1.players.map (fun p => p.name)).Sublist (room.players.map (fun p => p.name)))
    (hs : room1.settings = room.settings)
    (hv : room1.state.votes = room.state.votes ∨ room1.state.votes = ⟨[]⟩) :
    RoomStep lower room room1 :=
  ⟨Or.inl hn, Or.inl hs, hv.elim Or.inl (fun h => Or.inr (Or.inl h))⟩

theorem roomStep_quiet (lower : String → String) (room room1 : Room)
    (hn : room1.players.map (fun p => p.name) = room.players.map (fun p => p.name))
    (hs : room1.settings = room.settings)
    (hv : room1.state.votes = room.state.votes ∨ room1.state.votes = ⟨[]⟩) :
    RoomStep lower room room1 :=
  roomStep_of_sublist lower room room1 (by rw [hn]) hs hv

theorem names_of_who (l l1 : List Player) (h : l1.map Player.who = l.map Player.who) :
    l1.map (fun p => p.name) = l.map (fun p => p.name) := by
  have := congrArg (List.map (fun w : SocketId × String × Bool => w.2.1)) h
  simpa [List.map_map, Function.comp, Player.who] using this

theorem assignRoles_names (host : SocketId) (S : List SocketId) (players : List Player) :
    (assignRoles host S players).map (fun p => p.name) = players.map (fun p => p.name) := by
  unfold assignRoles
  rw [List.map_map]
  apply List.map_congr_left
  intro p _
  simp only [Function.comp]
  split_ifs <;> rfl

theorem eliminatePlayer_settings (room : Room) (name : String) :
    (eliminatePlayer room name).room.settings = room.settings := by
  unfold eliminatePlayer
  cases room.players.find? (fun p => p.name == name) with
  | none => rfl
  | some player =>
    simp only []
    cases checkWinCondition { room with players := markEliminated room.players name } <;> rfl

theorem eliminatePlayer_step (lower : String → String) (room : Room) (name : String) :
    RoomStep lower room (eliminatePlayer room name).room := by
  obtain ⟨_, h2, h3⟩ := eliminatePlayer_frame room name
  exact roomStep_quiet lower _ _ (names_of_who _ _ h3) (eliminatePlayer_settings room name)
    (Or.inl (by rw [h2]))

theorem tallyVotes_keeps (room : Room) (eff : Effects) (h : tallyVotes room = some eff) :
    eff.room.settings = room.settings ∧ eff.room.state.votes = room.state.votes := by
  unfold tallyVotes at h
  simp only [] at h
  cases hr : rankedResults room with
  | nil => rw [hr] at h; simp at h
  | cons top rest =>
    rw [hr] at h
    simp only [] at h
    split_ifs at h
    · simp only [Option.some.injEq] at h
      subst h
      exact ⟨rfl, rfl⟩
    · simp only [Option.some.injEq] at h
      subst h
      exact ⟨rfl, rfl⟩
    · simp only [Option.some.injEq] at h
      subst h
      obtain ⟨_, h2, _⟩ := eliminatePlayer_frame (withPhase room Phase.elimination) top.1
      exact ⟨eliminatePlayer_settings _ _, by rw [h2]; rfl⟩

theorem tallyVotes_names (room : Room) (eff : Effects) (h : tallyVotes room = some eff) :
    eff.room.players.map (fun p => p.name) = room.players.map (fun p => p.name) :=
  names_of_who _ _ (tallyVotes_frame room eff h).2.1

theorem nextRound_step (lower : String → String) (room : Room) :
    RoomStep lower room (nextRound room).1 := by
  unfold nextRound
  simp only []
  split_ifs <;> exact roomStep_quiet lower _ _ rfl rfl (Or.inr rfl)

theorem emitGameOver_step (lower : String → String) (room : Room) (w : Winner) :
    RoomStep lower room (emitGameOver room w).1 :=
  roomStep_quiet lower _ _ rfl rfl (Or.inl rfl)

theorem updateSettings_step (lower : String → String) (room : Room) (sid : SocketId)
    (t i m h : Option ℚ) (r : Room) (hr : (updateSettings room sid t i m h).room? = some r) :
    RoomStep lower room r := by
  unfold updateSettings at hr
  split_ifs at hr
  · simp [HandlerResult.room?] at hr
  · simp only [HandlerResult.room?, Option.some.injEq] at hr
    subst hr
    exact ⟨Or.inl (List.Sublist.refl _), Or.inr ⟨t, i, m, h, rfl⟩, Or.inl rfl⟩

theorem startGame_step (lower : String → String) (draw : Draws) (room : Room)
    (sid : SocketId) (nw iw : String) (r : Room)
    (hr : (startGame lower draw room sid nw iw).room? = some r) : RoomStep lower room r := by
  unfold startGame at hr
  simp only [] at hr
  split_ifs at hr
  · simp [HandlerResult.room?] at hr
  · simp [HandlerResult.room?] at hr
  · simp [HandlerResult.room?] at hr
  · simp only [HandlerResult.room?, Option.some.injEq] at hr
    subst hr
    exact roomStep_quiet lower _ _ (assignRoles_names _ _ _) rfl (Or.inr rfl)

theorem wordSeen_step (lower : String → String) (room : Room) (sid : SocketId) (r : Room)
    (hr : (wordSeen room sid).room? = some r) : RoomStep lower room r := by
  unfold wordSeen at hr
  simp only [] at hr
  split_ifs at hr <;>
    first
    | (simp [HandlerResult.room?] at hr; done)
    | (simp only [HandlerResult.room?, Option.some.injEq] at hr
       subst hr
       exact roomStep_quiet lower _ _ rfl rfl (Or.inl rfl))

theorem hintGiven_step (lower : String → String) (room : Room) (sid : SocketId) (r : Room)
    (hr : (hintGiven room sid).room? = some r) : RoomStep lower room r := by
  unfold hintGiven at hr
  split_ifs at hr
  · simp [HandlerResult.room?] at hr
  · simp [HandlerResult.room?] at hr
  · cases hf : room.players.find? (fun p => p.id == sid) with
    | none => rw [hf] at hr; simp [HandlerResult.room?] at hr
    | some player =>
      rw [hf] at hr
      simp only [] at hr
      split_ifs at hr <;>
        first
        | (simp [HandlerResult.room?] at hr; done)
        | (simp only [HandlerResult.room?, Option.some.injEq] at hr
           subst hr
           exact roomStep_quiet lower _ _ rfl rfl (Or.inl rfl))

theorem startDiscussion_step (lower : String → String) (room : Room) (sid : SocketId)
    (r : Room) (hr : (startDiscussion room sid).room? = some r) : RoomStep lower room r := by
  unfold startDiscussion at hr
  split_ifs at hr
  · simp [HandlerResult.room?] at hr
  · simp only [HandlerResult.room?, Option.some.injEq] at hr
    subst hr
    exact roomStep_quiet lower _ _ rfl rfl (Or.inl rfl)

theorem startVoting_step (lower : String → String) (room : Room) (sid : SocketId)
    (r : Room) (hr : (startVoting room sid).room? = some r) : RoomStep lower room r := by
  unfold startVoting at hr
  split_ifs at hr
  · simp [HandlerResult.room?] at hr
  · simp only [HandlerResult.room?, Option.some.injEq] at hr
    subst hr
    exact roomStep_quiet lower _ _ rfl rfl (Or.inr rfl)

theorem playAgain_step (lower : String → String) (room : Room) (sid : SocketId)
    (r : Room) (hr : (playAgain room sid).room? = some r) : RoomStep lower room r := by
  unfold playAgain at hr
  split_ifs at hr
  · simp [HandlerResult.room?] at hr
  · simp only [HandlerResult.room?, Option.some.injEq] at hr
    subst hr
    exact roomStep_quiet lower _ _ (by simp [List.map_map, Function.comp]) rfl (Or.inr rfl)

theorem submitVote_step (lower : String → String) (room : Room) (sid : SocketId)
    (votedFor : String) :
    ∀ eff, (submitVote room sid votedFor).effects? = some eff →
      RoomStep lower room eff.room := by
  unfold submitVote
  by_cases h1 : room.state.phase ≠ Phase.voting
  · rw [if_pos h1]; intro eff h; simp [Outcome.effects?] at h
  rw [if_neg h1]
  by_cases h2 : sid = room.host
  · rw [if_pos h2]; intro eff h; simp [Outcome.effects?] at h
  rw [if_neg h2]
  cases hf : room.players.find? (fun p => p.id == sid) with
  | none => intro eff h; simp [Outcome.effects?] at h
  | some player =>
    simp only []
    by_cases h3 : player.eliminated = true
    · rw [if_pos h3]; intro eff h; simp [Outcome.effects?] at h
    rw [if_neg h3]
    by_cases h4 : votedFor = player.name
    · rw [if_pos h4]; intro eff h; simp [Outcome.effects?] at h
    rw [if_neg h4]
    have hroom1 : RoomStep lower room { room with state := { room.state with
        votes := room.state.votes.set player.name votedFor } } :=
      ⟨Or.inl (List.Sublist.refl _), Or.inl rfl,
        Or.inr (Or.inr ⟨player.name, votedFor, h4, rfl⟩)⟩
    split_ifs
    · cases ht : tallyVotes { room with state := { room.state with
          votes := room.state.votes.set player.name votedFor } } with
      | none =>
        intro eff h
        simp only [Outcome.effects?, Option.some.injEq] at h
        subst h
        exact hroom1
      | some eff1 =>
        intro eff h
        simp only [Outcome.effects?, Option.some.injEq] at h
        subst h
        obtain ⟨hs, hv⟩ := tallyVotes_keeps _ _ ht
        have hn := tallyVotes_names _ _ ht
        exact ⟨Or.inl (by rw [hn]), Or.inl hs,
          Or.inr (Or.inr ⟨player.name, votedFor, h4, hv⟩)⟩
    · intro eff h
      simp only [Outcome.effects?, Option.some.injEq] at h
      subst h
      exact hroom1

theorem tieResolution_step (lower : String → String) (draw : Draws) (room : Room)
    (sid : SocketId) (method : String) :
    ∀ eff, (tieResolution draw room sid method).effects? = some eff →
      RoomStep lower room eff.room := by
  unfold tieResolution
  split_ifs
  · intro eff h; simp [Outcome.effects?] at h
  · intro eff h
    simp only [Outcome.effects?, Option.some.injEq] at h
    subst h
    exact roomStep_quiet lower _ _ rfl rfl (Or.inr rfl)
  · cases hi : room.state.tiedPlayers[(draw (room.state.tiedPlayers.length - 1)).val]? with
    | none =>
      intro eff h
      simp only [Outcome.effects?, Option.some.injEq] at h
      subst h
      exact roomStep_quiet lower _ _ rfl rfl (Or.inl rfl)
    | some name =>
      intro eff h
      simp only [Outcome.effects?, Option.some.injEq] at h
      subst h
      exact eliminatePlayer_step lower room name
  · cases hw : checkWinCondition room with
    | none =>
      intro eff h
      simp only [Outcome.effects?, Option.some.injEq] at h
      subst h
      exact nextRound_step lower room
    | some w =>
      intro eff h
      simp only [Outcome.effects?, Option.some.injEq] at h
      subst h
      exact emitGameOver_step lower room w
  · intro eff h
    simp only [Outcome.effects?, Option.some.injEq] at h
    subst h
    exact roomStep_quiet lower _ _ rfl rfl (Or.inl rfl)

theorem leaveRoom_names (room : Room) (sock : Socket) :
    ((leaveRoom room sock).players.map (fun p => p.name)).Sublist
      (room.players.map (fun p => p.name)) :=
  (List.filter_sublist _).map _

theorem disconnectRoom_step (lower : String → String) (room : Room) (sock : Socket) :
    ∀ r, (disconnectRoom room sock).room? = some r → RoomStep lower room r := by
  have hleave : ∀ r1 : Room,
      r1.players.map (fun p => p.name) = (leaveRoom room sock).players.map (fun p => p.name) →
      r1.settings = room.settings → r1.state.votes = room.state.votes →
      RoomStep lower room r1 := by
    intro r1 h1 h2 h3
    exact roomStep_of_sublist lower room r1 (by rw [h1]; exact leaveRoom_names room sock) h2
      (Or.inl h3)
  have hsome : ∀ eff : Effects, RoomStep lower room eff.room →
      ∀ r, (DisconnectResult.done eff).room? = some r → RoomStep lower room r := by
    intro eff he r h
    simp only [DisconnectResult.room?, Option.some.injEq] at h
    subst h
    exact he
  unfold disconnectRoom
  by_cases h0 : (room.players.filter (fun p => p.id != sock.id)).length = 0
  · rw [if_pos h0]; intro r h; simp [DisconnectResult.room?] at h
  rw [if_neg h0]
  simp only []
  by_cases h1 : (leaveRoom room sock).state.phase ≠ Phase.lobby
  · rw [if_pos h1]
    cases hw : checkWinCondition (leaveRoom room sock) with
    | some w => exact hsome _ (hleave _ rfl rfl rfl)
    | none =>
      simp only []
      by_cases h2 : (leaveRoom room sock).state.phase = Phase.voting
      · rw [if_pos h2]
        by_cases h3 : ((leaveRoom room sock).state.votes.keys.filter
            (fun v => (getActivePlayersInRoom (leaveRoom room sock)).any
              (fun p => p.name == v))).length ≥ (getActivePlayersInRoom (leaveRoom room sock)).length
        · rw [if_pos h3]
          cases ht : tallyVotes (leaveRoom room sock) with
          | none =>
            intro r h
            simp only [DisconnectResult.room?, Option.some.injEq] at h
            subst h
            exact hleave _ rfl rfl rfl
          | some eff =>
            obtain ⟨hs, hv⟩ := tallyVotes_keeps _ _ ht
            exact hsome ⟨eff.room, _, _⟩ (hleave eff.room (tallyVotes_names _ eff ht) hs hv)
        · rw [if_neg h3]
          exact hsome _ (hleave _ rfl rfl rfl)
      · rw [if_neg h2]
        exact hsome _ (hleave _ rfl rfl rfl)
  · rw [if_neg h1]
    exact hsome _ (hleave _ rfl rfl rfl)

/-! ## Lemmas: what one event does to the registry -/

theorem next_setRoom (lower : String → String) (s : Server) (code : String)
    (room room1 : Room) (hmem : (code, room) ∈ s.rooms) (hstep : RoomStep lower room room1) :
    ∀ e ∈ (s.setRoom code room1).rooms, s.Next lower e := by
  intro e he
  rcases mem_setFirst code room1 s.rooms e he with h | h
  · subst h
    exact Or.inr (Or.inr ⟨room, hmem, hstep⟩)
  · exact Or.inl h

theorem roomOf_mem (s : Server) (sock : Socket) (code : String) (room : Room)
    (hcode : sock.roomCode = some code) (hof : s.roomOf sock = some room) :
    (code, room) ∈ s.rooms := by
  unfold Server.roomOf at hof
  rw [hcode] at hof
  exact lookup_mem code room s.rooms hof

theorem applyResult_rooms (lower : String → String) (s : Server) (code : String)
    (room : Room) (res : HandlerResult) (hmem : (code, room) ∈ s.rooms)
    (h : ∀ r, res.room? = some r → RoomStep lower room r) :
    ∀ e ∈ (s.applyResult code res).1.rooms, s.Next lower e := by
  cases res with
  | ignored => exact fun e he => Or.inl he
  | rejected _ => exact fun e he => Or.inl he
  | ok r emits => exact next_setRoom lower s code room r hmem (h r rfl)

theorem applyOutcome_rooms (lower : String → String) (s : Server) (code : String)
    (room : Room) (o : Outcome) (hmem : (code, room) ∈ s.rooms)
    (h : ∀ eff, o.effects? = some eff → RoomStep lower room eff.room) :
    ∀ e ∈ (s.applyOutcome code o).1.rooms, s.Next lower e := by
  cases o with
  | ignored => exact fun e he => Or.inl he
  | done eff => exact next_setRoom lower s code room eff.room hmem (h eff rfl)
  | threw eff => exact next_setRoom lower s code room eff.room hmem (h eff rfl)

theorem createRoom_rooms (lower : String → String) (s : Server) (sock : Socket)
    (playerName code : String) (hcode : isRoomCode code = true) :
    ∀ e ∈ (createRoom s sock playerName code).1.rooms, s.Next lower e := by
  unfold createRoom
  split_ifs with h
  · exact fun e he => Or.inl he
  · intro e he
    rcases mem_setFirst code _ s.rooms e he with h1 | h1
    · subst h1
      exact Or.inr (Or.inl ⟨⟨sock.id, playerName, fun hn => h (Or.inr hn), rfl, rfl, rfl⟩,
        hcode⟩)
    · exact Or.inl h1

theorem joinRoom_rooms (lower upper : String → String) (s : Server) (sock : Socket)
    (roomCode playerName : String) :
    ∀ e ∈ (joinRoom lower upper s sock roomCode playerName).1.rooms, s.Next lower e := by
  unfold joinRoom
  by_cases h1 : playerName = "" ∨ jsTrim playerName = ""
  · rw [if_pos h1]; exact fun e he => Or.inl he
  rw [if_neg h1]
  by_cases h2 : roomCode = "" ∨ jsTrim roomCode = ""
  · rw [if_pos h2]; exact fun e he => Or.inl he
  rw [if_neg h2]
  simp only []
  cases hr : s.room? (upper (jsTrim roomCode)) with
  | none => exact fun e he => Or.inl he
  | some room =>
    simp only []
    by_cases h3 : room.state.phase ≠ Phase.lobby
    · rw [if_pos h3]; exact fun e he => Or.inl he
    rw [if_neg h3]
    by_cases h4 : room.players.any (fun p => lower p.name == lower (jsTrim playerName)) = true
    · rw [if_pos h4]; exact fun e he => Or.inl he
    rw [if_neg h4]
    by_cases h5 : room.players.length ≥ 20
    · rw [if_pos h5]; exact fun e he => Or.inl he
    rw [if_neg h5]
    apply next_setRoom lower s _ room _ (lookup_mem _ _ _ hr)
    refine ⟨Or.inr ⟨sock.id, playerName, fun hn => h1 (Or.inr hn), ?_, by omega, rfl⟩,
      Or.inl rfl, Or.inl rfl⟩
    intro p hp hpn
    apply h4
    rw [List.any_eq_true]
    exact ⟨p, hp, by simpa using hpn⟩

theorem kickPlayer_rooms (lower : String → String) (s : Server) (sock : Socket)
    (playerName : String) :
    ∀ e ∈ (kickPlayer s sock playerName).1.rooms, s.Next lower e := by
  unfold kickPlayer
  split
  · next code room hc ho =>
    split_ifs
    · exact fun e he => Or.inl he
    · split
      · exact fun e he => Or.inl he
      · split_ifs
        · exact fun e he => Or.inl he
        · have hstep : RoomStep lower room { room with
              players := room.players.filter (fun p => p.name != playerName) } :=
            roomStep_of_sublist lower _ _ ((List.filter_sublist _).map _) rfl (Or.inl rfl)
          simp only []
          split
          · exact next_setRoom lower s code room _ (roomOf_mem s sock code room hc ho) hstep
          · exact next_setRoom lower s code room _ (roomOf_mem s sock code room hc ho) hstep
  · exact fun e he => Or.inl he

theorem disconnect_rooms (lower : String → String) (s : Server) (sock : Socket) :
    ∀ e ∈ (disconnect s sock).1.rooms, s.Next lower e := by
  unfold disconnect
  split
  · next code room hc ho =>
    have hmem := roomOf_mem s sock code room hc ho
    cases hd : disconnectRoom room sock with
    | deleted emits =>
      intro e he
      exact Or.inl (List.mem_of_mem_filter he)
    | done eff =>
      exact next_setRoom lower s code room eff.room hmem
        (disconnectRoom_step lower room sock eff.room (by rw [hd]; rfl))
    | threw eff =>
      exact next_setRoom lower s code room eff.room hmem
        (disconnectRoom_step lower room sock eff.room (by rw [hd]; rfl))
  · exact fun e he => Or.inl he

theorem voiceJoin_rooms (lower : String → String) (s : Server) (sock : Socket) :
    ∀ e ∈ (voiceJoin s sock).1.rooms, s.Next lower e := by
  unfold voiceJoin
  split
  · next code room hc ho =>
    exact next_setRoom lower s code room _ (roomOf_mem s sock code room hc ho)
      (roomStep_quiet lower _ _ rfl rfl (Or.inl rfl))
  · exact fun e he => Or.inl he

theorem voiceLeave_rooms (lower : String → String) (s : Server) (sock : Socket) :
    ∀ e ∈ (voiceLeave s sock).1.rooms, s.Next lower e := by
  unfold voiceLeave
  split
  · next code room hc ho =>
    exact next_setRoom lower s code room _ (roomOf_mem s sock code room hc ho)
      (roomStep_quiet lower _ _ rfl rfl (Or.inl rfl))
  · exact fun e he => Or.inl he

theorem timerStep_rooms (lower : String → String) (s : Server) (index : Nat) :
    ∀ e ∈ (s.timerStep index).1.rooms, s.Next lower e := by
  unfold Server.timerStep
  cases ht : s.timers[index]? with
  | none => exact fun e he => Or.inl he
  | some ca =>
    obtain ⟨code, action⟩ := ca
    simp only []
    cases hr : Server.room? { s with timers := s.timers.eraseIdx index } code with
    | none => exact fun e he => Or.inl he
    | some room =>
      have hmem : (code, room) ∈ s.rooms := lookup_mem code room s.rooms hr
      cases action with
      | emitGameOver result =>
        exact next_setRoom lower s code room _ hmem (emitGameOver_step lower room result)
      | nextRound =>
        exact next_setRoom lower s code room _ hmem (nextRound_step lower room)

theorem clientStep_rooms (lower upper : String → String) (s : Server) (sock : Socket)
    (event : ClientEvent) :
    ∀ e ∈ (s.clientStep lower upper sock event).1.rooms, s.Next lower e := by
  cases event with
  | createRoom playerName code =>
    simp only [Server.clientStep]
    split_ifs with hc
    · exact createRoom_rooms lower s sock playerName code hc.1
    · exact fun e he => Or.inl he
  | joinRoom roomCode playerName => exact joinRoom_rooms lower upper s sock roomCode playerName
  | kickPlayer playerName => exact kickPlayer_rooms lower s sock playerName
  | disconnect => exact disconnect_rooms lower s sock
  | voiceJoin => exact voiceJoin_rooms lower s sock
  | voiceLeave => exact voiceLeave_rooms lower s sock
  | updateSettings t i m h =>
    simp only [Server.clientStep]
    split
    · next code room hc ho =>
      exact applyResult_rooms lower s code room _ (roomOf_mem s sock code room hc ho)
        (updateSettings_step lower room sock.id t i m h)
    · exact fun e he => Or.inl he
  | startGame nw iw draw =>
    simp only [Server.clientStep]
    split
    · next code room hc ho =>
      exact applyResult_rooms lower s code room _ (roomOf_mem s sock code room hc ho)
        (startGame_step lower draw room sock.id nw iw)
    · exact fun e he => Or.inl he
  | wordSeen =>
    simp only [Server.clientStep]
    split
    · next code room hc ho =>
      exact applyResult_rooms lower s code room _ (roomOf_mem s sock code room hc ho)
        (wordSeen_step lower room sock.id)
    · exact fun e he => Or.inl he
  | hintGiven =>
    simp only [Server.clientStep]
    split
    · next code room hc ho =>
      exact applyResult_rooms lower s code room _ (roomOf_mem s sock code room hc ho)
        (hintGiven_step lower room sock.id)
    · exact fun e he => Or.inl he
  | startDiscussion =>
    simp only [Server.clientStep]
    split
    · next code room hc ho =>
      exact applyResult_rooms lower s code room _ (roomOf_mem s sock code room hc ho)
        (startDiscussion_step lower room sock.id)
    · exact fun e he => Or.inl he
  | startVoting =>
    simp only [Server.clientStep]
    split
    · next code room hc ho =>
      exact applyResult_rooms lower s code room _ (roomOf_mem s sock code room hc ho)
        (startVoting_step lower room sock.id)
    · exact fun e he => Or.inl he
  | submitVote votedFor =>
    simp only [Server.clientStep]
    split
    · next code room hc ho =>
      exact applyOutcome_rooms lower s code room _ (roomOf_mem s sock code room hc ho)
        (submitVote_step lower room sock.id votedFor)
    · exact fun e he => Or.inl he
  | tieResolution method draw =>
    simp only [Server.clientStep]
    split
    · next code room hc ho =>
      exact applyOutcome_rooms lower s code room _ (roomOf_mem s sock code room hc ho)
        (tieResolution_step lower draw room sock.id method)
    · exact fun e he => Or.inl he
  | playAgain =>
    simp only [Server.clientStep]
    split
    · next code room hc ho =>
      exact applyResult_rooms lower s code room _ (roomOf_mem s sock code room hc ho)
        (playAgain_step lower room sock.id)
    · exact fun e he => Or.inl he

theorem step_rooms (lower upper : String → String) (s : Server) (ev : ServerEvent) :
    ∀ e ∈ (s.step lower upper ev).1.rooms, s.Next lower e := by
  cases ev with
  | connect id =>
    simp only [Server.step]
    split_ifs <;> exact fun e he => Or.inl he
  | client id event =>
    simp only [Server.step]
    split_ifs
    · exact fun e he => Or.inl he
    · cases hs : s.socket? id with
      | none => exact fun e he => Or.inl he
      | some sock => exact clientStep_rooms lower upper s sock event
  | timer index =>
    simp only [Server.step]
    split_ifs
    · exact fun e he => Or.inl he
    · exact timerStep_rooms lower s index

/-! ## Lemmas: invariants of the registry -/

theorem step_invariant (lower upper : String → String) (P : Room → Prop)
    (hfresh : ∀ room, FreshRoom room → P room)
    (hstep : ∀ room room1, P room → RoomStep lower room room1 → P room1)
    (s : Server) (ev : ServerEvent) (hs : ∀ e ∈ s.rooms, P e.2) :
    ∀ e ∈ (s.step lower upper ev).1.rooms, P e.2 := by
  intro e he
  rcases step_rooms lower upper s ev e he with h | h | ⟨room, hmem, hr⟩
  · exact hs e h
  · exact hfresh e.2 h.1
  · exact hstep room e.2 (hs (e.1, room) hmem) hr

theorem run_invariant (lower upper : String → String) (P : Room → Prop)
    (hfresh : ∀ room, FreshRoom room → P room)
    (hstep : ∀ room room1, P room → RoomStep lower room room1 → P room1)
    (events : List ServerEvent) :
    ∀ s : Server, (∀ e ∈ s.rooms, P e.2) →
      ∀ e ∈ (Server.run lower upper s events).rooms, P e.2 := by
  induction events with
  | nil => exact fun s hs => hs
  | cons ev evs ih =>
    intro s hs
    exact ih _ (step_invariant lower upper P hfresh hstep s ev hs)

theorem codes_invariant (lower upper : String → String) (events : List ServerEvent) :
    ∀ s : Server, (∀ e ∈ s.rooms, isRoomCode e.1 = true) →
      ∀ e ∈ (Server.run lower upper s events).rooms, isRoomCode e.1 = true := by
  induction events with
  | nil => exact fun s hs => hs
  | cons ev evs ih =>
    intro s hs
    apply ih
    intro e he
    rcases step_rooms lower upper s ev e he with h | h | ⟨room, hmem, _⟩
    · exact hs e h
    · exact h.2
    · exact hs (e.1, room) hmem

theorem dropWhile_of_head {β : Type} (p : β → Bool) (x : β) (xs : List β)
    (h : (x :: xs).dropWhile p = x :: xs) : p x = false := by
  by_contra hp
  have hp1 : p x = true := by simpa using hp
  rw [List.dropWhile_cons_of_pos hp1] at h
  have hlen := congrArg List.length h
  have := (List.dropWhile_sublist p (l := xs)).length_le
  simp only [List.length_cons] at hlen
  omega

theorem jsTrim_idem (s : String) : jsTrim (jsTrim s) = jsTrim s := by
  have key : ∀ l : List Char,
      ((l.dropWhile isJsWhiteSpace).rdropWhile isJsWhiteSpace).dropWhile isJsWhiteSpace =
        (l.dropWhile isJsWhiteSpace).rdropWhile isJsWhiteSpace := by
    intro l
    have hpre := List.rdropWhile_prefix isJsWhiteSpace (l := l.dropWhile isJsWhiteSpace)
    cases ht : (l.dropWhile isJsWhiteSpace).rdropWhile isJsWhiteSpace with
    | nil => rfl
    | cons x xs =>
      rw [ht] at hpre
      obtain ⟨r, hr⟩ := hpre
      have hidem := List.dropWhile_idempotent (p := isJsWhiteSpace) (l := l)
      rw [← hr] at hidem
      have hx := dropWhile_of_head isJsWhiteSpace x (xs ++ r) hidem
      rw [List.dropWhile_cons_of_neg (by simp [hx])]
  unfold jsTrim
  congr 1
  have h2 := key s.data
  simp only [List.rdropWhile] at h2 ⊢
  rw [h2, List.reverse_reverse, List.dropWhile_idempotent]

theorem namesOk_fresh (lower : String → String) (room : Room) (h : FreshRoom room) :
    NamesOk lower (room.players.map (fun p => p.name)) := by
  obtain ⟨id, name, hne, hp, _, _⟩ := h
  rw [hp]
  refine ⟨by simp, ?_, by simp⟩
  intro n hn
  simp only [List.map_cons, List.map_nil, List.mem_singleton] at hn
  subst hn
  exact ⟨hne, jsTrim_idem name⟩

theorem namesOk_step (lower : String → String) (room room1 : Room)
    (h : NamesOk lower (room.players.map (fun p => p.name)))
    (hstep : RoomStep lower room room1) :
    NamesOk lower (room1.players.map (fun p => p.name)) := by
  obtain ⟨h1, h2, h3⟩ := h
  rcases hstep.1 with hsub | ⟨id, name, hne, huniq, hlen, hp⟩
  · exact ⟨h1.sublist hsub, fun n hn => h2 n (hsub.subset hn),
      le_trans hsub.length_le h3⟩
  · rw [hp, List.map_append]
    refine ⟨?_, ?_, ?_⟩
    · rw [List.pairwise_append]
      refine ⟨h1, by simp, ?_⟩
      intro a ha b hb
      simp only [List.map_cons, List.map_nil, List.mem_singleton] at hb
      subst hb
      obtain ⟨p, hp1, hp2⟩ := List.mem_map.mp ha
      rw [← hp2]
      exact huniq p hp1
    · intro n hn
      rcases List.mem_append.mp hn with hn | hn
      · exact h2 n hn
      · simp only [List.map_cons, List.map_nil, List.mem_singleton] at hn
        subst hn
        exact ⟨hne, jsTrim_idem name⟩
    · simp only [List.length_append, List.length_map, List.length_cons, List.length_nil]
      omega

theorem clampSetting_range (lo hi cur : ℚ) (x : Option ℚ) (hlh : lo ≤ hi)
    (hcur : lo ≤ cur ∧ cur ≤ hi) :
    lo ≤ clampSetting lo hi cur x ∧ clampSetting lo hi cur x ≤ hi := by
  cases x with
  | none => exact hcur
  | some v => exact ⟨le_min hlh (le_max_left _ _), min_le_left _ _⟩

theorem settings_fresh (room : Room) (h : FreshRoom room) : SettingsInRange room.settings := by
  obtain ⟨_, _, _, _, hs, _⟩ := h
  rw [hs]
  decide

theorem settings_step (lower : String → String) (room room1 : Room)
    (h : SettingsInRange room.settings) (hstep : RoomStep lower room room1) :
    SettingsInRange room1.settings := by
  rcases hstep.2.1 with hs | ⟨t, i, m, hh, hs⟩
  · rw [hs]; exact h
  · rw [hs]
    obtain ⟨h1, h2, h3, h4⟩ := h
    exact ⟨clampSetting_range 30 300 _ t (by decide) h1,
      clampSetting_range 0 5 _ i (by decide) h2,
      clampSetting_range 0 20 _ m (by decide) h3,
      clampSetting_range 0 120 _ hh (by decide) h4⟩

theorem noSelfVote_set (votes : JsObj String) (k v : String) (hv : v ≠ k)
    (h : NoSelfVote votes) : NoSelfVote (votes.set k v) := by
  unfold JsObj.set
  split_ifs
  · exact h
  · intro e he
    rcases mem_setFirst k v votes.own e he with h1 | h1
    · subst h1
      exact fun hk => hv hk.symm
    · exact h e h1

theorem noSelfVote_fresh (room : Room) (h : FreshRoom room) :
    NoSelfVote room.state.votes := by
  obtain ⟨_, _, _, _, _, hv⟩ := h
  rw [hv]
  intro e he
  simp at he

theorem noSelfVote_step (lower : String → String) (room room1 : Room)
    (h : NoSelfVote room.state.votes) (hstep : RoomStep lower room room1) :
    NoSelfVote room1.state.votes := by
  rcases hstep.2.2 with hv | hv | ⟨k, v, hkv, hv⟩
  · rw [hv]; exact h
  · rw [hv]
    intro e he
    simp at he
  · rw [hv]
    exact noSelfVote_set _ k v hkv h

/-! ## Theorems: join-room -/

theorem jsTrim_empty : jsTrim "" = "" := by decide

/-- C22: join-room. In a registry whose codes are six-character room codes: when the
name is non-empty after trimming, the trimmed upper-cased code names a live room, that
room is in phase lobby, no player of it has the same name ignoring case and it has fewer
than 20 players, the room afterwards is the same room with the player (sender's
connection, trimmed name, `isImposter = false`, `eliminated = false`) appended at the end
of the list; in every other case the whole server state is unchanged and the only
message is a room-error to the sender. -/
theorem joinRoom_spec (lower upper : String → String) (s : Server) (sock : Socket)
    (roomCode playerName : String)
    (hupper : upper "" = "")
    (hcodes : ∀ c room, s.room? c = some room → isRoomCode c = true) :
    (∀ room, jsTrim playerName ≠ "" → s.room? (upper (jsTrim roomCode)) = some room →
      room.state.phase = Phase.lobby →
      (∀ p ∈ room.players, lower p.name ≠ lower (jsTrim playerName)) →
      room.players.length < 20 →
      (joinRoom lower upper s sock roomCode playerName).1.room? (upper (jsTrim roomCode)) =
        some { room with
          players := room.players ++ [⟨sock.id, jsTrim playerName, false, false⟩] }) ∧
    (¬ (jsTrim playerName ≠ "" ∧ ∃ room, s.room? (upper (jsTrim roomCode)) = some room ∧
        room.state.phase = Phase.lobby ∧
        (∀ p ∈ room.players, lower p.name ≠ lower (jsTrim playerName)) ∧
        room.players.length < 20) →
      (joinRoom lower upper s sock roomCode playerName).1 = s ∧
      ∃ message, (joinRoom lower upper s sock roomCode playerName).2 =
        [⟨Target.socket sock.id, Event.roomError message⟩]) := by
  have hname : (playerName = "" ∨ jsTrim playerName = "") ↔ jsTrim playerName = "" := by
    constructor
    · rintro (h | h)
      · rw [h]; exact jsTrim_empty
      · exact h
    · exact Or.inr
  have hcode : (roomCode = "" ∨ jsTrim roomCode = "") ↔ jsTrim roomCode = "" := by
    constructor
    · rintro (h | h)
      · rw [h]; exact jsTrim_empty
      · exact h
    · exact Or.inr
  have hany : ∀ room : Room,
      room.players.any (fun p => lower p.name == lower (jsTrim playerName)) = true ↔
        ¬ ∀ p ∈ room.players, lower p.name ≠ lower (jsTrim playerName) := by
    intro room
    simp [List.any_eq_true]
  constructor
  · intro room hn hr hph huniq hlen
    have hc : ¬ jsTrim roomCode = "" := by
      intro hc
      rw [hc, hupper] at hr
      have := hcodes "" room hr
      revert this
      decide
    unfold joinRoom
    rw [if_neg (by rw [hname]; exact hn), if_neg (by rw [hcode]; exact hc)]
    simp only [hr]
    rw [if_neg (by simp [hph]), if_neg (by rw [hany]; simpa using huniq),
      if_neg (by omega)]
    simp only [Server.room?, Server.setRoom, Server.setSocket]
    exact lookup_setFirst_self _ _ _
  · intro hno
    unfold joinRoom
    by_cases h1 : playerName = "" ∨ jsTrim playerName = ""
    · rw [if_pos h1]; exact ⟨rfl, _, rfl⟩
    · rw [if_neg h1]
      by_cases h2 : roomCode = "" ∨ jsTrim roomCode = ""
      · rw [if_pos h2]; exact ⟨rfl, _, rfl⟩
      · rw [if_neg h2]
        simp only []
        cases hr : s.room? (upper (jsTrim roomCode)) with
        | none => exact ⟨rfl, _, rfl⟩
        | some room =>
          simp only []
          by_cases h3 : room.state.phase ≠ Phase.lobby
          · rw [if_pos h3]; exact ⟨rfl, _, rfl⟩
          · rw [if_neg h3]
            by_cases h4 : room.players.any
                (fun p => lower p.name == lower (jsTrim playerName)) = true
            · rw [if_pos h4]; exact ⟨rfl, _, rfl⟩
            · rw [if_neg h4]
              by_cases h5 : room.players.length ≥ 20
              · rw [if_pos h5]; exact ⟨rfl, _, rfl⟩
              · exfalso
                apply hno
                refine ⟨fun h => h1 (Or.inr h), room, hr, by simpa using h3, ?_, by omega⟩
                rw [hany] at h4
                simpa using h4

/-- Witness for C22: after the run that leaves Ann, Bob, Cara and Dee in the lobby, Eve
joins with the code typed in lower case and with blanks around her name. -/
theorem joinRoom_spec_witness :
    (joinRoom asciiLower asciiUpper (runFromStart eventsLobby4) socketNew " abcdef "
        " Eve ").1.room? "ABCDEF" =
      some { roomOfLobby4 with
        players := roomOfLobby4.players ++ [⟨"s9", "Eve", false, false⟩] } :=
  (joinRoom_spec asciiLower asciiUpper (runFromStart eventsLobby4) socketNew " abcdef " " Eve "
    (by decide)
    (fun c room h =>
      codes_invariant asciiLower asciiUpper eventsLobby4 Server.start
        (fun e he => absurd he (List.not_mem_nil e)) (c, room)
        (lookup_mem c room _ h))).1 roomOfLobby4 (by decide) (by decide) (by decide)
    (by decide) (by decide)

/-! ## Theorems: invariants of every reachable room -/

/-- C21: names in a room. After every run of events from start-up, in every room of the
registry no two players have names that are equal ignoring case, every stored name is
non-empty and trimmed, and there are at most 20 players; and every single event
(create-room, join-room, kick-player, disconnect, start-game, play-again and all
others) preserves this. -/
theorem names_invariant (lower upper : String → String) :
    (∀ events, ∀ e ∈ (Server.run lower upper Server.start events).rooms,
      NamesOk lower (e.2.players.map (fun p => p.name))) ∧
    (∀ (s : Server) (ev : ServerEvent), (∀ e ∈ s.rooms, NamesOk lower (e.2.players.map (fun p => p.name))) →
      ∀ e ∈ (s.step lower upper ev).1.rooms,
        NamesOk lower (e.2.players.map (fun p => p.name))) :=
  ⟨fun events =>
    run_invariant lower upper (fun room => NamesOk lower (room.players.map (fun p => p.name)))
      (namesOk_fresh lower) (namesOk_step lower) events Server.start
      (fun e he => absurd he (List.not_mem_nil e)),
   fun s ev hs =>
    step_invariant lower upper (fun room => NamesOk lower (room.players.map (fun p => p.name)))
      (namesOk_fresh lower) (namesOk_step lower) s ev hs⟩

/-- Witness for C21: the names in the lobby of Ann, Bob, Cara and Dee are fine, and they
still are after Ann kicked Cara. -/
theorem names_invariant_witness :
    (∀ e ∈ (runFromStart eventsLobby4).rooms,
      NamesOk asciiLower (e.2.players.map (fun p => p.name))) ∧
    ∀ e ∈ ((runFromStart eventsLobby4).step asciiLower asciiUpper
        (ServerEvent.client "a" (ClientEvent.kickPlayer "Cara"))).1.rooms,
      NamesOk asciiLower (e.2.players.map (fun p => p.name)) :=
  ⟨by decide,
   (names_invariant asciiLower asciiUpper).2 (runFromStart eventsLobby4)
    (ServerEvent.client "a" (ClientEvent.kickPlayer "Cara")) (by decide)⟩

/-- C24: settings. An update-settings from the host with numeric values (integers among
them) stores each supplied field clamped into its range (timerDuration into [30,300], imposterCount into
[0,5], maxRounds into [0,20], hintTimer into [0,120]) and leaves every field that is not
supplied as it was; and after every run of events from start-up the four settings of
every room lie in their ranges (a room is created with 120, 0, 0, 0). -/
theorem settings_clamped (lower upper : String → String) :
    (∀ (room : Room) (t i m h : Option ℚ),
      ∃ r emits, updateSettings room room.host t i m h = HandlerResult.ok r emits ∧
        (∀ x, t = some x → r.settings.timerDuration = min 300 (max 30 x)) ∧
        (∀ x, i = some x → r.settings.imposterCount = min 5 (max 0 x)) ∧
        (∀ x, m = some x → r.settings.maxRounds = min 20 (max 0 x)) ∧
        (∀ x, h = some x → r.settings.hintTimer = min 120 (max 0 x)) ∧
        (t = none → r.settings.timerDuration = room.settings.timerDuration) ∧
        (i = none → r.settings.imposterCount = room.settings.imposterCount) ∧
        (m = none → r.settings.maxRounds = room.settings.maxRounds) ∧
        (h = none → r.settings.hintTimer = room.settings.hintTimer)) ∧
    (∀ x : ℚ, (30 ≤ min 300 (max 30 x) ∧ min 300 (max 30 x) ≤ 300) ∧
      (0 ≤ min 5 (max 0 x) ∧ min 5 (max 0 x) ≤ 5) ∧
      (0 ≤ min 20 (max 0 x) ∧ min 20 (max 0 x) ≤ 20) ∧
      (0 ≤ min 120 (max 0 x) ∧ min 120 (max 0 x) ≤ 120)) ∧
    (∀ events, ∀ e ∈ (Server.run lower upper Server.start events).rooms,
      SettingsInRange e.2.settings) := by
  refine ⟨?_, ?_, ?_⟩
  · intro room t i m h
    unfold updateSettings
    rw [if_neg (by simp)]
    refine ⟨_, _, rfl, ?_, ?_, ?_, ?_, ?_, ?_, ?_, ?_⟩ <;>
      · intro a
        try intro b
        subst_vars
        rfl
  · intro x
    exact ⟨⟨le_min (by norm_num) (le_max_left _ _), min_le_left _ _⟩,
      ⟨le_min (by norm_num) (le_max_left _ _), min_le_left _ _⟩,
      ⟨le_min (by norm_num) (le_max_left _ _), min_le_left _ _⟩,
      ⟨le_min (by norm_num) (le_max_left _ _), min_le_left _ _⟩⟩
  · intro events
    exact run_invariant lower upper (fun room => SettingsInRange room.settings)
      settings_fresh (settings_step lower) events Server.start
      (fun e he => absurd he (List.not_mem_nil e))

/-- Witness for C24: in the lobby of four the host asks for a discussion timer of 1000
seconds and 3 imposters; the timer is stored as 300, the imposter count as 3, and the
round limit stays 0. -/
theorem settings_clamped_witness :
    ∃ r emits, updateSettings roomLobby4 "h" (some 1000) (some 3) none none =
        HandlerResult.ok r emits ∧
      r.settings.timerDuration = 300 ∧ r.settings.imposterCount = 3 ∧
      r.settings.maxRounds = 0 := by
  obtain ⟨r, emits, h0, h1, h2, _, _, _, _, h7, _⟩ :=
    (settings_clamped asciiLower asciiUpper).1 roomLobby4 (some 1000) (some 3) none none
  exact ⟨r, emits, h0, (h1 1000 rfl).trans (by decide), (h2 3 rfl).trans (by decide),
    (h7 rfl).trans (by decide)⟩

/-- C28: no vote for oneself is ever stored. After every run of events from start-up no
entry of the votes mapping of any room has a voter name equal to its target name; a
submit-vote whose `votedFor` is the sender's own name is ignored; and one event leaves
the votes of a room as they were, empties them, or writes one vote whose target is not
the voter's name. -/
theorem votes_no_self_vote (lower upper : String → String) :
    (∀ events, ∀ e ∈ (Server.run lower upper Server.start events).rooms,
      NoSelfVote e.2.state.votes) ∧
    (∀ (room : Room) (sid : SocketId) (player : Player),
      room.players.find? (fun p => p.id == sid) = some player →
      submitVote room sid player.name = Outcome.ignored) ∧
    (∀ (s : Server) (ev : ServerEvent), ∀ e ∈ (s.step lower upper ev).1.rooms,
      e ∈ s.rooms ∨ e.2.state.votes = ⟨[]⟩ ∨
      ∃ room, (e.1, room) ∈ s.rooms ∧
        (e.2.state.votes = room.state.votes ∨
          ∃ k v, v ≠ k ∧ e.2.state.votes = room.state.votes.set k v)) := by
  refine ⟨?_, ?_, ?_⟩
  · intro events
    exact run_invariant lower upper (fun room => NoSelfVote room.state.votes)
      noSelfVote_fresh (noSelfVote_step lower) events Server.start
      (fun e he => absurd he (List.not_mem_nil e))
  · intro room sid player hf
    unfold submitVote
    rw [hf]
    simp only []
    split_ifs <;> rfl
  · intro s ev e he
    rcases step_rooms lower upper s ev e he with h | ⟨⟨_, _, _, _, _, hv⟩, _⟩ | ⟨room, hmem, hr⟩
    · exact Or.inl h
    · exact Or.inr (Or.inl hv)
    · rcases hr.2.2 with hv | hv | hv
      · exact Or.inr (Or.inr ⟨room, hmem, Or.inl hv⟩)
      · exact Or.inr (Or.inl hv)
      · exact Or.inr (Or.inr ⟨room, hmem, Or.inr hv⟩)

/-- Witness for C28: in the room of four voters Eve's vote for herself is ignored. -/
theorem votes_no_self_vote_witness :
    submitVote roomFourVoters "s4" "Eve" = Outcome.ignored :=
  (votes_no_self_vote asciiLower asciiUpper).2.1 roomFourVoters "s4"
    ⟨"s4", "Eve", false, false⟩ (by decide)

/-! ## Theorems: the tally on a room whose only active player has no count -/

/-- C29: the tally can read an empty ranking. After the run `eventsLastVoter` the room is
in phase voting, its only active player is the one named `__proto__`, the votes hold the
one vote of Cara, who has been eliminated since, and the ranking of the room is empty;
the server is running. The vote of the remaining player then invokes `tallyVotes`, whose
read of `sorted[0][1]` throws: the server has ended. -/
theorem tallyVotes_reads_empty_ranking :
    (roomAfter eventsLastVoter).map (fun room => decide (room.state.phase = Phase.voting)) =
      some true ∧
    (roomAfter eventsLastVoter).map (fun room => room.state.votes.own) =
      some [("Cara", "Dee")] ∧
    (roomAfter eventsLastVoter).map getActivePlayersInRoom =
      some [⟨"b", "__proto__", false, false⟩] ∧
    (roomAfter eventsLastVoter).map rankedResults = some [] ∧
    (runFromStart eventsLastVoter).crashed = false ∧
    (runFromStart eventsLastVote).crashed = true := by
  decide

end Imposte
